import Mathlib

/-!
# SD-drive: the `Link` to the host, the `Event` message buffer, `Disk` and `Disks`

A shallow embedding of `src/Event.h`, `src/Event.cpp`, of `src/link.cpp`
(`Link::begin`, `Link::getEvent`, `Link::stateMachine`, `Link::getAnEvent`,
the mode switches, `Link::writeByte` and `Link::sendEvent`), of `src/Disk.h`,
`src/Disk.cpp` and of `src/Disks.cpp` (the per-drive operations, the parser
of the configuration file, `closeAll`, `poll` and `saveConfig`).

Conventions of the embedding

* `byte` values are natural numbers reduced `% 256` at the point where the
  source converts to `byte`; `unsigned int` is the 16-bit type of the AVR
  target, reduced `% 65536` where the source can wrap.
* `Event *` is `Option Nat`: `none` is `NULL`, `some a` is the address `a` of
  an `Event` in `Link.heap`.  Dereferencing `NULL` is undefined in the source;
  the embedding makes the step fail (`none`).
* The busy-wait handshake of `writeByte`/`prepareWrite` talks to the host
  through `debounceInputPin`, which is outside the sources; the host is taken
  to complete every handshake, and `writeByte` is recorded by the byte it
  puts on the bus (`Link.wire`).  `Serial` debug output is not modelled.
* The function-local statics `state` and `count` of `Link::stateMachine` are
  fields of `Link`.
* The storage driver (`SD`, `File`) is outside the sources.  Its model
  (`SDCard`, `File`) follows the collaborator contract of the specification:
  existence check, open, seek-to-offset, available-byte-count, byte read and
  write, flush, close.  The card is passed to every operation that consults
  it, and returned by the one that changes it (`Disk::write`).
* The contract does not say what a seek to a position beyond the end of a
  file does.  `File.seek`, which `Disk.read` and `Disk.write` use, moves the
  handle there; `File.seekPast` and `Disk.readPast` leave the position the
  driver gives the handle in that case as a parameter.
* An index outside `disks[0 .. MAX_DISKS - 1]` is undefined in the source; the
  embedding makes the operation fail (`none`).  So does a read or a write
  outside `filename[13]` of `Disks` or outside the array of an `Event`.
* Loops of the source that run until the driver or the data says so take a
  bound on the number of rounds as their first argument; the callers in the
  embedding pass a bound that the loop cannot use up.
* `getSectorSize`, which `link.cpp` declares `extern`, is a parameter of
  `Link.sendEvent`.
-/

namespace SDDrive

/-! ## Event.h -/

/-- The enumeration `EVENT_TYPE` of `Event.h`, in declaration order. -/
inductive EVENT_TYPE where
  | EVT_NONE
  | EVT_GET_VERSION
  | EVT_VERSION_INFO
  | EVT_PING
  | EVT_DONE
  | EVT_CONTROL_LED
  | EVT_TYPE_FILE
  | EVT_ACK
  | EVT_NAK
  | EVT_FILE_DATA
  | EVT_SEND_DATA
  | EVT_GET_DIRECTORY
  | EVT_DIR_INFO
  | EVT_DIR_END
  | EVT_GET_MOUNTED
  | EVT_MOUNTED
  | EVT_MOUNT
  | EVT_UNMOUNT
  | EVT_READ_SECTOR
  | EVT_READ_SECTOR_LONG
  | EVT_WRITE_SECTOR
  | EVT_WRITE_SECTOR_LONG
  | EVT_GET_STATUS
  | EVT_DISK_STATUS
  | EVT_GET_CLOCK
  | EVT_CLOCK_DATA
  | EVT_SET_CLOCK
  | EVT_WRITE_FILE
  | EVT_WRITE_BYTES
  | EVT_SAVE_CONFIG
  | EVT_SET_TIMER
  deriving DecidableEq, Repr

open EVENT_TYPE

/-- The macro `BUFFER_SIZE` of `Event.h`. -/
def BUFFER_SIZE : Nat := 256 + 10

/-- The class `Event`: `type`, the array `buffer[BUFFER_SIZE]` (a map from
position to byte) and the cursor `index`. -/
structure Event where
  type : EVENT_TYPE
  buffer : Nat → Nat
  index : Nat

/-- The constructor `Event::Event`; the array starts with the content `mem`. -/
def Event.new (mem : Nat → Nat) : Event :=
  { type := EVT_NONE, buffer := mem, index := 0 }

/-- The accessor `Event::getType`. -/
def Event.getType (e : Event) : EVENT_TYPE := e.type

/-- The accessor `Event::getLength`. -/
def Event.getLength (e : Event) : Nat := e.index

/-- The accessor `Event::getData`: the array itself. -/
def Event.getData (e : Event) : Nat → Nat := e.buffer

/-- The method `Event::addByte`: nothing happens when the cursor has reached
`BUFFER_SIZE`, otherwise `buffer[index++] = data` with `data` a `byte`. -/
def Event.addByte (e : Event) (data : Nat) : Event :=
  if e.index = BUFFER_SIZE then e
  else { e with buffer := Function.update e.buffer e.index (data % 256), index := e.index + 1 }

/-- The method `Event::clearData`. -/
def Event.clearData (e : Event) : Event := { e with index := 0 }

/-- The method `Event::setType`. -/
def Event.setType (e : Event) (ntype : EVENT_TYPE) : Event :=
  Event.clearData { e with type := ntype }

/-- The method `Event::clean(void)`. -/
def Event.clean0 (e : Event) : Event := { e with type := EVT_NONE, index := 0 }

/-- The method `Event::clean(EVENT_TYPE)`. -/
def Event.clean (e : Event) (atype : EVENT_TYPE) : Event := { e with type := atype, index := 0 }

/-- The bytes a reader of the message sees: the first `getLength` bytes of
`getData`, in order. -/
def Event.payload (e : Event) : List Nat := (List.range e.getLength).map e.getData

/-- Repeated `addByte`, one call per byte, in order. -/
def Event.addBytes (e : Event) (bs : List Nat) : Event := bs.foldl Event.addByte e

/-! ## UserInt.h -/

/-- The enumeration `UiTransactionType` of `UserInt.h`. -/
inductive UiTransactionType where
  | UI_TRANSACTION_STOP
  | UI_TRANSACTION_START
  | UI_SD_REMOVED
  | UI_SD_INSERTED
  deriving DecidableEq, Repr

open UiTransactionType

/-! ## link.h: protocol codes -/

@[simp] def PROTO_GET_VERSION : Nat := 0x01
@[simp] def PROTO_PING : Nat := 0x05
@[simp] def PROTO_LED_CONTROL : Nat := 0x06
@[simp] def PROTO_GET_CLOCK : Nat := 0x07
@[simp] def PROTO_SET_CLOCK : Nat := 0x08
@[simp] def PROTO_GET_DIR : Nat := 0x10
@[simp] def PROTO_GET_MOUNTED_LIST : Nat := 0x11
@[simp] def PROTO_MOUNT : Nat := 0x12
@[simp] def PROTO_UNMOUNT : Nat := 0x13
@[simp] def PROTO_GET_STATUS : Nat := 0x14
@[simp] def PROTO_DONE : Nat := 0x15
@[simp] def PROTO_ABORT : Nat := 0x15
@[simp] def PROTO_READ_FILE : Nat := 0x16
@[simp] def PROTO_READ_BYTES : Nat := 0x17
@[simp] def PROTO_READ_SECTOR : Nat := 0x18
@[simp] def PROTO_WRITE_SECTOR : Nat := 0x19
@[simp] def PROTO_GET_MAX_DRIVES : Nat := 0x1a
@[simp] def PROTO_WRITE_FILE : Nat := 0x1b
@[simp] def PROTO_WRITE_BYTES : Nat := 0x1c
@[simp] def PROTO_SAVE_CONFIG : Nat := 0x1d
@[simp] def PROTO_SET_TIMER : Nat := 0x1e
@[simp] def PROTO_READ_SECTOR_LONG : Nat := 0x1f
@[simp] def PROTO_WRITE_SECTOR_LONG : Nat := 0x20

@[simp] def PROTO_VERSION : Nat := 0x81
@[simp] def PROTO_ACK : Nat := 0x82
@[simp] def PROTO_NAK : Nat := 0x83
@[simp] def PROTO_PONG : Nat := 0x85
@[simp] def PROTO_CLOCK_DATA : Nat := 0x87
@[simp] def PROTO_DIR : Nat := 0x90
@[simp] def PROTO_DIR_END : Nat := 0x91
@[simp] def PROTO_FILE_DATA : Nat := 0x92
@[simp] def PROTO_STATUS : Nat := 0x93
@[simp] def PROTO_SECTOR_DATA : Nat := 0x94
@[simp] def PROTO_MOUNT_INFO : Nat := 0x95

/-- The macro `PROTOCOL_VERSION` of `link.cpp`. -/
def PROTOCOL_VERSION : Nat := 1

/-- The macro `LOWER_MASK` of `link.cpp`. -/
def LOWER_MASK : Nat := 0xff

/-- The range of `unsigned int` on the 16-bit target. -/
def UINT_RANGE : Nat := 65536

/-! ## link.cpp -/

/-- The enumeration `STATE` of `link.cpp`. -/
inductive STATE where
  | STATE_CMD
  | STATE_WAIT_NULL
  | STATE_GET_ONE
  | STATE_GET_TWO
  | STATE_GET_THREE
  | STATE_GET_FOUR
  | STATE_GET_FIVE
  | STATE_GET_SIX
  | STATE_GET_DRV_NUMBER_TO_MOUNT
  | STATE_GET_DRV_NAME
  | STATE_APPEND_SECTOR
  | STATE_GET_LENGTH
  deriving DecidableEq, Repr

open STATE

/-- The class `Link` with what its methods act on: the members `hasEvent`,
`event`, `freeEvent`; the `Event` objects they point to (`heap`); the statics
`state` and `count` of `stateMachine`; the data-direction register
`LOWER_DDR`; the bytes written to the host so far (`wire`); the notifications
sent to the indicator so far (`ui`). -/
structure Link where
  hasEvent : Bool
  event : Option Nat
  freeEvent : Option Nat
  heap : Nat → Event
  state : STATE
  count : Nat
  lowerDDR : Nat
  wire : List Nat
  ui : List UiTransactionType

/-- The method `Link::prepareRead`: `LOWER_DDR = (~LOWER_MASK) & 0xff`. -/
def Link.prepareRead (l : Link) : Link :=
  { l with lowerDDR := (255 - LOWER_MASK) % 256 }

/-- The method `Link::prepareWrite`, once the host has released the bus. -/
def Link.prepareWrite (l : Link) : Link :=
  { l with lowerDDR := LOWER_MASK }

/-- The method `Link::writeByte`, the host completing the handshake. -/
def Link.writeByte (l : Link) (data : Nat) : Link :=
  { l with wire := l.wire ++ [data % 256] }

/-- The call `uInt->sendEvent(trans)`. -/
def Link.uiSendEvent (l : Link) (trans : UiTransactionType) : Link :=
  { l with ui := l.ui ++ [trans] }

/-- The method `Link::begin`; `addr` is the address `new Event()` returns and
`mem` the content of the new array. -/
def Link.begin (l : Link) (addr : Nat) (mem : Nat → Nat) : Link :=
  let l1 := { l with hasEvent := false }
  let l2 := l1.prepareRead
  { l2 with freeEvent := some addr, heap := Function.update l2.heap addr (Event.new mem) }

/-- The method `Link::getEvent`: the new object state and the pointer returned. -/
def Link.getEvent (l : Link) : Link × Option Nat :=
  let eptr := l.event
  ({ l with event := none, hasEvent := false }, eptr)

/-- The method `Link::getAnEvent`. -/
def Link.getAnEvent (l : Link) : Option Nat := l.freeEvent

/-- The method `Link::freeAnEvent`. -/
def Link.freeAnEvent (l : Link) (eptr : Option Nat) : Link := { l with freeEvent := eptr }

/-- The pair of statements `event = getAnEvent(); event->clean(atype);`. -/
def Link.newEvent (l : Link) (atype : EVENT_TYPE) : Option Link :=
  match l.getAnEvent with
  | none => none
  | some a => some { l with event := some a, heap := Function.update l.heap a ((l.heap a).clean atype) }

/-- The statement `event->addByte(token);`. -/
def Link.eventAddByte (l : Link) (token : Nat) : Option Link :=
  match l.event with
  | none => none
  | some a => some { l with heap := Function.update l.heap a ((l.heap a).addByte token) }

/-- The expression `event->getType()`. -/
def Link.eventGetType (l : Link) : Option EVENT_TYPE :=
  l.event.map (fun a => (l.heap a).getType)

/-- The tail of `Link::stateMachine`: `if (transactionDone) uInt->sendEvent(UI_TRANSACTION_STOP);`. -/
def Link.finish (l : Link) (transactionDone : Bool) : Link :=
  if transactionDone then l.uiSendEvent UI_TRANSACTION_STOP else l

/-- The `case STATE_CMD:` arm of `Link::stateMachine`, after the
transaction-start notification: the inner `switch (token)`.  The result is the
new state paired with the local `transactionDone`. -/
def Link.command (l : Link) (token : Nat) : Option (Link × Bool) :=
  if token = PROTO_VERSION then
    some ((((l.prepareWrite).writeByte PROTO_VERSION).writeByte PROTOCOL_VERSION).prepareRead, true)
  else if token = PROTO_PING then
    some (((l.prepareWrite).writeByte PROTO_PONG).prepareRead, true)
  else if token = PROTO_READ_FILE then
    (l.newEvent EVT_TYPE_FILE).map (fun l => ({ l with state := STATE_WAIT_NULL, hasEvent := false }, false))
  else if token = PROTO_READ_BYTES then
    (l.newEvent EVT_SEND_DATA).map (fun l => ({ l with state := STATE_GET_ONE, hasEvent := false }, false))
  else if token = PROTO_GET_DIR then
    (l.newEvent EVT_GET_DIRECTORY).map (fun l => ({ l with hasEvent := true }, false))
  else if token = PROTO_MOUNT then
    (l.newEvent EVT_MOUNT).map
      (fun l => ({ l with hasEvent := false, state := STATE_GET_DRV_NUMBER_TO_MOUNT }, false))
  else if token = PROTO_UNMOUNT then
    (l.newEvent EVT_UNMOUNT).map (fun l => ({ l with hasEvent := false, state := STATE_GET_ONE }, false))
  else if token = PROTO_READ_SECTOR then
    (l.newEvent EVT_READ_SECTOR).map (fun l => ({ l with state := STATE_GET_FIVE }, false))
  else if token = PROTO_READ_SECTOR_LONG then
    (l.newEvent EVT_READ_SECTOR_LONG).map (fun l => ({ l with state := STATE_GET_SIX }, false))
  else if token = PROTO_WRITE_SECTOR then
    (l.newEvent EVT_WRITE_SECTOR).map (fun l => ({ l with state := STATE_GET_FIVE, count := 0 }, false))
  else if token = PROTO_WRITE_SECTOR_LONG then
    (l.newEvent EVT_WRITE_SECTOR_LONG).map (fun l => ({ l with state := STATE_GET_SIX, count := 0 }, false))
  else if token = PROTO_DONE then
    (l.newEvent EVT_DONE).map (fun l => (l, true))
  else if token = PROTO_GET_STATUS then
    (l.newEvent EVT_GET_STATUS).map (fun l => ({ l with state := STATE_GET_ONE }, false))
  else if token = PROTO_GET_VERSION then
    (l.newEvent EVT_GET_VERSION).map (fun l => ({ l with hasEvent := true }, false))
  else if token = PROTO_GET_MOUNTED_LIST then
    (l.newEvent EVT_GET_MOUNTED).map (fun l => ({ l with hasEvent := true }, false))
  else if token = PROTO_GET_CLOCK then
    (l.newEvent EVT_GET_CLOCK).map (fun l => ({ l with hasEvent := true }, false))
  else if token = PROTO_SET_CLOCK then
    (l.newEvent EVT_SET_CLOCK).map (fun l => ({ l with count := 8, state := STATE_APPEND_SECTOR }, false))
  else if token = PROTO_WRITE_FILE then
    (l.newEvent EVT_WRITE_FILE).map (fun l => ({ l with state := STATE_WAIT_NULL, hasEvent := false }, false))
  else if token = PROTO_WRITE_BYTES then
    (l.newEvent EVT_WRITE_BYTES).map (fun l => ({ l with state := STATE_GET_LENGTH, hasEvent := false }, false))
  else if token = PROTO_SAVE_CONFIG then
    (l.newEvent EVT_SAVE_CONFIG).map (fun l => ({ l with hasEvent := true }, false))
  else if token = PROTO_SET_TIMER then
    (l.newEvent EVT_SET_TIMER).map (fun l => ({ l with state := STATE_GET_ONE }, false))
  else
    some (l, true)

/-- The method `Link::stateMachine`, one inbound `token` (a `word`). -/
def Link.stateMachine (l : Link) (token : Nat) : Option Link :=
  match l.state with
  | STATE_CMD =>
    (Link.command (l.uiSendEvent UI_TRANSACTION_START) token).map (fun r => r.1.finish r.2)
  | STATE_WAIT_NULL =>
    (l.eventAddByte token).map (fun l =>
      if token = 0x00 then { l with state := STATE_CMD, hasEvent := true } else l)
  | STATE_GET_SIX => (l.eventAddByte token).map (fun l => { l with state := STATE_GET_FIVE })
  | STATE_GET_FIVE => (l.eventAddByte token).map (fun l => { l with state := STATE_GET_FOUR })
  | STATE_GET_FOUR => (l.eventAddByte token).map (fun l => { l with state := STATE_GET_THREE })
  | STATE_GET_THREE => (l.eventAddByte token).map (fun l => { l with state := STATE_GET_TWO })
  | STATE_GET_TWO => (l.eventAddByte token).map (fun l => { l with state := STATE_GET_ONE })
  | STATE_GET_ONE =>
    (l.eventAddByte token).map (fun l =>
      if l.eventGetType = some EVT_WRITE_SECTOR ∨ l.eventGetType = some EVT_WRITE_SECTOR_LONG then
        { l with count := 256, state := STATE_APPEND_SECTOR }
      else
        { l with state := STATE_CMD, hasEvent := true })
  | STATE_GET_DRV_NUMBER_TO_MOUNT =>
    (l.eventAddByte token).map (fun l => { l with state := STATE_GET_DRV_NAME })
  | STATE_GET_DRV_NAME =>
    (l.eventAddByte token).map (fun l => { l with state := STATE_WAIT_NULL })
  | STATE_APPEND_SECTOR =>
    (l.eventAddByte token).map (fun l =>
      let l := { l with count := (l.count + (UINT_RANGE - 1)) % UINT_RANGE }
      if l.count = 0 then { l with state := STATE_CMD, hasEvent := true } else l)
  | STATE_GET_LENGTH =>
    let l := { l with count := if token = 0 then 256 else token }
    (l.eventAddByte token).map (fun l => { l with state := STATE_APPEND_SECTOR })

/-- Bytes fed to `Link::stateMachine` one at a time, in arrival order. -/
def Link.feed : Link → List Nat → Option Link
  | l, [] => some l
  | l, b :: bs =>
    match l.stateMachine b with
    | none => none
    | some l1 => Link.feed l1 bs

/-- The message a caller of `getEvent` would find behind `event`: its kind,
its length and its bytes; `none` when `event` is `NULL`. -/
def Link.message (l : Link) : Option (EVENT_TYPE × Nat × List Nat) :=
  l.event.map (fun a => ((l.heap a).getType, (l.heap a).getLength, (l.heap a).payload))

/-- The `Link` at power-on, before `begin`: the statics of `stateMachine` at
their initialisers (`state = STATE_CMD`, `count` zero), nothing written yet,
and the members a constructor leaves unset taken as zero/`NULL`. -/
def Link.powerOn : Link :=
  { hasEvent := false, event := none, freeEvent := none,
    heap := fun _ => Event.new (fun _ => 0),
    state := STATE_CMD, count := 0, lowerDDR := 0, wire := [], ui := [] }

/-- The initial state of the parser: `begin` run once after power-on, the
`Event` allocated at address `1`. -/
def Link.initial : Link := Link.powerOn.begin 1 (fun _ => 0)

/-- The initial state after the get-version byte `0x01`: a message is
available and has not been retrieved. -/
def Link.pending : Link := (Link.initial.stateMachine 0x01).getD Link.initial

/-! ## Specification vocabulary -/

/-- The link with the `Event` at address `a` replaced by `e`. -/
def Link.store (l : Link) (a : Nat) (e : Event) : Link :=
  { l with heap := Function.update l.heap a e }

/-- The parser is in state `s` and `event` points to address `a`, where the
`Event` `e` lives. -/
def Link.At (l : Link) (a : Nat) (e : Event) (s : STATE) : Prop :=
  l.event = some a ∧ l.heap a = e ∧ l.state = s

/-- The countdown states by the number of bytes still to come after the next
one: `STATE_GET_ONE` for `0` up to `STATE_GET_SIX` for `5`. -/
def STATE.countdown : Nat → STATE
  | 0 => STATE_GET_ONE
  | 1 => STATE_GET_TWO
  | 2 => STATE_GET_THREE
  | 3 => STATE_GET_FOUR
  | 4 => STATE_GET_FIVE
  | _ => STATE_GET_SIX

/-- The commands of the inner `switch` that start collecting a payload: the
command byte, the kind the message is cleaned to, and the state entered. -/
def Link.opening : List (Nat × EVENT_TYPE × STATE) :=
  [ (PROTO_READ_FILE, EVT_TYPE_FILE, STATE_WAIT_NULL),
    (PROTO_READ_BYTES, EVT_SEND_DATA, STATE_GET_ONE),
    (PROTO_MOUNT, EVT_MOUNT, STATE_GET_DRV_NUMBER_TO_MOUNT),
    (PROTO_UNMOUNT, EVT_UNMOUNT, STATE_GET_ONE),
    (PROTO_READ_SECTOR, EVT_READ_SECTOR, STATE_GET_FIVE),
    (PROTO_READ_SECTOR_LONG, EVT_READ_SECTOR_LONG, STATE_GET_SIX),
    (PROTO_WRITE_SECTOR, EVT_WRITE_SECTOR, STATE_GET_FIVE),
    (PROTO_WRITE_SECTOR_LONG, EVT_WRITE_SECTOR_LONG, STATE_GET_SIX),
    (PROTO_GET_STATUS, EVT_GET_STATUS, STATE_GET_ONE),
    (PROTO_SET_CLOCK, EVT_SET_CLOCK, STATE_APPEND_SECTOR),
    (PROTO_WRITE_FILE, EVT_WRITE_FILE, STATE_WAIT_NULL),
    (PROTO_WRITE_BYTES, EVT_WRITE_BYTES, STATE_GET_LENGTH),
    (PROTO_SET_TIMER, EVT_SET_TIMER, STATE_GET_ONE) ]

/-- Feeding `bs` from `l` ends in `m`, and after every prefix of `bs` (the
empty one and `bs` itself included) no message is reported available. -/
def Link.Quietly (l : Link) (bs : List Nat) (m : Link) : Prop :=
  l.feed bs = some m ∧
    ∀ k, k ≤ bs.length → (l.feed (bs.take k)).map Link.hasEvent = some false

/-- The frame `frame`, fed from `l`, delivers one message of kind `kind` with
bytes `body`: after no proper prefix of the frame is a message available; on
the last byte of the frame a message is available, the parser is back in
`STATE_CMD`, and the message behind `event` has kind `kind`, length
`body.length` and data `body`. -/
def Link.Delivers (l : Link) (frame : List Nat) (kind : EVENT_TYPE) (body : List Nat) : Prop :=
  (∀ k, k < frame.length → (l.feed (frame.take k)).map Link.hasEvent = some false) ∧
    (l.feed frame).map Link.hasEvent = some true ∧
    (l.feed frame).map Link.state = some STATE_CMD ∧
    (l.feed frame).map Link.message = some (some (kind, body.length, body))

/-- The frame `frame`, fed from `l` whatever its available flag is, delivers
one message of kind `kind` with bytes `body`: from the first byte of the frame
on, after no proper prefix of the frame is a message available; on the last
byte of the frame a message is available, the parser is back in `STATE_CMD`,
and the message behind `event` has kind `kind`, length `body.length` and data
`body`. -/
def Link.DeliversAnew (l : Link) (frame : List Nat) (kind : EVENT_TYPE) (body : List Nat) :
    Prop :=
  (∀ k, 1 ≤ k → k < frame.length → (l.feed (frame.take k)).map Link.hasEvent = some false) ∧
    (l.feed frame).map Link.hasEvent = some true ∧
    (l.feed frame).map Link.state = some STATE_CMD ∧
    (l.feed frame).map Link.message = some (some (kind, body.length, body))

/-- The command bytes whose arm of the inner `switch` has `hasEvent = false;`. -/
def Link.clearing : List Nat :=
  [ PROTO_READ_FILE, PROTO_READ_BYTES, PROTO_MOUNT, PROTO_UNMOUNT, PROTO_WRITE_FILE,
    PROTO_WRITE_BYTES ]

/-- The fixed-length commands: command byte, number of payload bytes, kind
of the message. -/
def Link.fixedLength : List (Nat × Nat × EVENT_TYPE) :=
  [ (0x13, 1, EVT_UNMOUNT), (0x14, 1, EVT_GET_STATUS), (0x1e, 1, EVT_SET_TIMER),
    (0x17, 1, EVT_SEND_DATA), (0x18, 5, EVT_READ_SECTOR), (0x1f, 6, EVT_READ_SECTOR_LONG),
    (0x08, 8, EVT_SET_CLOCK) ]

/-- The sector writes: command byte, number of header bytes, kind of the
message. -/
def Link.sectorWrites : List (Nat × Nat × EVENT_TYPE) :=
  [ (0x19, 5, EVT_WRITE_SECTOR), (0x20, 6, EVT_WRITE_SECTOR_LONG) ]

/-- The commands whose payload is a name ended by a zero byte. -/
def Link.nameCommands : List (Nat × EVENT_TYPE) :=
  [ (0x16, EVT_TYPE_FILE), (0x1b, EVT_WRITE_FILE) ]

/-- The commands without payload: command byte and kind of the message. -/
def Link.noPayload : List (Nat × EVENT_TYPE) :=
  [ (0x01, EVT_GET_VERSION), (0x10, EVT_GET_DIRECTORY), (0x11, EVT_GET_MOUNTED),
    (0x07, EVT_GET_CLOCK), (0x1d, EVT_SAVE_CONFIG) ]

/-- The `case` labels of the inner `switch (token)` of `Link::stateMachine`. -/
def Link.recognized : List Nat :=
  [ PROTO_VERSION, PROTO_PING, PROTO_READ_FILE, PROTO_READ_BYTES, PROTO_GET_DIR, PROTO_MOUNT,
    PROTO_UNMOUNT, PROTO_READ_SECTOR, PROTO_READ_SECTOR_LONG, PROTO_WRITE_SECTOR,
    PROTO_WRITE_SECTOR_LONG, PROTO_DONE, PROTO_GET_STATUS, PROTO_GET_VERSION,
    PROTO_GET_MOUNTED_LIST, PROTO_GET_CLOCK, PROTO_SET_CLOCK, PROTO_WRITE_FILE,
    PROTO_WRITE_BYTES, PROTO_SAVE_CONFIG, PROTO_SET_TIMER ]

/-- What the owner of a `Link` can do to it between two looks at it: hand one
inbound byte to `stateMachine`, or call `getEvent`. -/
inductive Action where
  | byte (b : Nat)
  | getEvent
  deriving DecidableEq, Repr

/-- One action on the link. -/
def Link.act (l : Link) : Action → Option Link
  | Action.byte b => l.stateMachine b
  | Action.getEvent => some l.getEvent.1

/-- A sequence of actions, in order. -/
def Link.run : Link → List Action → Option Link
  | l, [] => some l
  | l, x :: xs =>
    match l.act x with
    | none => none
    | some l1 => Link.run l1 xs

/-- The state `begin` establishes and every action keeps: the pool pointer
`freeEvent` is set, and `event` is set whenever a message is reported
available. -/
def Link.Ready (l : Link) : Prop :=
  l.freeEvent ≠ none ∧ (l.hasEvent = true → l.event ≠ none)

/-! ## Operations on a message, as a caller can apply them -/

/-- One public operation of `Event` that changes the object. -/
inductive EventOp where
  | addByte (data : Nat)
  | clean0
  | clean (atype : EVENT_TYPE)
  | setType (ntype : EVENT_TYPE)
  | clearData

/-- One operation applied to an `Event`. -/
def Event.apply (e : Event) : EventOp → Event
  | EventOp.addByte data => e.addByte data
  | EventOp.clean0 => e.clean0
  | EventOp.clean atype => e.clean atype
  | EventOp.setType ntype => e.setType ntype
  | EventOp.clearData => e.clearData

/-- A sequence of operations applied in order. -/
def Event.applyAll (e : Event) (ops : List EventOp) : Event := ops.foldl Event.apply e

/-! ## Errors.h -/

@[simp] def ERR_NONE : Nat := 0
@[simp] def ERR_NOT_MOUNTED : Nat := 10
@[simp] def ERR_MOUNTED : Nat := 11
@[simp] def ERR_FILE_NOT_FOUND : Nat := 12
@[simp] def ERR_READ_ONLY : Nat := 13
@[simp] def ERR_BAD_DRIVE : Nat := 14
@[simp] def ERR_BAD_TRACK : Nat := 15
@[simp] def ERR_BAD_SECTOR : Nat := 16
@[simp] def ERR_READ_ERROR : Nat := 17
@[simp] def ERR_WRITE_ERROR : Nat := 18
@[simp] def ERR_DEVICE_NOT_PRESENT : Nat := 19
@[simp] def ERR_NOT_IMPLEMENTED : Nat := 20

/-! ## The storage driver (`SD`, `File`) -/

/-- The macro `SECTOR_SIZE` of `Disk.h`. -/
def SECTOR_SIZE : Nat := 256

/-- The macro `FNAME_SIZE` of `Disk.h`. -/
def FNAME_SIZE : Nat := 12

/-- The range of `unsigned long` on the target. -/
def ULONG_RANGE : Nat := 4294967296

/-- The open modes `FILE_READ` and `FILE_WRITE` the sources pass to `SD.open`. -/
inductive OpenFlag where
  | FILE_READ
  | FILE_WRITE
  deriving DecidableEq, Repr

open OpenFlag

/-- Modelled from the spec: the card behind the storage driver object `SD`,
which is outside the sources.  `files` gives the content of each file by name
(`none`: no such file); `opens` says for each name whether the driver manages
to open it.  Names are the characters of the C string. -/
structure SDCard where
  files : List Nat → Option (List Nat)
  opens : List Nat → Bool

/-- Modelled from the spec: a file handle of the storage driver (`File`),
which is outside the sources: whether it is open (what `if (!file)` tests),
the name of the file it was opened on, and the read/write position. -/
structure File where
  isOpen : Bool
  name : List Nat
  pos : Nat

/-- Modelled from the spec: the handle a default-constructed `File` is, and
the one a failed `SD.open` returns: not open. -/
def File.closed : File := { isOpen := false, name := [], pos := 0 }

/-- Modelled from the spec: the existence check `SD.exists(name)`.  The driver
knows 8.3 names only (`Disk.h`), so no name longer than `FNAME_SIZE` exists. -/
def SDCard.fileExists (sd : SDCard) (name : List Nat) : Bool :=
  decide (name.length ≤ FNAME_SIZE) && (sd.files name).isSome

/-- Modelled from the spec: `SD.open(name, mode)` on a name that exists: an
open handle at the start of the file for `FILE_READ`, at its end for
`FILE_WRITE`, or the closed handle when the driver fails to open it.  Opening
an existing file leaves the card as it is.  (Creating a file, `FILE_WRITE` on
an absent name, is not part of this model: `Disk` opens only names that
exist.) -/
def SDCard.open (sd : SDCard) (name : List Nat) (mode : OpenFlag) : File :=
  if sd.fileExists name && sd.opens name then
    { isOpen := true, name := name,
      pos := match mode with
        | FILE_READ => 0
        | FILE_WRITE => ((sd.files name).getD []).length }
  else File.closed

/-- Modelled from the spec: the bytes of the file behind a handle. -/
def File.content (f : File) (sd : SDCard) : List Nat := (sd.files f.name).getD []

/-- Modelled from the spec: `file.size()`; a handle that is not open reports 0. -/
def File.size (f : File) (sd : SDCard) : Nat :=
  if f.isOpen then (f.content sd).length else 0

/-- Modelled from the spec: `file.seek(pos)`, seek-to-offset: the position of
an open handle becomes `pos`. -/
def File.seek (f : File) (pos : Nat) : File :=
  if f.isOpen then { f with pos := pos } else f

/-- Modelled from the spec: `file.seek(pos)` with the answer of the driver to a
position beyond the end of the file left open, which the contract
seek-to-offset does not fix.  Up to the end of the file the position of an
open handle becomes `pos`; for a `pos` beyond the end the handle is left at
`past`: a driver that refuses such a seek has `past` the position the handle
had, a driver that takes it has `past = pos` (which is `File.seek`). -/
def File.seekPast (f : File) (sd : SDCard) (pos past : Nat) : File :=
  if f.isOpen then { f with pos := if pos ≤ f.size sd then pos else past } else f

/-- Modelled from the spec: `file.available()`, the number of bytes from the
position to the end of the file. -/
def File.available (f : File) (sd : SDCard) : Nat := f.size sd - f.pos

/-- Modelled from the spec: `file.read()`: the byte at the position, which
advances; at the end of the file or on a handle that is not open the driver
returns `-1`, which the sources store into a `byte` (255). -/
def File.read (f : File) (sd : SDCard) : File × Nat :=
  if f.pos < f.size sd then ({ f with pos := f.pos + 1 }, (f.content sd).getD f.pos 0)
  else (f, 255)

/-- Modelled from the spec: the card with the content of the file `name`
replaced by `content`. -/
def SDCard.put (sd : SDCard) (name : List Nat) (content : List Nat) : SDCard :=
  { sd with files := Function.update sd.files name (some content) }

/-- Modelled from the spec: `file.write(buf, size)` with `buf` the `size`
bytes to write.  The driver takes `accepted` of them (all of them when
`accepted` is at least their number), stores them over the file content from
the position on, advances the position and returns how many it took; on a
handle that is not open it takes none. -/
def File.write (f : File) (sd : SDCard) (buf : List Nat) (accepted : Nat) :
    File × SDCard × Nat :=
  if f.isOpen then
    match sd.files f.name with
    | none => (f, sd, 0)
    | some c =>
      let k := min accepted buf.length
      let c1 := c.take f.pos ++ buf.take k ++ c.drop (f.pos + k)
      ({ f with pos := f.pos + k }, sd.put f.name c1, k)
  else (f, sd, 0)

/-- Modelled from the spec: `file.flush()`; writes of the model reach the card
at once. -/
def File.flush (f : File) : File := f

/-- Modelled from the spec: `file.close()`. -/
def File.close (f : File) : File := { f with isOpen := false }

/-- The loop `for (i = 0; i < n; i++) { *buf = file.read(); buf++; }`: the
handle afterwards and the bytes stored, in order. -/
def File.readBytes : Nat → File → SDCard → File × List Nat
  | 0, f, _ => (f, [])
  | n + 1, f, sd =>
    let r := f.read sd
    let rest := File.readBytes n r.1 sd
    (rest.1, r.2 :: rest.2)

/-! ## Disk.h, Disk.cpp -/

/-- The class `Disk`. -/
structure Disk where
  goodFlag : Bool
  openFlag : OpenFlag
  mountedFlag : Bool
  isOpenF : Bool
  readOnlyFlag : Bool
  file : File
  filename : List Nat
  errorCode : Nat

/-- The constructor `Disk::Disk`, run over memory holding `raw`: it sets the
two flags; the member `file` is a default-constructed `File`; the other
members keep what the memory held. -/
def Disk.new (raw : Disk) : Disk :=
  { raw with mountedFlag := false, isOpenF := false, file := File.closed }

/-- The accessor `Disk::isGood`. -/
def Disk.isGood (d : Disk) : Bool := d.goodFlag

/-- The accessor `Disk::getFilename`. -/
def Disk.getFilename (d : Disk) : List Nat := d.filename

/-- The accessor `Disk::isMounted`. -/
def Disk.isMounted (d : Disk) : Bool := d.mountedFlag

/-- The accessor `Disk::isOpen`. -/
def Disk.isOpen (d : Disk) : Bool := d.isOpenF

/-- The accessor `Disk::getError`. -/
def Disk.getError (d : Disk) : Nat := d.errorCode

/-- The accessor `Disk::isReadOnly`. -/
def Disk.isReadOnly (d : Disk) : Bool := d.readOnlyFlag

/-- The private method `Disk::setError`. -/
def Disk.setError (d : Disk) (err : Nat) : Disk := { d with goodFlag := false, errorCode := err }

/-- The method `Disk::unmount`. -/
def Disk.unmount (d : Disk) : Disk :=
  if d.mountedFlag then
    let d1 := { d with file := d.file.close }
    let d2 := { d1 with isOpenF := false }
    let d3 := d2.setError ERR_NOT_MOUNTED
    { d3 with mountedFlag := false }
  else d

/-- The method `Disk::mount`.  (The source declares it `bool` and returns
nothing; its callers look at `isGood`.)  `strcpy` copies a name that opened,
which is at most `FNAME_SIZE` characters, into `filename[FNAME_SIZE + 1]`. -/
def Disk.mount (d : Disk) (sd : SDCard) (afilename : List Nat) (readOnly : Bool) : Disk :=
  let d := { d with goodFlag := false }
  if sd.fileExists afilename then
    let d := { d with openFlag := if readOnly then FILE_READ else FILE_WRITE }
    let d := { d with file := sd.open afilename d.openFlag }
    let d := { d with readOnlyFlag := readOnly }
    if !d.file.isOpen then d
    else { d with goodFlag := true, mountedFlag := true, isOpenF := true, filename := afilename }
  else d.setError ERR_FILE_NOT_FOUND

/-- The method `Disk::close`. -/
def Disk.close (d : Disk) : Disk := { d with file := d.file.close, isOpenF := false }

/-- The method `Disk::read`: the disk afterwards, the value returned and the
caller's buffer afterwards (its first `SECTOR_SIZE` bytes are stored on
every path). -/
def Disk.read (d : Disk) (sd : SDCard) (offset : Nat) (buf : List Nat) : Disk × Bool × List Nat :=
  let d := { d with errorCode := ERR_NONE }
  let d := { d with file := d.file.seek offset }
  let bad : Bool := decide (d.file.available sd < SECTOR_SIZE) ||
    decide ((offset + SECTOR_SIZE) % ULONG_RANGE > d.file.size sd)
  let ret := !bad
  let d := if bad then { d with errorCode := ERR_READ_ERROR } else d
  let r := File.readBytes SECTOR_SIZE d.file sd
  ({ d with file := r.1 }, ret, r.2 ++ buf.drop SECTOR_SIZE)

/-- The method `Disk::read` over a driver whose answer to a seek beyond the
end of the file is the parameter `past` of `File.seekPast`; with
`past = offset` this is `Disk.read`.  The sum `offset + SECTOR_SIZE` is an
`unsigned long`, reduced `% ULONG_RANGE`. -/
def Disk.readPast (d : Disk) (sd : SDCard) (offset : Nat) (buf : List Nat) (past : Nat) :
    Disk × Bool × List Nat :=
  let d := { d with errorCode := ERR_NONE }
  let d := { d with file := d.file.seekPast sd offset past }
  let bad : Bool := decide (d.file.available sd < SECTOR_SIZE) ||
    decide ((offset + SECTOR_SIZE) % ULONG_RANGE > d.file.size sd)
  let ret := !bad
  let d := if bad then { d with errorCode := ERR_READ_ERROR } else d
  let r := File.readBytes SECTOR_SIZE d.file sd
  ({ d with file := r.1 }, ret, r.2 ++ buf.drop SECTOR_SIZE)

/-- The method `Disk::write`; `buf` holds the caller's sector and `wrote` is
how many bytes the driver takes.  The result is the disk afterwards, the card
afterwards and the value returned. -/
def Disk.write (d : Disk) (sd : SDCard) (offset : Nat) (buf : List Nat) (wrote : Nat) :
    Disk × SDCard × Bool :=
  let d := { d with errorCode := ERR_NONE }
  if d.readOnlyFlag then ({ d with errorCode := ERR_READ_ONLY }, sd, false)
  else
    let d := { d with file := d.file.seek offset }
    if d.file.available sd < SECTOR_SIZE then ({ d with errorCode := ERR_WRITE_ERROR }, sd, false)
    else
      let w := d.file.write sd (buf.take SECTOR_SIZE) wrote
      let d := { d with file := w.1.flush }
      if w.2.2 ≠ SECTOR_SIZE then ({ d with errorCode := ERR_WRITE_ERROR }, w.2.1, false)
      else (d, w.2.1, true)

/-- The method `Disk::getStatus`. -/
def Disk.getStatus (d : Disk) : Nat :=
  let ret := 0
  if d.mountedFlag then
    let ret := ret ||| 0x01
    if d.readOnlyFlag then ret ||| 0x02 else ret
  else ret

/-- What a caller can do to a `Disk`, with what the driver holds and answers
at that moment. -/
inductive DiskOp where
  | mount (sd : SDCard) (afilename : List Nat) (readOnly : Bool)
  | unmount
  | close
  | read (sd : SDCard) (offset : Nat) (buf : List Nat)
  | write (sd : SDCard) (offset : Nat) (buf : List Nat) (wrote : Nat)

/-- One operation applied to a `Disk`. -/
def Disk.apply (d : Disk) : DiskOp → Disk
  | DiskOp.mount sd afilename readOnly => d.mount sd afilename readOnly
  | DiskOp.unmount => d.unmount
  | DiskOp.close => d.close
  | DiskOp.read sd offset buf => (d.read sd offset buf).1
  | DiskOp.write sd offset buf wrote => (d.write sd offset buf wrote).1

/-- A sequence of operations applied in order. -/
def Disk.applyAll (d : Disk) (ops : List DiskOp) : Disk := ops.foldl Disk.apply d

/-! ## Disks.h, Disks.cpp: the per-drive operations -/

/-- The macro `MAX_DISKS` of `Disks.h`. -/
def MAX_DISKS : Nat := 4

/-- The class `Disks`, as far as the per-drive operations go: the `Disk`
objects behind the pointers `disks[0 .. MAX_DISKS - 1]` and `errorCode`. -/
structure Disks where
  disks : List Disk
  errorCode : Nat

/-- The part of the constructor `Disks::Disks` that creates the `Disk`
objects; `raw d` is the memory the `d`-th one is built in. -/
def Disks.new (raw : Nat → Disk) (errorCode : Nat) : Disks :=
  { disks := (List.range MAX_DISKS).map (fun d => Disk.new (raw d)), errorCode := errorCode }

/-- The private method `Disks::setError`. -/
def Disks.setError (ds : Disks) (code : Nat) : Disks := { ds with errorCode := code }

/-- The accessor `Disks::getErrorCode`. -/
def Disks.getErrorCode (ds : Disks) : Nat := ds.errorCode

/-- The accessor `Disks::isDriveValid`. -/
def Disks.isDriveValid (drive : Nat) : Bool := decide (drive < MAX_DISKS)

/-- The method `Disks::mount`; `none` when `disks[drive]` is outside the array. -/
def Disks.mount (ds : Disks) (sd : SDCard) (drive : Nat) (filename : List Nat) (readOnly : Bool) :
    Option (Disks × Bool) :=
  match ds.disks[drive]? with
  | none => none
  | some d =>
    let d1 := d.mount sd filename readOnly
    let ds1 := { ds with disks := ds.disks.set drive d1 }
    if d1.isGood then some (ds1, true)
    else some (ds1.setError d1.getError, false)

/-- The method `Disks::unmount`; `none` when `disks[drive]` is outside the array. -/
def Disks.unmount (ds : Disks) (drive : Nat) : Option (Disks × Bool) :=
  match ds.disks[drive]? with
  | none => none
  | some d => some ({ ds with disks := ds.disks.set drive d.unmount }, false)

/-- The method `Disks::read`; `none` when `disks[drive]` is outside the array. -/
def Disks.read (ds : Disks) (sd : SDCard) (drive : Nat) (offset : Nat) (buf : List Nat) :
    Option (Disks × Bool × List Nat) :=
  match ds.disks[drive]? with
  | none => none
  | some d =>
    if d.isMounted then
      let r := d.read sd offset buf
      let ds1 := { ds with disks := ds.disks.set drive r.1 }
      if r.2.1 then some ({ ds1 with errorCode := ERR_NONE }, true, r.2.2)
      else some ({ ds1 with errorCode := r.1.getError }, false, r.2.2)
    else some ({ ds with errorCode := ERR_NOT_MOUNTED }, false, buf)

/-- The method `Disks::write`; `none` when `disks[drive]` is outside the array. -/
def Disks.write (ds : Disks) (sd : SDCard) (drive : Nat) (offset : Nat) (buf : List Nat)
    (wrote : Nat) : Option (Disks × SDCard × Bool) :=
  match ds.disks[drive]? with
  | none => none
  | some d =>
    if d.isMounted then
      let r := d.write sd offset buf wrote
      let ds1 := { ds with disks := ds.disks.set drive r.1 }
      if r.2.2 then some ({ ds1 with errorCode := ERR_NONE }, r.2.1, true)
      else some ({ ds1 with errorCode := r.1.getError }, r.2.1, false)
    else some ({ ds with errorCode := ERR_NOT_MOUNTED }, sd, false)

/-- The method `Disks::getStatus`; `none` when `disks[drive]` is outside the array. -/
def Disks.getStatus (ds : Disks) (drive : Nat) : Option Nat :=
  (ds.disks[drive]?).map Disk.getStatus

/-- What every `Disk` built by the constructor and driven through its methods
satisfies: an open handle goes with the open flag, and the open flag with the
mounted flag. -/
def Disk.Sound (d : Disk) : Prop :=
  (d.file.isOpen = true → d.isOpenF = true) ∧ (d.isOpenF = true → d.mountedFlag = true)

/-- A `Disk` object in memory that holds zeros, before its constructor runs. -/
def Disk.blank : Disk :=
  { goodFlag := false, openFlag := FILE_READ, mountedFlag := false, isOpenF := false,
    readOnlyFlag := false, file := File.closed, filename := [], errorCode := 0 }

/-- The name `A.DSK`. -/
def nameA : List Nat := [0x41, 0x2e, 0x44, 0x53, 0x4b]

/-- The name `B.DSK`. -/
def nameB : List Nat := [0x42, 0x2e, 0x44, 0x53, 0x4b]

/-- A card with the single file `A.DSK` of 512 bytes `0xe5`, which opens. -/
def SDCard.sample : SDCard :=
  { files := fun n => if n = nameA then some (List.replicate 512 0xe5) else none,
    opens := fun _ => true }

/-- A disk with `A.DSK` of the sample card mounted writable. -/
def Disk.sampleRW : Disk := (Disk.new Disk.blank).mount SDCard.sample nameA false

/-- A disk with `A.DSK` of the sample card mounted read-only. -/
def Disk.sampleRO : Disk := (Disk.new Disk.blank).mount SDCard.sample nameA true

/-- The drive set right after its constructor, built in memory holding zeros. -/
def Disks.fresh : Disks := Disks.new (fun _ => Disk.blank) 0

/-- A drive set with `A.DSK` mounted writable on drive 0 and read-only on
drive 1, drives 2 and 3 empty. -/
def Disks.sample : Disks :=
  (((Disks.fresh.mount SDCard.sample 0 nameA false).bind
    (fun r => r.1.mount SDCard.sample 1 nameA true)).map (fun r => r.1)).getD Disks.fresh

/-! ## Disks.h, Disks.cpp: the configuration file and the card presence -/

/-- The enumeration `configState_t` of `Disks.h`. -/
inductive configState_t where
  | FIRST_CHAR
  | AFTER_DRIVE
  | WAIT_EOL
  | FILENAME
  deriving DecidableEq, Repr

open configState_t

/-- The enumerator `CONFIG_FILE_PRIMARY` of `Disks.h`. -/
def CONFIG_FILE_PRIMARY : Nat := 0

/-- The enumerator `CONFIG_FILE_ALTERNATE` of `Disks.h`. -/
def CONFIG_FILE_ALTERNATE : Nat := 1

/-- The macro `CONFIG_FILE` of `Disks.cpp`: the name `SD.CFG`. -/
def CONFIG_FILE : List Nat := [0x53, 0x44, 0x2e, 0x43, 0x46, 0x47]

/-- The macro `CONFIG_FILE_ALT` of `Disks.cpp`: the name `SD2.CFG`. -/
def CONFIG_FILE_ALT : List Nat := [0x53, 0x44, 0x32, 0x2e, 0x43, 0x46, 0x47]

/-- The macro `CONFIG_BACKUP_FILE` of `Disks.cpp`: the name `SD.OLD`. -/
def CONFIG_BACKUP_FILE : List Nat := [0x53, 0x44, 0x2e, 0x4f, 0x4c, 0x44]

/-- The members of the class `Disks` beside `disks` and `errorCode`: the
parser state `state`, `readOnly`, the characters stored in `filename[13]`
from its start up to `fnptr`, `drive`, the handle `file`, `presentState`,
`whichConfigFile`, and the name `configFileName` points to.  Two traces are
kept with them: `ui`, the notifications sent through `userInt`, and
`mountLog`, the calls `mount(drive, filename, readOnly)` made by
`mountDefaults`, both in order. -/
structure DisksRest where
  state : configState_t
  readOnly : Bool
  filename : List Nat
  drive : Nat
  file : File
  presentState : Bool
  whichConfigFile : Nat
  configFileName : List Nat
  ui : List UiTransactionType
  mountLog : List (Nat × List Nat × Bool)

/-- The rest of the constructor `Disks::Disks`, run over memory holding `raw`:
`state = FIRST_CHAR`, `presentState = false`; `file` is a default-constructed
`File`; the traces start empty. -/
def DisksRest.new (raw : DisksRest) : DisksRest :=
  { raw with state := FIRST_CHAR, presentState := false, file := File.closed, ui := [],
             mountLog := [] }

/-- The body of the loop of `Disks::mountDefaults`, for one character `token`
read from the configuration file: the `switch (state)`.  (`char` is signed;
a byte above 127 is negative and, like here, passes none of the tests.)
`none` when a character or the terminator is stored outside `filename[13]`. -/
def Disks.configStep (ds : Disks) (m : DisksRest) (sd : SDCard) (token : Nat) :
    Option (Disks × DisksRest) :=
  match m.state with
  | FIRST_CHAR =>
    if token = 0x23 then some (ds, { m with state := WAIT_EOL })
    else if 0x30 ≤ token ∧ token ≤ 0x33 then
      some (ds, { m with drive := token - 0x30, readOnly := false, state := AFTER_DRIVE })
    else some (ds, m)
  | WAIT_EOL =>
    if token = 0x0a then some (ds, { m with state := FIRST_CHAR }) else some (ds, m)
  | AFTER_DRIVE =>
    if token = 0x3a then some (ds, { m with state := FILENAME, filename := [] })
    else if token = 0x52 ∨ token = 0x72 then some (ds, { m with readOnly := true })
    else some (ds, m)
  | FILENAME =>
    if token = 0x0a then
      if m.filename.length < 13 then
        match ds.mount sd (m.drive % 256) m.filename m.readOnly with
        | none => none
        | some r =>
          some (r.1, { m with state := FIRST_CHAR,
                              mountLog := m.mountLog ++ [(m.drive % 256, m.filename, m.readOnly)] })
      else none
    else if 0x20 < token ∧ token < 0x7e then
      if m.filename.length < 13 then some (ds, { m with filename := m.filename ++ [token] })
      else none
    else some (ds, m)

/-- The loop body applied to a run of characters, in order. -/
def Disks.configRun (ds : Disks) (m : DisksRest) (sd : SDCard) :
    List Nat → Option (Disks × DisksRest)
  | [] => some (ds, m)
  | token :: rest =>
    match ds.configStep m sd token with
    | none => none
    | some r => Disks.configRun r.1 r.2 sd rest

/-- The loop `while (file.available()) { char token = file.read(); ... }` of
`Disks::mountDefaults`; the first argument bounds the number of rounds. -/
def Disks.configLoop : Nat → Disks → DisksRest → SDCard → Option (Disks × DisksRest)
  | 0, ds, m, _ => some (ds, m)
  | n + 1, ds, m, sd =>
    if m.file.available sd = 0 then some (ds, m)
    else
      let r := m.file.read sd
      match ds.configStep { m with file := r.1 } sd r.2 with
      | none => none
      | some q => Disks.configLoop n q.1 q.2 sd

/-- The method `Disks::mountDefaults(int which)`; `pin` is what
`debounceInputPin(PRESENCE_PIN)` reads (true: no card).  The loop gets as many
rounds as the file has bytes to read. -/
def Disks.mountDefaults (ds : Disks) (m : DisksRest) (sd : SDCard) (pin : Bool) (which : Nat) :
    Option (Disks × DisksRest) :=
  let m := { m with configFileName := CONFIG_FILE }
  let m := { m with whichConfigFile := which }
  let m := if which = CONFIG_FILE_ALTERNATE then { m with configFileName := CONFIG_FILE_ALT } else m
  if pin then some (ds, m)
  else if sd.fileExists m.configFileName then
    let m := { m with file := sd.open m.configFileName FILE_READ }
    if !m.file.isOpen then some (ds, m)
    else
      let m := { m with state := FIRST_CHAR }
      match Disks.configLoop (m.file.available sd) ds m sd with
      | none => none
      | some r => some (r.1, { r.2 with file := r.2.file.close })
  else some (ds, m)

/-- The method `Disks::closeAll`. -/
def Disks.closeAll (ds : Disks) : Disks :=
  (List.range MAX_DISKS).foldl
    (fun acc d =>
      match acc.disks[d]? with
      | none => acc
      | some x => if x.isOpen then { acc with disks := acc.disks.set d x.close } else acc)
    ds

/-- The method `Disks::poll`; `pin` is what `debounceInputPin(PRESENCE_PIN)`
reads here (true: no card) and `pin2` what it reads inside `mountDefaults`;
`sd` is the card in the slot.  (`SD.begin(SD_PIN)` restarts the driver, which
changes nothing the model of the card holds; the static `last` is not used.) -/
def Disks.poll (ds : Disks) (m : DisksRest) (sd : SDCard) (pin pin2 : Bool) :
    Option (Disks × DisksRest) :=
  let state := pin
  if state ≠ m.presentState then
    if state = true then
      let m := { m with ui := m.ui ++ [UI_SD_REMOVED] }
      some (ds.closeAll, { m with presentState := state })
    else
      let m := { m with ui := m.ui ++ [UI_SD_INSERTED] }
      match ds.mountDefaults m sd pin2 m.whichConfigFile with
      | none => none
      | some r => some (r.1, { r.2 with presentState := state })
  else some (ds, m)

/-! ## Disks.cpp: saving the configuration -/

/-- Modelled from the spec: `SD.remove(name)`: the file is gone afterwards. -/
def SDCard.remove (sd : SDCard) (name : List Nat) : SDCard :=
  { sd with files := Function.update sd.files name none }

/-- Modelled from the spec: `SD.open(name, mode)` in general; `ok` says
whether the driver manages this open.  An existing file opens at its start
for `FILE_READ` and at its end for `FILE_WRITE`; an absent file does not open
for `FILE_READ` and is created empty by `FILE_WRITE` (when its name is an 8.3
name); a failed open gives the closed handle and leaves the card as it is. -/
def SDCard.openFile (sd : SDCard) (name : List Nat) (mode : OpenFlag) (ok : Bool) :
    SDCard × File :=
  if ok && decide (name.length ≤ FNAME_SIZE) then
    match sd.files name, mode with
    | some _, FILE_READ => (sd, { isOpen := true, name := name, pos := 0 })
    | some old, FILE_WRITE => (sd, { isOpen := true, name := name, pos := old.length })
    | none, FILE_READ => (sd, File.closed)
    | none, FILE_WRITE => (sd.put name [], { isOpen := true, name := name, pos := 0 })
  else (sd, File.closed)

/-- Modelled from the spec: what `println` writes after its argument: the
`Print` class, outside the sources, ends a line with carriage return and line
feed. -/
def PRINTLN_END : List Nat := [0x0d, 0x0a]

/-- The states of the rewrite pass, the anonymous enumeration above
`Disks::saveConfig`. -/
inductive SaveState where
  | STATE_NEWLINE
  | STATE_COPY_LINE
  | STATE_SKIP_LINE
  deriving DecidableEq, Repr

open SaveState

/-- The locals `state`, `d` and `written[MAX_DISKS]` of `Disks::saveConfig`. -/
structure SaveLocals where
  state : SaveState
  d : Nat
  written : List Nat
  deriving DecidableEq, Repr

/-- The object behind `disks[d]` for `d` inside the array (outside it, the
model takes the blank disk). -/
def Disks.slot (ds : Disks) (d : Nat) : Disk := ds.disks.getD d Disk.blank

/-- The bytes of `ofile.print(d); ofile.print(":");
ofile.println(disks[d]->getFilename());` for a drive number `d` of one digit. -/
def Disks.configLine (ds : Disks) (d : Nat) : List Nat :=
  [0x30 + d, 0x3a] ++ (ds.slot d).getFilename ++ PRINTLN_END

/-- The body of the rewrite loop of `Disks::saveConfig`, for one character
`key` of the backup: the new locals and the bytes written to `ofile`.
(`STATE_COPY_LINE` writes the character and falls through into
`STATE_SKIP_LINE`.) -/
def Disks.saveStep (ds : Disks) (st : SaveLocals) (key : Nat) : SaveLocals × List Nat :=
  match st.state with
  | STATE_NEWLINE =>
    if 0x30 ≤ key ∧ key < MAX_DISKS + 0x30 then
      let st := { st with d := key - 0x30 }
      if (ds.slot st.d).isOpen then
        ({ st with written := st.written.set st.d 1, state := STATE_SKIP_LINE }, ds.configLine st.d)
      else ({ st with state := STATE_SKIP_LINE }, [])
    else ({ st with state := STATE_COPY_LINE }, [key])
  | STATE_COPY_LINE =>
    (if key = 0x0a then { st with state := STATE_NEWLINE } else st, [key])
  | STATE_SKIP_LINE =>
    (if key = 0x0a then { st with state := STATE_NEWLINE } else st, [])

/-- The body of the copy loop of `Disks::saveConfig`: `ofile.write(file.read())`. -/
def Disks.copyStep (st : Unit) (key : Nat) : Unit × List Nat := (st, [key])

/-- The loop after the rewrite loop: a line for each drive that is open and
was not written: the bytes written to `ofile`. -/
def Disks.saveTail (ds : Disks) (written : List Nat) : List Nat :=
  ((List.range MAX_DISKS).map
    (fun d => if written.getD d 0 = 0 ∧ (ds.slot d).isOpen = true then ds.configLine d else [])).flatten

/-- A loop body applied to a run of characters: the locals afterwards and all
the bytes written, in order. -/
def Disks.passRun {σ : Type} (step : σ → Nat → σ × List Nat) : σ → List Nat → σ × List Nat
  | st, [] => (st, [])
  | st, key :: rest =>
    let s := step st key
    let r := Disks.passRun step s.1 rest
    (r.1, s.2 ++ r.2)

/-- The shape of both loops of `Disks::saveConfig`,
`while (file.available()) { key = file.read(); ...; ofile.write(...); }`, with
`step` the loop body; the driver takes every byte written.  The first
argument bounds the number of rounds.  The result is the locals, the two
handles and the card afterwards. -/
def Disks.passLoop {σ : Type} (step : σ → Nat → σ × List Nat) :
    Nat → σ → File → File → SDCard → σ × File × File × SDCard
  | 0, st, file, ofile, sd => (st, file, ofile, sd)
  | n + 1, st, file, ofile, sd =>
    if file.available sd = 0 then (st, file, ofile, sd)
    else
      let r := file.read sd
      let s := step st r.2
      let w := ofile.write sd s.2 s.2.length
      Disks.passLoop step n s.1 r.1 w.1 w.2.1

/-- The method `Disks::saveConfig`; `ok1 .. ok4` say whether the driver
manages each of the four opens, in the order of the source.  The loops get as
many rounds as their input has bytes to read.  The result is the members, the
card and the value returned. -/
def Disks.saveConfig (ds : Disks) (m : DisksRest) (sd : SDCard) (ok1 ok2 ok3 ok4 : Bool) :
    DisksRest × SDCard × Bool :=
  let ret := false
  let sd1 := sd.remove CONFIG_BACKUP_FILE
  let o1 := sd1.openFile m.configFileName FILE_READ ok1
  let o2 := o1.1.openFile CONFIG_BACKUP_FILE FILE_WRITE ok2
  if !o2.2.isOpen || !o1.2.isOpen then ({ m with file := o1.2.close }, o2.1, ret)
  else
    let p := Disks.passLoop Disks.copyStep (o1.2.available o2.1) () o1.2 o2.2 o2.1
    let sd2 := p.2.2.2.remove m.configFileName
    let o3 := sd2.openFile CONFIG_BACKUP_FILE FILE_READ ok3
    let o4 := o3.1.openFile m.configFileName FILE_WRITE ok4
    if !o4.2.isOpen || !o3.2.isOpen then ({ m with file := o3.2.close }, o4.1, ret)
    else
      let st : SaveLocals :=
        { state := STATE_NEWLINE, d := MAX_DISKS, written := List.replicate MAX_DISKS 0 }
      let q := Disks.passLoop ds.saveStep (o3.2.available o4.1) st o3.2 o4.2 o4.1
      let w := q.2.2.1.write q.2.2.2 (ds.saveTail q.1.written) (ds.saveTail q.1.written).length
      ({ m with file := q.2.1.close }, w.2.1, ret)

/-! ## Specification vocabulary: configuration files -/

/-- A line of a configuration file in one of the forms of the format: a
comment `#text`, or an entry `D:name` (no flag) or `DR:name` (with the flag
character). -/
inductive ConfigLine where
  | comment (text : List Nat)
  | entry (drive : Nat) (flag : Option Nat) (name : List Nat)

/-- The bytes of a line of the format, with the newline that ends it. -/
def ConfigLine.bytes : ConfigLine → List Nat
  | ConfigLine.comment text => 0x23 :: text ++ [0x0a]
  | ConfigLine.entry d none name => [0x30 + d, 0x3a] ++ name ++ [0x0a]
  | ConfigLine.entry d (some r) name => [0x30 + d, r, 0x3a] ++ name ++ [0x0a]

/-- A well-formed line: a comment holds no newline; an entry has a drive
below 4, as flag `R` or `r` if any, and a name of 1 to 12 characters from
`!` to the closing brace. -/
def ConfigLine.WellFormed : ConfigLine → Prop
  | ConfigLine.comment text => 0x0a ∉ text
  | ConfigLine.entry d flag name =>
    d < 4 ∧ (flag = none ∨ flag = some 0x52 ∨ flag = some 0x72) ∧
      1 ≤ name.length ∧ name.length ≤ 12 ∧ ∀ c ∈ name, 0x21 ≤ c ∧ c ≤ 0x7d

/-- The mount a line asks for: none for a comment; for an entry its drive,
its name and whether the flag is there. -/
def ConfigLine.mount : ConfigLine → Option (Nat × List Nat × Bool)
  | ConfigLine.comment _ => none
  | ConfigLine.entry d flag name => some (d, name, flag.isSome)

/-- The content of the file made of the given lines. -/
def ConfigLine.file (lines : List ConfigLine) : List Nat := (lines.map ConfigLine.bytes).flatten

/-- The mounts the lines of a file ask for, in file order. -/
def ConfigLine.mounts (lines : List ConfigLine) : List (Nat × List Nat × Bool) :=
  lines.filterMap ConfigLine.mount

/-- The calls `mount(drive, filename, readOnly)` of a list made one after the
other. -/
def Disks.mountAll (ds : Disks) (sd : SDCard) : List (Nat × List Nat × Bool) → Option Disks
  | [] => some ds
  | c :: rest =>
    match ds.mount sd c.1 c.2.1 c.2.2 with
    | none => none
    | some r => Disks.mountAll r.1 sd rest

/-- The name of the configuration file selected by `which`. -/
def configName (which : Nat) : List Nat :=
  if which = CONFIG_FILE_ALTERNATE then CONFIG_FILE_ALT else CONFIG_FILE

/-- What the parser takes for a skipped line (given without its newline): no
digit `0` to `3` stands before the first `#`. -/
def ConfigLine.Skipped (line : List Nat) : Prop :=
  0x0a ∉ line ∧ ∀ c ∈ line.takeWhile (fun c => decide (c ≠ 0x23)), ¬ (0x30 ≤ c ∧ c ≤ 0x33)

/-- The text made of the lines `lines`, each ended by a newline, followed by
`last`, which no newline ends. -/
def textOf (lines : List (List Nat)) (last : List Nat) : List Nat :=
  (lines.map (fun l => l ++ [0x0a])).flatten ++ last

/-- Whether the first character of a line is a drive digit `0` to `3`. -/
def driveLine (line : List Nat) : Bool :=
  match line with
  | [] => false
  | key :: _ => decide (0x30 ≤ key ∧ key ≤ 0x33)

/-- What the description of the save gives for one line, `ending` being what
ends it in the file: a drive line becomes the generated line of its drive if
the slot is open and nothing if not; another line stays. -/
def Disks.savedLine (ds : Disks) (line : List Nat) (ending : List Nat) : List Nat :=
  if driveLine line then
    if (ds.slot (line.headD 0 - 0x30)).isOpen then ds.configLine (line.headD 0 - 0x30) else []
  else line ++ ending

/-- The members as the loop of `mountDefaults` finds them when the file
selected by `which` has opened. -/
def DisksRest.atStart (m : DisksRest) (which : Nat) : DisksRest :=
  { m with configFileName := configName which, whichConfigFile := which,
           file := { isOpen := true, name := configName which, pos := 0 }, state := FIRST_CHAR }

/-- The handle `file` after `mountDefaults` has read a file of `n` bytes and
closed it. -/
def File.done (which : Nat) (n : Nat) : File :=
  { isOpen := false, name := configName which, pos := n }

/-- The members the parser works on: `state`, `readOnly`, the characters in
`filename`, `drive`, and the trace of the mounts. -/
def DisksRest.parser (m : DisksRest) :
    configState_t × Bool × List Nat × Nat × List (Nat × List Nat × Bool) :=
  (m.state, m.readOnly, m.filename, m.drive, m.mountLog)

/-- The members the parser leaves alone are the same in `m` and `n`. -/
def DisksRest.Frame (m n : DisksRest) : Prop :=
  n.file = m.file ∧ n.presentState = m.presentState ∧ n.whichConfigFile = m.whichConfigFile ∧
    n.configFileName = m.configFileName ∧ n.ui = m.ui

/-- The locals of `saveConfig` when the rewrite loop starts: the loop that
clears `written[]` has left `d` at `MAX_DISKS`. -/
def SaveLocals.start : SaveLocals :=
  { state := STATE_NEWLINE, d := MAX_DISKS, written := List.replicate MAX_DISKS 0 }

/-! ## Sample configurations -/

/-- The members of `Disks` beside the slots, in memory that holds zeros. -/
def DisksRest.blank : DisksRest :=
  { state := FIRST_CHAR, readOnly := false, filename := [], drive := 0, file := File.closed,
    presentState := false, whichConfigFile := 0, configFileName := [], ui := [], mountLog := [] }

/-- The members right after the constructor. -/
def DisksRest.fresh : DisksRest := DisksRest.new DisksRest.blank

/-- A card holding `SD.CFG` with the given content and the images `A.DSK`
and `B.DSK` of one sector each; every file opens. -/
def SDCard.withConfig (content : List Nat) : SDCard :=
  { files := fun n =>
      if n = CONFIG_FILE then some content
      else if n = nameA ∨ n = nameB then some (List.replicate 256 0xe5)
      else none,
    opens := fun _ => true }

/-- The lines `0:A.DSK` and `1R:B.DSK`. -/
def linesAB : List ConfigLine :=
  [ConfigLine.entry 0 none nameA, ConfigLine.entry 1 (some 0x52) nameB]

/-- The line `x1:B.DSK` with its newline. -/
def textJunk : List Nat := [0x78, 0x31, 0x3a] ++ nameB ++ [0x0a]

/-- The drive set and the members after the default mounts from the file
`0:A.DSK`, `1R:B.DSK`. -/
def Disks.loadedAB : Option (Disks × DisksRest) :=
  Disks.fresh.mountDefaults DisksRest.fresh (SDCard.withConfig (ConfigLine.file linesAB)) false
    CONFIG_FILE_PRIMARY

/-- The read `*dptr` with `dptr` at position `i` of the array of a message:
the byte there, `none` outside the array. -/
def Event.peek (e : Event) (i : Nat) : Option Nat :=
  if i < BUFFER_SIZE then some (e.getData i % 256) else none

/-- The loop `while (n--) { writeByte(*dptr++); }` with `dptr` at position
`i`. -/
def Link.writeBytes (e : Event) : Nat → Nat → Link → Option Link
  | 0, _, l => some l
  | n + 1, i, l =>
    match e.peek i with
    | none => none
    | some b => Link.writeBytes e n (i + 1) (l.writeByte b)

/-- The loop `do { writeByte(*dptr); } while (*dptr++);` with `dptr` at
position `i`; the first argument bounds the number of rounds. -/
def Link.writeThroughZero (e : Event) : Nat → Nat → Link → Option Link
  | 0, _, _ => none
  | fuel + 1, i, l =>
    match e.peek i with
    | none => none
    | some b =>
      if b ≠ 0 then Link.writeThroughZero e fuel (i + 1) (l.writeByte b) else some (l.writeByte b)

/-- The loop `while (*dptr) { writeByte(*dptr++); }` with `dptr` at position
`i`; the first argument bounds the number of rounds. -/
def Link.writeUntilZero (e : Event) : Nat → Nat → Link → Option Link
  | 0, _, _ => none
  | fuel + 1, i, l =>
    match e.peek i with
    | none => none
    | some b => if b ≠ 0 then Link.writeUntilZero e fuel (i + 1) (l.writeByte b) else some l

/-- The method `Link::sendEvent`, once the host has released the bus and with
the host completing every handshake.  `getSectorSize` is the function of that
name, which `link.cpp` declares `extern` and which lies outside the sources;
`eptr` is the pointer passed (`none`: `NULL`).  The loops that look for a
zero byte get more rounds than the array has positions. -/
def Link.sendEvent (l : Link) (getSectorSize : Nat → Nat) (eptr : Option Nat) : Option Link :=
  match eptr with
  | none => none
  | some a =>
    let e := l.heap a
    let l := l.prepareWrite
    let sent : Option Link :=
      match e.getType with
      | EVT_ACK => some (l.writeByte PROTO_ACK)
      | EVT_NAK => (e.peek 0).map (fun b => (l.writeByte PROTO_NAK).writeByte b)
      | EVT_FILE_DATA =>
        (e.peek 0).bind (fun msgLength =>
          Link.writeBytes e msgLength 1 ((l.writeByte PROTO_FILE_DATA).writeByte msgLength))
      | EVT_DIR_INFO => Link.writeThroughZero e (BUFFER_SIZE + 1) 0 (l.writeByte PROTO_DIR)
      | EVT_DIR_END => some (l.writeByte PROTO_DIR_END)
      | EVT_READ_SECTOR =>
        (e.peek 0).bind (fun code =>
          Link.writeBytes e (getSectorSize code % UINT_RANGE) 1 (l.writeByte PROTO_SECTOR_DATA))
      | EVT_DISK_STATUS => (e.peek 0).map (fun b => (l.writeByte PROTO_STATUS).writeByte b)
      | EVT_MOUNTED =>
        (e.peek 0).bind (fun d =>
          (e.peek 1).bind (fun r =>
            (Link.writeUntilZero e (BUFFER_SIZE + 1) 2
              (((l.writeByte PROTO_MOUNT_INFO).writeByte d).writeByte r)).map
              (fun l => l.writeByte 0)))
      | EVT_CLOCK_DATA => Link.writeBytes e 8 0 (l.writeByte PROTO_CLOCK_DATA)
      | _ => some l
    sent.map (fun l => ((l.prepareRead).uiSendEvent UI_TRANSACTION_STOP).freeAnEvent eptr)

/-- The method `Link::prepareWrite` with the successive values of
`debounceInputPin(DIRECTION)` (true: the line reads high): the loop
`while (debounceInputPin(DIRECTION));` goes on while the line reads high,
then `LOWER_DDR = LOWER_MASK`.  The result has the readings not yet taken;
`none` when the readings end with the loop still going. -/
def Link.prepareWriteOn (l : Link) : List Bool → Option (Link × List Bool)
  | [] => none
  | r :: rest =>
    if r then Link.prepareWriteOn l rest else some ({ l with lowerDDR := LOWER_MASK }, rest)

/-! ## Specification vocabulary: messages to the host, the counting states -/

/-- The `n` bytes of the array of a message from position `start` on, in
order. -/
def Event.bytesFrom (e : Event) (start n : Nat) : List Nat :=
  (List.range n).map (fun i => e.getData (start + i) % 256)

/-- The number of bytes still to come in the states `STATE_GET_ONE` to
`STATE_GET_SIX`, the next one included. -/
def STATE.toCome : STATE → Option Nat
  | STATE_GET_ONE => some 1
  | STATE_GET_TWO => some 2
  | STATE_GET_THREE => some 3
  | STATE_GET_FOUR => some 4
  | STATE_GET_FIVE => some 5
  | STATE_GET_SIX => some 6
  | _ => none

/-- What the parser keeps in its counting states: in `STATE_APPEND_SECTOR`
the counter is from 1 to 256 and the message behind `event` has room for the
bytes still to come within 262; in `STATE_GET_LENGTH` that message is empty;
in `STATE_GET_ONE` to `STATE_GET_SIX` it ends within 6 bytes. -/
def Link.Counting (l : Link) : Prop :=
  (l.state = STATE_APPEND_SECTOR →
      1 ≤ l.count ∧ l.count ≤ 256 ∧
        ∀ a, l.event = some a → (l.heap a).getLength + l.count ≤ 262) ∧
    (l.state = STATE_GET_LENGTH → ∀ a, l.event = some a → (l.heap a).getLength = 0) ∧
    (∀ n, l.state.toCome = some n → ∀ a, l.event = some a → (l.heap a).getLength + n ≤ 6)

/-- An action whose byte, if it is one, is a byte: `poll` hands `stateMachine`
what `readByte` returns. -/
def Action.IsByte : Action → Prop
  | Action.byte b => b < 256
  | Action.getEvent => True

/-- The disk `y` shows what the disk `x` shows: the same mounted flag, open
flag, read-only flag, filename and last error. -/
def Disk.Shows (x y : Disk) : Prop :=
  y.isMounted = x.isMounted ∧ y.isOpen = x.isOpen ∧ y.isReadOnly = x.isReadOnly ∧
    y.getFilename = x.getFilename ∧ y.getError = x.getError

/-! ## Sample messages -/

/-- A sector-size function for the examples, after the comments of
`link.cpp` on the size code (1 = 128, 2 = 256, 3 = 512, 4 = 1024); other
codes give 0 here.  The function `getSectorSize` itself lies outside the
sources. -/
def sectorSizeOfCode (code : Nat) : Nat :=
  if code = 1 then 128 else if code = 2 then 256 else if code = 3 then 512
  else if code = 4 then 1024 else 0

/-- A message of the given kind whose array starts with the given bytes and
holds zeros after them. -/
def Event.holding (kind : EVENT_TYPE) (bytes : List Nat) : Event :=
  { type := kind, buffer := fun i => bytes.getD i 0, index := bytes.length }

/-- The initial link with the message at address `1` replaced by `e`. -/
def Link.carrying (e : Event) : Link := Link.initial.store 1 e

/-- The initial link after the set-clock byte `0x08`: the parser collects the
eight bytes of the clock. -/
def Link.clockSetting : Link := (Link.initial.run [Action.byte 0x08]).getD Link.initial

/-- The card after the sample drive set has saved the primary file made of
one empty line. -/
def SDCard.savedOnce : SDCard :=
  (Disks.sample.saveConfig (DisksRest.fresh.atStart 0) (SDCard.withConfig [0x0a])
    true true true true).2.1

/-! ## The message buffer -/

theorem Event.payload_addByte (e : Event) (b : Nat) (h : e.index < BUFFER_SIZE) :
    (e.addByte b).payload = e.payload ++ [b % 256] := by
  simp only [Event.addByte, if_neg (ne_of_lt h), Event.payload, Event.getLength, Event.getData,
    List.range_succ, List.map_append, List.map_singleton, List.map_nil, Function.update_same]
  congr 1
  apply List.map_congr_left
  intro i hi
  rw [List.mem_range] at hi
  exact Function.update_noteq (ne_of_lt hi) _ _

theorem Event.index_addByte (e : Event) (b : Nat) (h : e.index < BUFFER_SIZE) :
    (e.addByte b).index = e.index + 1 := by
  simp [Event.addByte, ne_of_lt h]

theorem Event.type_addByte (e : Event) (b : Nat) : (e.addByte b).type = e.type := by
  unfold Event.addByte
  split <;> rfl

theorem Event.addBytes_cons (e : Event) (b : Nat) (bs : List Nat) :
    e.addBytes (b :: bs) = (e.addByte b).addBytes bs := rfl

theorem Event.addBytes_append (e : Event) (xs ys : List Nat) :
    e.addBytes (xs ++ ys) = (e.addBytes xs).addBytes ys := by
  simp [Event.addBytes, List.foldl_append]

/-- As long as the buffer has room, `addBytes` keeps the kind, advances the
cursor by the number of bytes and appends the bytes to the payload. -/
theorem Event.addBytes_spec (bs : List Nat) :
    ∀ e : Event, e.index + bs.length ≤ BUFFER_SIZE →
      (e.addBytes bs).type = e.type ∧ (e.addBytes bs).index = e.index + bs.length ∧
        (e.addBytes bs).payload = e.payload ++ bs.map (fun b => b % 256) := by
  induction bs with
  | nil => intro e _; simp [Event.addBytes]
  | cons b bs ih =>
    intro e h
    simp only [List.length_cons] at h
    have hlt : e.index < BUFFER_SIZE := by omega
    have h1 := Event.index_addByte e b hlt
    obtain ⟨ht, hi, hp⟩ := ih (e.addByte b) (by omega)
    rw [Event.addBytes_cons]
    refine ⟨?_, ?_, ?_⟩
    · rw [ht, Event.type_addByte]
    · rw [hi, h1, List.length_cons]; omega
    · rw [hp, Event.payload_addByte e b hlt]; simp

theorem Event.map_mod_of_bytes (bs : List Nat) (h : ∀ b ∈ bs, b < 256) :
    bs.map (fun b => b % 256) = bs := by
  induction bs with
  | nil => rfl
  | cons b bs ih =>
    have hb : b < 256 := h b (List.mem_cons_self _ _)
    rw [List.map_cons, ih (fun x hx => h x (List.mem_cons_of_mem _ hx)), Nat.mod_eq_of_lt hb]

/-! ## Feeding bytes -/

theorem Link.feed_cons (l : Link) (b : Nat) (bs : List Nat) :
    l.feed (b :: bs) = (l.stateMachine b).bind (fun m => m.feed bs) := by
  simp only [Link.feed]
  cases l.stateMachine b <;> rfl

theorem Link.feed_append (xs ys : List Nat) :
    ∀ l : Link, l.feed (xs ++ ys) = (l.feed xs).bind (fun m => m.feed ys) := by
  induction xs with
  | nil => intro l; rfl
  | cons b xs ih =>
    intro l
    rw [List.cons_append, Link.feed_cons, Link.feed_cons]
    cases h : l.stateMachine b with
    | none => rfl
    | some m => simp only [Option.some_bind]; exact ih m

theorem Link.Quietly.nil (l : Link) (h : l.hasEvent = false) : l.Quietly [] l := by
  refine ⟨rfl, ?_⟩
  intro k _
  simp [Link.feed, h]

theorem Link.Quietly.hasEvent_start {l m : Link} {bs : List Nat} (h : l.Quietly bs m) :
    l.hasEvent = false := by
  have := h.2 0 (Nat.zero_le _)
  simpa [Link.feed] using this

theorem Link.Quietly.hasEvent_end {l m : Link} {bs : List Nat} (h : l.Quietly bs m) :
    m.hasEvent = false := by
  have := h.2 bs.length (Nat.le_refl _)
  rw [List.take_length, h.1] at this
  simpa using this

theorem Link.Quietly.cons {l m n : Link} {b : Nat} {bs : List Nat} (h0 : l.hasEvent = false)
    (h1 : l.stateMachine b = some m) (h2 : m.Quietly bs n) : l.Quietly (b :: bs) n := by
  refine ⟨?_, ?_⟩
  · rw [Link.feed_cons, h1]; exact h2.1
  · intro k hk
    cases k with
    | zero => simp [Link.feed, h0]
    | succ k =>
      rw [List.take_succ_cons, Link.feed_cons, h1]
      exact h2.2 k (by simpa using hk)

theorem Link.Quietly.append {l m n : Link} {xs ys : List Nat} (h1 : l.Quietly xs m)
    (h2 : m.Quietly ys n) : l.Quietly (xs ++ ys) n := by
  refine ⟨?_, ?_⟩
  · rw [Link.feed_append, h1.1]; exact h2.1
  · intro k hk
    rw [List.take_append_eq_append_take, Link.feed_append]
    by_cases hkx : k ≤ xs.length
    · have h3 := h1.2 k hkx
      have hz : k - xs.length = 0 := by omega
      rw [hz, List.take_zero]
      cases hf : l.feed (List.take k xs) with
      | none => rw [hf] at h3; simp at h3
      | some q => rw [hf] at h3; simpa [Link.feed] using h3
    · have hk2 : xs.length ≤ k := by omega
      rw [List.take_of_length_le hk2, h1.1]
      exact h2.2 (k - xs.length) (by simp at hk; omega)

/-- A frame delivers when all but its last byte are taken in quietly and the
last byte completes the message. -/
theorem Link.Delivers.of_quietly {l m n : Link} {xs : List Nat} {z : Nat} {kind : EVENT_TYPE}
    {body : List Nat} (h1 : l.Quietly xs m) (h2 : m.stateMachine z = some n)
    (h3 : n.hasEvent = true) (h4 : n.state = STATE_CMD)
    (h5 : n.message = some (kind, body.length, body)) :
    l.Delivers (xs ++ [z]) kind body := by
  have hf : l.feed (xs ++ [z]) = some n := by
    rw [Link.feed_append, h1.1]; simp [Link.feed, h2]
  refine ⟨?_, ?_, ?_, ?_⟩
  · intro k hk
    have hk2 : k ≤ xs.length := by simp at hk; omega
    rw [List.take_append_of_le_length hk2]
    exact h1.2 k hk2
  · rw [hf]; simp [h3]
  · rw [hf]; simp [h4]
  · rw [hf]; simp [h5]

/-! ## The collecting states, one byte at a time -/

theorem Link.step_waitNull (l : Link) (a b : Nat) (hs : l.state = STATE_WAIT_NULL)
    (he : l.event = some a) (hb : b ≠ 0) :
    l.stateMachine b = some (l.store a ((l.heap a).addByte b)) := by
  simp [Link.stateMachine, hs, Link.eventAddByte, he, hb, Link.store]

theorem Link.step_waitNull_zero (l : Link) (a : Nat) (hs : l.state = STATE_WAIT_NULL)
    (he : l.event = some a) :
    l.stateMachine 0 =
      some { l.store a ((l.heap a).addByte 0) with state := STATE_CMD, hasEvent := true } := by
  simp [Link.stateMachine, hs, Link.eventAddByte, he, Link.store]

theorem Link.store_store (l : Link) (a : Nat) (e f : Event) :
    (l.store a e).store a f = l.store a f := by
  simp [Link.store]

theorem Link.store_self (l : Link) (a : Nat) : l.store a (l.heap a) = l := by
  simp [Link.store]

theorem Link.quietly_waitNull (bs : List Nat) :
    ∀ (l : Link) (a : Nat), l.state = STATE_WAIT_NULL → l.event = some a → l.hasEvent = false →
      (∀ b ∈ bs, b ≠ 0) → l.Quietly bs (l.store a ((l.heap a).addBytes bs)) := by
  induction bs with
  | nil =>
    intro l a _ _ h0 _
    have : l.store a ((l.heap a).addBytes []) = l := Link.store_self l a
    rw [this]
    exact Link.Quietly.nil l h0
  | cons b bs ih =>
    intro l a hs he h0 hnz
    have hb : b ≠ 0 := hnz b (List.mem_cons_self _ _)
    have hstep := Link.step_waitNull l a b hs he hb
    have hq := ih (l.store a ((l.heap a).addByte b)) a hs he h0
      (fun x hx => hnz x (List.mem_cons_of_mem _ hx))
    have hh : (l.store a ((l.heap a).addByte b)).heap a = (l.heap a).addByte b := by
      simp [Link.store]
    rw [hh, Link.store_store] at hq
    exact Link.Quietly.cons h0 hstep hq

theorem Link.step_appendSector (l : Link) (a b : Nat) (hs : l.state = STATE_APPEND_SECTOR)
    (he : l.event = some a) (h1 : 1 < l.count) (h2 : l.count < UINT_RANGE) :
    l.stateMachine b = some { l.store a ((l.heap a).addByte b) with count := l.count - 1 } := by
  have hc : (l.count + (UINT_RANGE - 1)) % UINT_RANGE = l.count - 1 := by
    unfold UINT_RANGE at *; omega
  have hne : l.count - 1 ≠ 0 := by omega
  simp [Link.stateMachine, hs, Link.eventAddByte, he, Link.store, hc, hne]

theorem Link.step_appendSector_last (l : Link) (a b : Nat) (hs : l.state = STATE_APPEND_SECTOR)
    (he : l.event = some a) (h1 : l.count = 1) :
    l.stateMachine b =
      some { l.store a ((l.heap a).addByte b) with
        count := 0, state := STATE_CMD, hasEvent := true } := by
  have hc : (l.count + (UINT_RANGE - 1)) % UINT_RANGE = 0 := by
    unfold UINT_RANGE; omega
  simp [Link.stateMachine, hs, Link.eventAddByte, he, Link.store, hc]

theorem Link.quietly_appendSector (bs : List Nat) :
    ∀ (l : Link) (a : Nat), l.state = STATE_APPEND_SECTOR → l.event = some a →
      l.hasEvent = false → bs.length < l.count → l.count < UINT_RANGE →
      l.Quietly bs { l.store a ((l.heap a).addBytes bs) with count := l.count - bs.length } := by
  induction bs with
  | nil =>
    intro l a _ _ h0 _ _
    have : ({ l.store a ((l.heap a).addBytes []) with count := l.count - ([] : List Nat).length } : Link)
        = l := by
      simp [Link.store, Event.addBytes]
    rw [this]
    exact Link.Quietly.nil l h0
  | cons b bs ih =>
    intro l a hs he h0 hlen hc
    simp only [List.length_cons] at hlen
    have hstep := Link.step_appendSector l a b hs he (by omega) hc
    have hq := ih { l.store a ((l.heap a).addByte b) with count := l.count - 1 } a hs he h0
      (by simp; omega) (by simp; omega)
    have he2 : ({ l.store a ((l.heap a).addBytes (b :: bs)) with
        count := l.count - (b :: bs).length } : Link) =
        { ({ l.store a ((l.heap a).addByte b) with count := l.count - 1 } : Link).store a
            ((({ l.store a ((l.heap a).addByte b) with count := l.count - 1 } : Link).heap a).addBytes bs)
          with count := ({ l.store a ((l.heap a).addByte b) with count := l.count - 1 } : Link).count
            - bs.length } := by
      simp [Link.store, Event.addBytes_cons, Nat.sub_sub, Nat.add_comm]
    rw [he2]
    exact Link.Quietly.cons h0 hstep hq

/-- A payload-collecting command byte in `STATE_CMD`: the shared event is
cleaned to the kind of the command, `event` points to it, the collecting state
is entered and the available flag keeps its value. -/
theorem Link.step_opening (l : Link) (a cmd : Nat) (kind : EVENT_TYPE) (s : STATE)
    (hs : l.state = STATE_CMD) (hf : l.freeEvent = some a) (hc : (cmd, kind, s) ∈ Link.opening) :
    ∃ m, l.stateMachine cmd = some m ∧ m.At a ((l.heap a).clean kind) s ∧
      (l.hasEvent = false → m.hasEvent = false) ∧ (cmd = PROTO_SET_CLOCK → m.count = 8) := by
  simp only [Link.opening, List.mem_cons, Prod.mk.injEq, List.mem_singleton, List.not_mem_nil,
    or_false] at hc
  rcases hc with h | h | h | h | h | h | h | h | h | h | h | h | h <;>
    obtain ⟨rfl, rfl, rfl⟩ := h <;>
    simp [Link.stateMachine, hs, Link.command, Link.newEvent, Link.getAnEvent, hf, Link.finish,
      Link.uiSendEvent, Link.At]

theorem Link.step_countdown (l : Link) (a b n : Nat) (e : Event)
    (h : l.At a e (STATE.countdown (n + 1))) (hn : n + 1 ≤ 5) :
    ∃ m, l.stateMachine b = some m ∧ m.At a (e.addByte b) (STATE.countdown n) ∧
      m.hasEvent = l.hasEvent := by
  obtain ⟨he, hh, hs⟩ := h
  have hcases : n = 0 ∨ n = 1 ∨ n = 2 ∨ n = 3 ∨ n = 4 := by omega
  rcases hcases with rfl | rfl | rfl | rfl | rfl <;>
    simp [STATE.countdown] at hs <;>
    simp [Link.stateMachine, hs, Link.eventAddByte, he, Link.At, STATE.countdown, hh]

theorem Link.quietly_countdown (bs : List Nat) :
    ∀ (l : Link) (a n : Nat) (e : Event), l.At a e (STATE.countdown n) → n ≤ 5 →
      bs.length ≤ n → l.hasEvent = false →
      ∃ m, l.Quietly bs m ∧ m.At a (e.addBytes bs) (STATE.countdown (n - bs.length)) := by
  induction bs with
  | nil =>
    intro l a n e h _ _ h0
    exact ⟨l, Link.Quietly.nil l h0, by simpa [Event.addBytes] using h⟩
  | cons b bs ih =>
    intro l a n e h hn hlen h0
    simp only [List.length_cons] at hlen
    obtain ⟨k, rfl⟩ : ∃ k, n = k + 1 := ⟨n - 1, by omega⟩
    obtain ⟨m, hstep, hat, hflag⟩ := Link.step_countdown l a b k e h hn
    obtain ⟨m2, hq, hat2⟩ := ih m a k (e.addByte b) hat (by omega) (by omega) (by rw [hflag, h0])
    refine ⟨m2, Link.Quietly.cons h0 hstep hq, ?_⟩
    have hk : k + 1 - (b :: bs).length = k - bs.length := by simp
    rw [hk, Event.addBytes_cons]
    exact hat2

theorem Link.quietly_waitNull_at (bs : List Nat) (l : Link) (a : Nat) (e : Event)
    (h : l.At a e STATE_WAIT_NULL) (h0 : l.hasEvent = false) (hnz : ∀ b ∈ bs, b ≠ 0) :
    ∃ m, l.Quietly bs m ∧ m.At a (e.addBytes bs) STATE_WAIT_NULL := by
  obtain ⟨he, hh, hs⟩ := h
  refine ⟨_, Link.quietly_waitNull bs l a hs he h0 hnz, ?_⟩
  simp [Link.At, Link.store, he, hs, hh]

theorem Link.quietly_appendSector_at (bs : List Nat) (l : Link) (a : Nat) (e : Event)
    (h : l.At a e STATE_APPEND_SECTOR) (h0 : l.hasEvent = false) (hlen : bs.length < l.count)
    (hc : l.count < UINT_RANGE) :
    ∃ m, l.Quietly bs m ∧ m.At a (e.addBytes bs) STATE_APPEND_SECTOR ∧
      m.count = l.count - bs.length := by
  obtain ⟨he, hh, hs⟩ := h
  refine ⟨_, Link.quietly_appendSector bs l a hs he h0 hlen hc, ?_, rfl⟩
  simp [Link.At, Link.store, he, hs, hh]

theorem Link.last_waitNull (l : Link) (a : Nat) (e : Event) (h : l.At a e STATE_WAIT_NULL) :
    ∃ m, l.stateMachine 0 = some m ∧ m.At a (e.addByte 0) STATE_CMD ∧ m.hasEvent = true := by
  obtain ⟨he, hh, hs⟩ := h
  refine ⟨_, Link.step_waitNull_zero l a hs he, ?_, rfl⟩
  simp [Link.At, Link.store, he, hh]

theorem Link.last_appendSector (l : Link) (a b : Nat) (e : Event)
    (h : l.At a e STATE_APPEND_SECTOR) (hc : l.count = 1) :
    ∃ m, l.stateMachine b = some m ∧ m.At a (e.addByte b) STATE_CMD ∧ m.hasEvent = true := by
  obtain ⟨he, hh, hs⟩ := h
  refine ⟨_, Link.step_appendSector_last l a b hs he hc, ?_, rfl⟩
  simp [Link.At, Link.store, he, hh]

theorem Link.last_getOne (l : Link) (a b : Nat) (e : Event) (h : l.At a e STATE_GET_ONE)
    (h1 : e.type ≠ EVT_WRITE_SECTOR) (h2 : e.type ≠ EVT_WRITE_SECTOR_LONG) :
    ∃ m, l.stateMachine b = some m ∧ m.At a (e.addByte b) STATE_CMD ∧ m.hasEvent = true := by
  obtain ⟨he, hh, hs⟩ := h
  have ht := Event.type_addByte e b
  simp [Link.stateMachine, hs, Link.eventAddByte, he, Link.At, hh, Link.eventGetType,
    Event.getType, ht, h1, h2]

theorem Link.step_getOne_write (l : Link) (a b : Nat) (e : Event) (h : l.At a e STATE_GET_ONE)
    (h1 : e.type = EVT_WRITE_SECTOR ∨ e.type = EVT_WRITE_SECTOR_LONG) :
    ∃ m, l.stateMachine b = some m ∧ m.At a (e.addByte b) STATE_APPEND_SECTOR ∧
      m.hasEvent = l.hasEvent ∧ m.count = 256 := by
  obtain ⟨he, hh, hs⟩ := h
  have ht := Event.type_addByte e b
  rcases h1 with h1 | h1 <;>
    simp [Link.stateMachine, hs, Link.eventAddByte, he, Link.At, hh, Link.eventGetType,
      Event.getType, ht, h1]

theorem Link.step_drvNumber (l : Link) (a b : Nat) (e : Event)
    (h : l.At a e STATE_GET_DRV_NUMBER_TO_MOUNT) :
    ∃ m, l.stateMachine b = some m ∧ m.At a (e.addByte b) STATE_GET_DRV_NAME ∧
      m.hasEvent = l.hasEvent := by
  obtain ⟨he, hh, hs⟩ := h
  simp [Link.stateMachine, hs, Link.eventAddByte, he, Link.At, hh]

theorem Link.step_drvName (l : Link) (a b : Nat) (e : Event) (h : l.At a e STATE_GET_DRV_NAME) :
    ∃ m, l.stateMachine b = some m ∧ m.At a (e.addByte b) STATE_WAIT_NULL ∧
      m.hasEvent = l.hasEvent := by
  obtain ⟨he, hh, hs⟩ := h
  simp [Link.stateMachine, hs, Link.eventAddByte, he, Link.At, hh]

theorem Link.step_getLength (l : Link) (a b : Nat) (e : Event) (h : l.At a e STATE_GET_LENGTH) :
    ∃ m, l.stateMachine b = some m ∧ m.At a (e.addByte b) STATE_APPEND_SECTOR ∧
      m.hasEvent = l.hasEvent ∧ m.count = (if b = 0 then 256 else b) := by
  obtain ⟨he, hh, hs⟩ := h
  simp [Link.stateMachine, hs, Link.eventAddByte, he, Link.At, hh]

/-- What a cleaned event holds after the bytes `body`, when they fit. -/
theorem Event.clean_addBytes (e : Event) (kind : EVENT_TYPE) (body : List Nat)
    (hlen : body.length ≤ BUFFER_SIZE) (hb : ∀ b ∈ body, b < 256) :
    ((e.clean kind).addBytes body).getType = kind ∧
      ((e.clean kind).addBytes body).getLength = body.length ∧
      ((e.clean kind).addBytes body).payload = body := by
  obtain ⟨h1, h2, h3⟩ := Event.addBytes_spec body (e.clean kind) (by simpa [Event.clean] using hlen)
  refine ⟨?_, ?_, ?_⟩
  · rw [Event.getType, h1]; rfl
  · rw [Event.getLength, h2]; simp [Event.clean]
  · rw [h3, Event.map_mod_of_bytes body hb]; simp [Event.payload, Event.clean, Event.getLength]

/-- The closing step of a frame: the bytes before the last were taken in
quietly and the last one completes a cleaned event filled with `body`. -/
theorem Link.Delivers.of_last {l m n : Link} {xs : List Nat} {z a : Nat} {kind : EVENT_TYPE}
    {e : Event} {body : List Nat} (h1 : l.Quietly xs m) (h2 : m.stateMachine z = some n)
    (h3 : n.At a ((e.clean kind).addBytes body) STATE_CMD) (h4 : n.hasEvent = true)
    (hlen : body.length ≤ BUFFER_SIZE) (hb : ∀ b ∈ body, b < 256) :
    l.Delivers (xs ++ [z]) kind body := by
  obtain ⟨he, hh, hs⟩ := h3
  obtain ⟨t1, t2, t3⟩ := Event.clean_addBytes e kind body hlen hb
  refine Link.Delivers.of_quietly h1 h2 h4 hs ?_
  simp [Link.message, he, hh, t1, t2, t3]

theorem Event.type_addBytes (bs : List Nat) : ∀ e : Event, (e.addBytes bs).type = e.type := by
  induction bs with
  | nil => intro e; rfl
  | cons b bs ih => intro e; rw [Event.addBytes_cons, ih, Event.type_addByte]

theorem Event.addBytes_concat (e : Event) (bs : List Nat) (z : Nat) :
    (e.addBytes bs).addByte z = e.addBytes (bs ++ [z]) := by
  rw [Event.addBytes_append]; rfl

theorem eq_nil_or_snoc (l : List Nat) : l = [] ∨ ∃ L b, l = L ++ [b] := by
  rcases List.eq_nil_or_concat l with h | ⟨L, b, h⟩
  · exact Or.inl h
  · exact Or.inr ⟨L, b, by rw [h, List.concat_eq_append]⟩

theorem Link.Quietly.single {l m : Link} {b : Nat} (h0 : l.hasEvent = false)
    (h1 : l.stateMachine b = some m) (h2 : m.hasEvent = false) : l.Quietly [b] m :=
  Link.Quietly.cons h0 h1 (Link.Quietly.nil m h2)

/-- From a countdown state of a command other than the sector writes, the
remaining `n + 1` bytes complete the message. -/
theorem Link.Delivers.tail_countdown {l m : Link} {pre got rest : List Nat} {a n : Nat}
    {kind : EVENT_TYPE} {e : Event} (h1 : l.Quietly pre m)
    (h2 : m.At a ((e.clean kind).addBytes got) (STATE.countdown n)) (hn : n ≤ 5)
    (hk1 : kind ≠ EVT_WRITE_SECTOR) (hk2 : kind ≠ EVT_WRITE_SECTOR_LONG)
    (hrest : rest.length = n + 1) (hlen : (got ++ rest).length ≤ BUFFER_SIZE)
    (hb : ∀ b ∈ got ++ rest, b < 256) :
    l.Delivers (pre ++ rest) kind (got ++ rest) := by
  rcases eq_nil_or_snoc rest with hnil | ⟨init, z, rfl⟩
  · rw [hnil] at hrest; simp at hrest
  · simp only [List.length_append, List.length_singleton] at hrest
    obtain ⟨m2, hq, hat⟩ := Link.quietly_countdown init m a n _ h2 hn (by omega)
      (Link.Quietly.hasEvent_end h1)
    have hz : n - init.length = 0 := by omega
    rw [hz, ← Event.addBytes_append] at hat
    have hty : ((e.clean kind).addBytes (got ++ init)).type = kind := by
      rw [Event.type_addBytes]; rfl
    obtain ⟨m3, hstep, hat3, hflag⟩ := Link.last_getOne m2 a z _ hat (by rw [hty]; exact hk1)
      (by rw [hty]; exact hk2)
    rw [Event.addBytes_concat, List.append_assoc] at hat3
    have := Link.Delivers.of_last (Link.Quietly.append h1 hq) hstep hat3 hflag hlen hb
    simpa [List.append_assoc] using this

/-- From `STATE_APPEND_SECTOR` with `count` equal to the number of bytes still
to come, those bytes complete the message. -/
theorem Link.Delivers.tail_append {l m : Link} {pre got rest : List Nat} {a : Nat}
    {kind : EVENT_TYPE} {e : Event} (h1 : l.Quietly pre m)
    (h2 : m.At a ((e.clean kind).addBytes got) STATE_APPEND_SECTOR)
    (hc : m.count = rest.length) (hpos : 0 < rest.length) (hmax : rest.length < UINT_RANGE)
    (hlen : (got ++ rest).length ≤ BUFFER_SIZE) (hb : ∀ b ∈ got ++ rest, b < 256) :
    l.Delivers (pre ++ rest) kind (got ++ rest) := by
  rcases eq_nil_or_snoc rest with hnil | ⟨init, z, rfl⟩
  · rw [hnil] at hpos; simp at hpos
  · simp only [List.length_append, List.length_singleton] at hc hmax
    obtain ⟨m2, hq, hat, hcnt⟩ := Link.quietly_appendSector_at init m a _ h2
      (Link.Quietly.hasEvent_end h1) (by omega) (by omega)
    rw [← Event.addBytes_append] at hat
    obtain ⟨m3, hstep, hat3, hflag⟩ := Link.last_appendSector m2 a z _ hat (by omega)
    rw [Event.addBytes_concat, List.append_assoc] at hat3
    have := Link.Delivers.of_last (Link.Quietly.append h1 hq) hstep hat3 hflag hlen hb
    simpa [List.append_assoc] using this

/-- From `STATE_WAIT_NULL`, a run of non-zero bytes and then a zero byte
complete the message. -/
theorem Link.Delivers.tail_waitNull {l m : Link} {pre got name : List Nat} {a : Nat}
    {kind : EVENT_TYPE} {e : Event} (h1 : l.Quietly pre m)
    (h2 : m.At a ((e.clean kind).addBytes got) STATE_WAIT_NULL) (hnz : ∀ b ∈ name, b ≠ 0)
    (hlen : (got ++ (name ++ [0])).length ≤ BUFFER_SIZE)
    (hb : ∀ b ∈ got ++ (name ++ [0]), b < 256) :
    l.Delivers (pre ++ (name ++ [0])) kind (got ++ (name ++ [0])) := by
  obtain ⟨m2, hq, hat⟩ := Link.quietly_waitNull_at name m a _ h2 (Link.Quietly.hasEvent_end h1) hnz
  rw [← Event.addBytes_append] at hat
  obtain ⟨m3, hstep, hat3, hflag⟩ := Link.last_waitNull m2 a _ hat
  rw [Event.addBytes_concat, List.append_assoc] at hat3
  have := Link.Delivers.of_last (Link.Quietly.append h1 hq) hstep hat3 hflag hlen hb
  simpa [List.append_assoc] using this

/-- The command byte of a payload-collecting command, fed quietly. -/
theorem Link.quietly_opening (l : Link) (a cmd : Nat) (kind : EVENT_TYPE) (s : STATE)
    (hs : l.state = STATE_CMD) (h0 : l.hasEvent = false) (hf : l.freeEvent = some a)
    (hc : (cmd, kind, s) ∈ Link.opening) :
    ∃ m, l.Quietly [cmd] m ∧ m.At a (((l.heap a).clean kind).addBytes []) s ∧
      (cmd = PROTO_SET_CLOCK → m.count = 8) := by
  obtain ⟨m, hstep, hat, hflag, hcnt⟩ := Link.step_opening l a cmd kind s hs hf hc
  exact ⟨m, Link.Quietly.single h0 hstep (hflag h0), hat, hcnt⟩

/-- The header of a sector write: from a countdown state, the `n + 1` header
bytes are taken in quietly and the parser goes on to collect 256 bytes. -/
theorem Link.quietly_header_write {l m : Link} {pre hdr : List Nat} {a n : Nat}
    {kind : EVENT_TYPE} {e : Event} (h1 : l.Quietly pre m)
    (h2 : m.At a ((e.clean kind).addBytes []) (STATE.countdown n)) (hn : n ≤ 5)
    (hk : kind = EVT_WRITE_SECTOR ∨ kind = EVT_WRITE_SECTOR_LONG) (hlen : hdr.length = n + 1) :
    ∃ m2, l.Quietly (pre ++ hdr) m2 ∧ m2.At a ((e.clean kind).addBytes hdr) STATE_APPEND_SECTOR ∧
      m2.count = 256 := by
  rcases eq_nil_or_snoc hdr with hnil | ⟨init, z, rfl⟩
  · rw [hnil] at hlen; simp at hlen
  · simp only [List.length_append, List.length_singleton] at hlen
    have h0 := Link.Quietly.hasEvent_end h1
    obtain ⟨m2, hq, hat⟩ := Link.quietly_countdown init m a n _ h2 hn (by omega) h0
    have hz : n - init.length = 0 := by omega
    rw [hz, ← Event.addBytes_append, List.nil_append] at hat
    have hty : ((e.clean kind).addBytes init).type = kind := by
      rw [Event.type_addBytes]; rfl
    obtain ⟨m3, hstep, hat3, hflag, hcnt⟩ := Link.step_getOne_write m2 a z _ hat (by rw [hty]; exact hk)
    rw [Event.addBytes_concat] at hat3
    have hq3 : m2.Quietly [z] m3 :=
      Link.Quietly.single (Link.Quietly.hasEvent_end hq) hstep
        (by rw [hflag]; exact Link.Quietly.hasEvent_end hq)
    exact ⟨m3, Link.Quietly.append h1 (Link.Quietly.append hq hq3), hat3, hcnt⟩

/-! ## The claims on the inbound frames -/

/-- C2. From `STATE_CMD` with no message available, each fixed-length command
(unmount, get-status, set-timer, read-bytes with 1 payload byte, read-sector
with 5, read-sector-long with 6, set-clock with 8) followed by its payload
bytes delivers exactly one message: not available after any proper prefix,
available on the last payload byte, with the kind of the command, length the
number of payload bytes, data the payload in order, parser back in `STATE_CMD`. -/
theorem C2_fixed_length_frames (l : Link) (a cmd n : Nat) (kind : EVENT_TYPE) (payload : List Nat)
    (hs : l.state = STATE_CMD) (h0 : l.hasEvent = false) (hf : l.freeEvent = some a)
    (hc : (cmd, n, kind) ∈ Link.fixedLength) (hn : payload.length = n)
    (hb : ∀ b ∈ payload, b < 256) :
    l.Delivers (cmd :: payload) kind payload := by
  simp only [Link.fixedLength, List.mem_cons, Prod.mk.injEq, List.mem_singleton,
    List.not_mem_nil, or_false] at hc
  have hsize : ([] ++ payload).length ≤ BUFFER_SIZE → ∀ s : STATE, ∀ k : Nat,
      (cmd, kind, s) ∈ Link.opening → s = STATE.countdown k → k ≤ 5 → payload.length = k + 1 →
      kind ≠ EVT_WRITE_SECTOR → kind ≠ EVT_WRITE_SECTOR_LONG →
      l.Delivers (cmd :: payload) kind payload := by
    intro hsz s k hop hsk hk hlen hk1 hk2
    obtain ⟨m, hq, hat, _⟩ := Link.quietly_opening l a cmd kind s hs h0 hf hop
    rw [hsk] at hat
    exact Link.Delivers.tail_countdown hq hat hk hk1 hk2 hlen hsz (by simpa using hb)
  rcases hc with h | h | h | h | h | h | h <;> obtain ⟨rfl, rfl, rfl⟩ := h
  · exact hsize (by simp [hn, BUFFER_SIZE]) STATE_GET_ONE 0 (by simp [Link.opening]) rfl
      (by omega) hn (by decide) (by decide)
  · exact hsize (by simp [hn, BUFFER_SIZE]) STATE_GET_ONE 0 (by simp [Link.opening]) rfl
      (by omega) hn (by decide) (by decide)
  · exact hsize (by simp [hn, BUFFER_SIZE]) STATE_GET_ONE 0 (by simp [Link.opening]) rfl
      (by omega) hn (by decide) (by decide)
  · exact hsize (by simp [hn, BUFFER_SIZE]) STATE_GET_ONE 0 (by simp [Link.opening]) rfl
      (by omega) hn (by decide) (by decide)
  · exact hsize (by simp [hn, BUFFER_SIZE]) STATE_GET_FIVE 4 (by simp [Link.opening]) rfl
      (by omega) hn (by decide) (by decide)
  · exact hsize (by simp [hn, BUFFER_SIZE]) STATE_GET_SIX 5 (by simp [Link.opening]) rfl
      (by omega) hn (by decide) (by decide)
  · obtain ⟨m, hq, hat, hcnt⟩ := Link.quietly_opening l a 0x08 EVT_SET_CLOCK STATE_APPEND_SECTOR
      hs h0 hf (by simp [Link.opening])
    exact Link.Delivers.tail_append hq hat (by rw [hcnt (by simp), hn]) (by omega)
      (by simp [hn, UINT_RANGE]) (by simp [hn, BUFFER_SIZE]) (by simpa using hb)

/-- Witness of C2: read-sector `0x18` with the five payload bytes `1, 2, 3, 4, 5`
from the initial state. -/
theorem C2_fixed_length_frames_witness :
    Link.initial.state = STATE_CMD ∧ Link.initial.hasEvent = false ∧
      Link.initial.freeEvent = some 1 ∧ (0x18, 5, EVT_READ_SECTOR) ∈ Link.fixedLength ∧
      [1, 2, 3, 4, 5].length = 5 ∧ (∀ b ∈ [1, 2, 3, 4, 5], b < 256) ∧
      Link.initial.Delivers [0x18, 1, 2, 3, 4, 5] EVT_READ_SECTOR [1, 2, 3, 4, 5] :=
  ⟨rfl, rfl, rfl, by decide, rfl, by decide,
    C2_fixed_length_frames Link.initial 1 0x18 5 EVT_READ_SECTOR [1, 2, 3, 4, 5] rfl rfl rfl
      (by decide) rfl (by decide)⟩

/-- A sector write as a whole: command byte, `n + 1` header bytes, 256 bytes
of sector data. -/
theorem Link.Delivers.sector_write (l : Link) (a cmd n : Nat) (kind : EVENT_TYPE)
    (hdr data : List Nat) (hs : l.state = STATE_CMD) (h0 : l.hasEvent = false)
    (hf : l.freeEvent = some a) (hop : (cmd, kind, STATE.countdown n) ∈ Link.opening)
    (hn : n ≤ 5) (hk : kind = EVT_WRITE_SECTOR ∨ kind = EVT_WRITE_SECTOR_LONG)
    (hh : ∀ b ∈ hdr, b < 256) (hd : ∀ b ∈ data, b < 256) (hlen : data.length = 256)
    (hhl : hdr.length = n + 1) :
    (l.feed (cmd :: hdr)).map (fun m => (m.hasEvent, m.state, m.count))
        = some (false, STATE_APPEND_SECTOR, 256) ∧
      l.Delivers (cmd :: (hdr ++ data)) kind (hdr ++ data) := by
  obtain ⟨m, hq, hat, _⟩ := Link.quietly_opening l a cmd kind _ hs h0 hf hop
  obtain ⟨m2, hq2, hat2, hcnt⟩ := Link.quietly_header_write hq hat hn hk hhl
  have hb : ∀ b ∈ hdr ++ data, b < 256 := by
    intro b hbm
    rcases List.mem_append.mp hbm with h | h
    · exact hh b h
    · exact hd b h
  refine ⟨?_, ?_⟩
  · have hfeed : l.feed (cmd :: hdr) = some m2 := hq2.1
    rw [hfeed]
    simp [Link.Quietly.hasEvent_end hq2, hat2.2.2, hcnt]
  · have := Link.Delivers.tail_append hq2 hat2 (by rw [hcnt, hlen]) (by omega)
      (by simp [hlen, UINT_RANGE]) (by simp [hlen, hhl, BUFFER_SIZE]; omega) hb
    simpa using this

/-- C3. Write-sector `0x19` (5 header bytes) and write-sector-long `0x20`
(6 header bytes), fed from `STATE_CMD` with no message available: after the
last header byte no message is available and the parser is in
`STATE_APPEND_SECTOR` with 256 bytes to come, whatever the header bytes are
(the sector-size code among them); the message becomes available exactly on
the 256th data byte, with length 261 (262) and data the header followed by the
256 data bytes, parser back in `STATE_CMD`. -/
theorem C3_write_sector_frames (l : Link) (a cmd n : Nat) (kind : EVENT_TYPE)
    (hdr data : List Nat) (hs : l.state = STATE_CMD) (h0 : l.hasEvent = false)
    (hf : l.freeEvent = some a) (hc : (cmd, n, kind) ∈ Link.sectorWrites)
    (hhl : hdr.length = n) (hh : ∀ b ∈ hdr, b < 256) (hd : ∀ b ∈ data, b < 256)
    (hlen : data.length = 256) :
    (l.feed (cmd :: hdr)).map (fun m => (m.hasEvent, m.state, m.count))
        = some (false, STATE_APPEND_SECTOR, 256) ∧
      l.Delivers (cmd :: (hdr ++ data)) kind (hdr ++ data) ∧
      (hdr ++ data).length = n + 256 := by
  simp only [Link.sectorWrites, List.mem_cons, Prod.mk.injEq, List.mem_singleton,
    List.not_mem_nil, or_false] at hc
  rcases hc with h | h <;> obtain ⟨rfl, rfl, rfl⟩ := h
  · obtain ⟨p1, p2⟩ := Link.Delivers.sector_write l a 0x19 4 EVT_WRITE_SECTOR hdr data hs h0 hf
      (by simp [Link.opening, STATE.countdown]) (by omega) (Or.inl rfl) hh hd hlen hhl
    exact ⟨p1, p2, by simp [hhl, hlen]⟩
  · obtain ⟨p1, p2⟩ := Link.Delivers.sector_write l a 0x20 5 EVT_WRITE_SECTOR_LONG hdr data hs h0 hf
      (by simp [Link.opening, STATE.countdown]) (by omega) (Or.inr rfl) hh hd hlen hhl
    exact ⟨p1, p2, by simp [hhl, hlen]⟩

/-- Witness of C3: write-sector `0x19` with the header `0, 4, 0, 0, 10`
(sector-size code 4) and 256 data bytes `0xe5` from the initial state. -/
theorem C3_write_sector_frames_witness :
    Link.initial.state = STATE_CMD ∧ Link.initial.hasEvent = false ∧
      Link.initial.freeEvent = some 1 ∧ (0x19, 5, EVT_WRITE_SECTOR) ∈ Link.sectorWrites ∧
      [0, 4, 0, 0, 10].length = 5 ∧ (∀ b ∈ [0, 4, 0, 0, 10], b < 256) ∧
      (∀ b ∈ List.replicate 256 0xe5, b < 256) ∧ (List.replicate 256 0xe5).length = 256 ∧
      Link.initial.Delivers (0x19 :: ([0, 4, 0, 0, 10] ++ List.replicate 256 0xe5))
        EVT_WRITE_SECTOR ([0, 4, 0, 0, 10] ++ List.replicate 256 0xe5) :=
  ⟨rfl, rfl, rfl, by decide, rfl, by decide,
    fun b hb => by rw [List.eq_of_mem_replicate hb]; decide, List.length_replicate _ _,
    (C3_write_sector_frames Link.initial 1 0x19 5 EVT_WRITE_SECTOR [0, 4, 0, 0, 10]
      (List.replicate 256 0xe5) rfl rfl rfl (by decide) rfl (by decide)
      (fun b hb => by rw [List.eq_of_mem_replicate hb]; decide) (List.length_replicate _ _)).2.1⟩

/-- The command byte of a command whose arm clears the available flag. -/
theorem Link.step_opening_clears (l : Link) (a cmd : Nat) (kind : EVENT_TYPE) (s : STATE)
    (hs : l.state = STATE_CMD) (hf : l.freeEvent = some a) (hc : (cmd, kind, s) ∈ Link.opening)
    (hcl : cmd ∈ Link.clearing) :
    ∃ m, l.stateMachine cmd = some m ∧ m.At a (((l.heap a).clean kind).addBytes []) s ∧
      m.Quietly [] m := by
  simp only [Link.opening, List.mem_cons, Prod.mk.injEq, List.mem_singleton, List.not_mem_nil,
    or_false] at hc
  have key : ∀ m : Link, m.hasEvent = false → m.Quietly [] m := fun m hm => Link.Quietly.nil m hm
  rcases hc with h | h | h | h | h | h | h | h | h | h | h | h | h <;>
    obtain ⟨rfl, rfl, rfl⟩ := h <;>
    first
      | (exfalso; revert hcl; decide)
      | (refine ⟨_, by
            simp only [Link.stateMachine, hs, Link.command, Link.newEvent, Link.getAnEvent, hf,
              Link.finish, Link.uiSendEvent]
            rfl, ⟨rfl, by simp [Event.addBytes], rfl⟩, key _ rfl⟩)

/-- A frame whose command byte leads to a state from which the rest of the
frame delivers. -/
theorem Link.DeliversAnew.of_step {l m : Link} {cmd : Nat} {rest body : List Nat}
    {kind : EVENT_TYPE} (h1 : l.stateMachine cmd = some m) (h2 : m.Delivers rest kind body) :
    l.DeliversAnew (cmd :: rest) kind body := by
  have hf : l.feed (cmd :: rest) = m.feed rest := by rw [Link.feed_cons, h1]; rfl
  refine ⟨?_, ?_, ?_, ?_⟩
  · intro k hk1 hk
    obtain ⟨j, rfl⟩ : ∃ j, k = j + 1 := ⟨k - 1, by omega⟩
    rw [List.take_succ_cons, Link.feed_cons, h1]
    exact h2.1 j (by simpa using hk)
  · rw [hf]; exact h2.2.1
  · rw [hf]; exact h2.2.2.1
  · rw [hf]; exact h2.2.2.2

/-- C4. Write-bytes `0x1c` fed in `STATE_CMD` (whatever the available flag
was), then a length byte `L` and `n` data bytes, `n = 256` for `L = 0` and
`n = L` otherwise: no message is available after the command byte, after `L`
or after any but the last data byte; the message becomes available exactly on
the `n`-th data byte, has kind `EVT_WRITE_BYTES`, length `1 + n`, first byte
`L` and the data bytes after it in order; for `L = 0` the length is 257. -/
theorem C4_write_bytes_frame (l : Link) (a L : Nat) (data : List Nat)
    (hs : l.state = STATE_CMD) (hf : l.freeEvent = some a)
    (hL : L < 256) (hd : ∀ b ∈ data, b < 256)
    (hlen : data.length = if L = 0 then 256 else L) :
    l.DeliversAnew (0x1c :: L :: data) EVT_WRITE_BYTES (L :: data) ∧
      (L :: data).length = 1 + (if L = 0 then 256 else L) ∧
      (L = 0 → (L :: data).length = 257) := by
  obtain ⟨m, hstep0, hat, hq⟩ := Link.step_opening_clears l a 0x1c EVT_WRITE_BYTES
    STATE_GET_LENGTH hs hf (by simp [Link.opening]) (by decide)
  obtain ⟨m2, hstep, hat2, hflag, hcnt⟩ := Link.step_getLength m a L _ hat
  rw [Event.addBytes_concat, List.nil_append] at hat2
  have hm0 := Link.Quietly.hasEvent_end hq
  have hq2 : m.Quietly ([] ++ [L]) m2 :=
    Link.Quietly.append hq (Link.Quietly.single hm0 hstep (by rw [hflag]; exact hm0))
  have hdl : data.length ≤ 256 ∧ 0 < data.length := by
    rw [hlen]; split <;> omega
  have hb : ∀ b ∈ [L] ++ data, b < 256 := by
    intro b hbm
    rcases List.mem_append.mp hbm with h | h
    · rw [List.mem_singleton.mp h]; exact hL
    · exact hd b h
  refine ⟨?_, ?_, ?_⟩
  · have := Link.Delivers.tail_append hq2 hat2 (by rw [hcnt, hlen]) hdl.2
      (by unfold UINT_RANGE; omega) (by simp [BUFFER_SIZE]; omega) hb
    exact Link.DeliversAnew.of_step hstep0 (by simpa using this)
  · rw [List.length_cons, hlen]; omega
  · intro hz
    rw [List.length_cons, hlen, if_pos hz]

/-- Witness of C4: length byte `0` and 256 data bytes `0x41`, fed while a
get-version message is still waiting. -/
theorem C4_write_bytes_frame_witness :
    Link.pending.state = STATE_CMD ∧ Link.pending.freeEvent = some 1 ∧ 0 < 256 ∧
      (∀ b ∈ List.replicate 256 0x41, b < 256) ∧
      (List.replicate 256 0x41).length = (if 0 = 0 then 256 else 0) ∧
      Link.pending.DeliversAnew (0x1c :: 0 :: List.replicate 256 0x41) EVT_WRITE_BYTES
        (0 :: List.replicate 256 0x41) :=
  ⟨rfl, rfl, by decide, fun b hb => by rw [List.eq_of_mem_replicate hb]; decide,
    List.length_replicate _ _,
    (C4_write_bytes_frame Link.pending 1 0 (List.replicate 256 0x41) rfl rfl (by decide)
      (fun b hb => by rw [List.eq_of_mem_replicate hb]; decide) (List.length_replicate _ _)).1⟩

/-- C5. Read-file `0x16` and write-file `0x1b` fed in `STATE_CMD` (whatever the
available flag was), then a name of `k ≤ 265` non-zero bytes and a zero byte:
the message becomes available exactly on the zero byte, not before, with kind
`EVT_TYPE_FILE` (`0x16`) or `EVT_WRITE_FILE` (`0x1b`), length `k + 1` and data
the name followed by the zero; the parser is back in `STATE_CMD`. -/
theorem C5_name_frames (l : Link) (a cmd : Nat) (kind : EVENT_TYPE) (name : List Nat)
    (hs : l.state = STATE_CMD) (hf : l.freeEvent = some a)
    (hc : (cmd, kind) ∈ Link.nameCommands) (hk : name.length ≤ 265)
    (hnz : ∀ b ∈ name, b ≠ 0) (hb : ∀ b ∈ name, b < 256) :
    l.DeliversAnew (cmd :: (name ++ [0])) kind (name ++ [0]) ∧
      (name ++ [0]).length = name.length + 1 := by
  have hop : (cmd, kind, STATE_WAIT_NULL) ∈ Link.opening ∧ cmd ∈ Link.clearing := by
    simp only [Link.nameCommands, List.mem_cons, Prod.mk.injEq, List.mem_singleton,
      List.not_mem_nil, or_false] at hc
    rcases hc with h | h <;> obtain ⟨rfl, rfl⟩ := h <;> exact ⟨by simp [Link.opening], by decide⟩
  obtain ⟨m, hstep0, hat, hq⟩ := Link.step_opening_clears l a cmd kind STATE_WAIT_NULL hs hf
    hop.1 hop.2
  have hball : ∀ b ∈ [] ++ (name ++ [0]), b < 256 := by
    intro b hbm
    simp only [List.nil_append, List.mem_append, List.mem_singleton] at hbm
    rcases hbm with h | h
    · exact hb b h
    · rw [h]; decide
  refine ⟨?_, by simp⟩
  have := Link.Delivers.tail_waitNull hq hat hnz (by simp [BUFFER_SIZE]; omega) hball
  exact Link.DeliversAnew.of_step hstep0 (by simpa using this)

/-- Witness of C5: write-file `0x1b` with the name `A.B`, fed while a
get-version message is still waiting. -/
theorem C5_name_frames_witness :
    Link.pending.state = STATE_CMD ∧ Link.pending.freeEvent = some 1 ∧
      (0x1b, EVT_WRITE_FILE) ∈ Link.nameCommands ∧
      [0x41, 0x2e, 0x42].length ≤ 265 ∧ (∀ b ∈ [0x41, 0x2e, 0x42], b ≠ 0) ∧
      (∀ b ∈ [0x41, 0x2e, 0x42], b < 256) ∧
      Link.pending.DeliversAnew (0x1b :: ([0x41, 0x2e, 0x42] ++ [0])) EVT_WRITE_FILE
        ([0x41, 0x2e, 0x42] ++ [0]) :=
  ⟨rfl, rfl, by decide, by decide, by decide, by decide,
    (C5_name_frames Link.pending 1 0x1b EVT_WRITE_FILE [0x41, 0x2e, 0x42] rfl rfl (by decide)
      (by decide) (by decide) (by decide)).1⟩

/-- C6. Mount `0x12` fed in `STATE_CMD` (whatever the available flag was), then
a drive byte `d`, a read-only flag byte `r` (any values, zero included), a name
of `k ≤ 263` non-zero bytes and a zero byte: `d` and `r` never end the message,
the message becomes available exactly on the zero byte that ends the name, and
it has kind `EVT_MOUNT`, length `k + 3` and data `d, r`, the name, the zero. -/
theorem C6_mount_frame (l : Link) (a d r : Nat) (name : List Nat)
    (hs : l.state = STATE_CMD) (hf : l.freeEvent = some a)
    (hd : d < 256) (hr : r < 256) (hk : name.length ≤ 263)
    (hnz : ∀ b ∈ name, b ≠ 0) (hb : ∀ b ∈ name, b < 256) :
    l.DeliversAnew (0x12 :: d :: r :: (name ++ [0])) EVT_MOUNT (d :: r :: (name ++ [0])) ∧
      (d :: r :: (name ++ [0])).length = name.length + 3 := by
  obtain ⟨m, hstep0, hat, hq⟩ := Link.step_opening_clears l a 0x12 EVT_MOUNT
    STATE_GET_DRV_NUMBER_TO_MOUNT hs hf (by simp [Link.opening]) (by decide)
  have hm0 := Link.Quietly.hasEvent_end hq
  obtain ⟨m2, hstep2, hat2, hflag2⟩ := Link.step_drvNumber m a d _ hat
  have hm2 : m2.hasEvent = false := by rw [hflag2]; exact hm0
  obtain ⟨m3, hstep3, hat3, hflag3⟩ := Link.step_drvName m2 a r _ hat2
  have hm3 : m3.hasEvent = false := by rw [hflag3]; exact hm2
  rw [Event.addBytes_concat, Event.addBytes_concat, List.nil_append] at hat3
  have hq3 : m.Quietly ([] ++ ([d] ++ [r])) m3 :=
    Link.Quietly.append hq
      (Link.Quietly.append (Link.Quietly.single hm0 hstep2 hm2) (Link.Quietly.single hm2 hstep3 hm3))
  have hball : ∀ b ∈ ([d] ++ [r]) ++ (name ++ [0]), b < 256 := by
    intro b hbm
    simp only [List.singleton_append, List.cons_append, List.nil_append, List.mem_cons,
      List.mem_append, List.mem_singleton, List.not_mem_nil, or_false] at hbm
    rcases hbm with h | h | h | h
    · rw [h]; exact hd
    · rw [h]; exact hr
    · exact hb b h
    · rw [h]; decide
  refine ⟨?_, by simp⟩
  have := Link.Delivers.tail_waitNull hq3 hat3 hnz (by simp [BUFFER_SIZE]; omega) hball
  exact Link.DeliversAnew.of_step hstep0 (by simpa using this)

/-- Witness of C6: drive `0`, read-only flag `0` and the name `A.B`, fed while
a get-version message is still waiting. -/
theorem C6_mount_frame_witness :
    Link.pending.state = STATE_CMD ∧ Link.pending.freeEvent = some 1 ∧ 0 < 256 ∧
      [0x41, 0x2e, 0x42].length ≤ 263 ∧
      (∀ b ∈ [0x41, 0x2e, 0x42], b ≠ 0) ∧ (∀ b ∈ [0x41, 0x2e, 0x42], b < 256) ∧
      Link.pending.DeliversAnew (0x12 :: 0 :: 0 :: ([0x41, 0x2e, 0x42] ++ [0])) EVT_MOUNT
        (0 :: 0 :: ([0x41, 0x2e, 0x42] ++ [0])) :=
  ⟨rfl, rfl, by decide, by decide, by decide, by decide,
    (C6_mount_frame Link.pending 1 0 0 [0x41, 0x2e, 0x42] rfl rfl (by decide) (by decide)
      (by decide) (by decide) (by decide)).1⟩

/-! ## What `begin` establishes and every action keeps -/

theorem Link.begin_ready (l : Link) (addr : Nat) (mem : Nat → Nat) : (l.begin addr mem).Ready := by
  simp [Link.Ready, Link.begin, Link.prepareRead]

theorem Link.newEvent_ready (l m : Link) (t : EVENT_TYPE) (h : l.newEvent t = some m) :
    m.freeEvent = l.freeEvent ∧ m.event ≠ none := by
  unfold Link.newEvent Link.getAnEvent at h
  cases hf : l.freeEvent with
  | none => rw [hf] at h; simp at h
  | some a =>
    rw [hf] at h
    simp only [Option.some.injEq] at h
    subst h
    simp [hf]

theorem Link.map_newEvent_ready (l m : Link) (t : EVENT_TYPE) (f : Link → Link × Bool) (d : Bool)
    (hr : l.Ready) (hf : ∀ q, (f q).1.freeEvent = q.freeEvent ∧ (f q).1.event = q.event)
    (h : (l.newEvent t).map f = some (m, d)) : m.Ready := by
  cases hn : l.newEvent t with
  | none => rw [hn] at h; simp at h
  | some q =>
    rw [hn] at h
    simp only [Option.map_some', Option.some.injEq] at h
    obtain ⟨h1, h2⟩ := Link.newEvent_ready l q t hn
    obtain ⟨h3, h4⟩ := hf q
    have hm : m = (f q).1 := by rw [h]
    subst hm
    exact ⟨by rw [h3, h1]; exact hr.1, fun _ => by rw [h4]; exact h2⟩

theorem ite_some_elim {α : Type} {c : Prop} [Decidable c] {x y : Option α} {r : α} {P : Prop}
    (h : (if c then x else y) = some r) (h1 : x = some r → P) (h2 : y = some r → P) : P := by
  by_cases hc : c
  · rw [if_pos hc] at h; exact h1 h
  · rw [if_neg hc] at h; exact h2 h

theorem Link.command_ready (l m : Link) (b : Nat) (d : Bool) (hr : l.Ready)
    (h : l.command b = some (m, d)) : m.Ready := by
  unfold Link.command at h
  repeat' (refine ite_some_elim h ?_ ?_ <;> clear h <;> intro h)
  all_goals first
    | exact Link.map_newEvent_ready l m _ _ d hr (fun q => ⟨rfl, rfl⟩) h
    | (cases h; exact hr)

theorem Link.map_eventAddByte_ready (l m : Link) (b : Nat) (f : Link → Link)
    (hr : l.freeEvent ≠ none) (hf : ∀ q, (f q).freeEvent = q.freeEvent ∧ (f q).event = q.event)
    (h : (l.eventAddByte b).map f = some m) : m.Ready := by
  unfold Link.eventAddByte at h
  cases he : l.event with
  | none => rw [he] at h; simp at h
  | some a =>
    rw [he] at h
    simp only [Option.map_some', Option.some.injEq] at h
    subst h
    obtain ⟨h3, h4⟩ := hf { l with heap := Function.update l.heap a ((l.heap a).addByte b), event := some a }
    exact ⟨by rw [h3]; exact hr, fun _ => by rw [h4]; simp⟩

theorem Link.stateMachine_ready (l m : Link) (b : Nat) (hr : l.Ready)
    (h : l.stateMachine b = some m) : m.Ready := by
  unfold Link.stateMachine at h
  split at h
  case h_1 =>
    cases hc : Link.command (l.uiSendEvent UI_TRANSACTION_START) b with
    | none => rw [hc] at h; simp at h
    | some r =>
      obtain ⟨q, d⟩ := r
      rw [hc] at h
      simp only [Option.map_some', Option.some.injEq] at h
      have hq : q.Ready := Link.command_ready (l.uiSendEvent UI_TRANSACTION_START) q b d hr hc
      subst h
      cases d
      · exact hq
      · exact hq
  case h_12 =>
    exact Link.map_eventAddByte_ready { l with count := if b = 0 then 256 else b } m b
      (fun q => { q with state := STATE_APPEND_SECTOR }) hr.1 (fun q => ⟨rfl, rfl⟩) h
  all_goals
    refine Link.map_eventAddByte_ready _ m b _ hr.1 (fun q => ?_) h
    first
      | (dsimp only; split <;> exact ⟨rfl, rfl⟩)
      | exact ⟨rfl, rfl⟩

theorem Link.act_ready (l m : Link) (x : Action) (hr : l.Ready) (h : l.act x = some m) :
    m.Ready := by
  cases x with
  | byte b => exact Link.stateMachine_ready l m b hr h
  | getEvent =>
    simp only [Link.act, Link.getEvent, Option.some.injEq] at h
    subst h
    exact ⟨hr.1, by simp⟩

theorem Link.run_ready (xs : List Action) :
    ∀ l m : Link, l.Ready → l.run xs = some m → m.Ready := by
  induction xs with
  | nil =>
    intro l m hr h
    simp only [Link.run, Option.some.injEq] at h
    rw [← h]; exact hr
  | cons x xs ih =>
    intro l m hr h
    simp only [Link.run] at h
    cases hx : l.act x with
    | none => rw [hx] at h; simp at h
    | some l1 =>
      rw [hx] at h
      exact ih l1 m (Link.act_ready l l1 x hr hx) h

/-- C7. In `STATE_CMD` each of the command bytes get-version `0x01`,
get-directory `0x10`, get-mounted-list `0x11`, get-clock `0x07` and save-config
`0x1d` makes a message available on that single byte, with the kind of the
command and length 0, and leaves the parser in `STATE_CMD`. -/
theorem C7_no_payload_commands (l : Link) (a cmd : Nat) (kind : EVENT_TYPE)
    (hs : l.state = STATE_CMD) (hf : l.freeEvent = some a) (hc : (cmd, kind) ∈ Link.noPayload) :
    (l.stateMachine cmd).map Link.hasEvent = some true ∧
      (l.stateMachine cmd).map Link.message = some (some (kind, 0, [])) ∧
      (l.stateMachine cmd).map Link.state = some STATE_CMD := by
  simp only [Link.noPayload, List.mem_cons, Prod.mk.injEq, List.mem_singleton,
    List.not_mem_nil, or_false] at hc
  rcases hc with h | h | h | h | h <;> obtain ⟨rfl, rfl⟩ := h <;>
    simp [Link.stateMachine, hs, Link.command, Link.newEvent, Link.getAnEvent, hf, Link.finish,
      Link.uiSendEvent, Link.message, Event.clean, Event.getType, Event.getLength, Event.payload]

/-- Witness of C7: get-directory `0x10` in the initial state. -/
theorem C7_no_payload_commands_witness :
    Link.initial.state = STATE_CMD ∧ Link.initial.freeEvent = some 1 ∧
      (0x10, EVT_GET_DIRECTORY) ∈ Link.noPayload ∧
      (Link.initial.stateMachine 0x10).map Link.hasEvent = some true ∧
      (Link.initial.stateMachine 0x10).map Link.message = some (some (EVT_GET_DIRECTORY, 0, [])) ∧
      (Link.initial.stateMachine 0x10).map Link.state = some STATE_CMD :=
  ⟨rfl, rfl, by decide,
    C7_no_payload_commands Link.initial 1 0x10 EVT_GET_DIRECTORY rfl rfl (by decide)⟩

/-- C8. In `STATE_CMD` the ping byte `0x05` writes exactly the byte `0x85` to
the host and the protocol-version query `0x81` writes exactly the bytes `0x81`,
`0x01`; in both cases the available flag, `event`, the events behind the
pointers, `count` and the parser state `STATE_CMD` are what they were: nothing
else changes but the bus direction (back to reading) and the indicator, which
is told start and stop. -/
theorem C8_ping_and_version (l : Link) (hs : l.state = STATE_CMD) :
    l.stateMachine 0x05 =
        some { l with
          wire := l.wire ++ [0x85], lowerDDR := 0,
          ui := l.ui ++ [UI_TRANSACTION_START, UI_TRANSACTION_STOP] } ∧
      l.stateMachine 0x81 =
        some { l with
          wire := l.wire ++ [0x81, 0x01], lowerDDR := 0,
          ui := l.ui ++ [UI_TRANSACTION_START, UI_TRANSACTION_STOP] } := by
  constructor <;>
    simp [Link.stateMachine, hs, Link.command, Link.finish, Link.uiSendEvent, Link.prepareRead,
      Link.prepareWrite, Link.writeByte, LOWER_MASK, PROTOCOL_VERSION]

/-- Witness of C8: the ping in the initial state. -/
theorem C8_ping_and_version_witness :
    Link.initial.state = STATE_CMD ∧
      Link.initial.stateMachine 0x05 =
        some { Link.initial with
          wire := Link.initial.wire ++ [0x85], lowerDDR := 0,
          ui := Link.initial.ui ++ [UI_TRANSACTION_START, UI_TRANSACTION_STOP] } :=
  ⟨rfl, (C8_ping_and_version Link.initial rfl).1⟩

/-- C9. In `STATE_CMD` a token that is none of the `case` labels of the
command switch queues no message: the available flag, `event`, the events
behind the pointers, the parser state, `count`, the bus direction and the bytes
written to the host are all unchanged; the indicator is told start and then
stop (the transaction is signalled as ended). -/
theorem C9_unrecognized_command (l : Link) (token : Nat) (hs : l.state = STATE_CMD)
    (hu : token ∉ Link.recognized) :
    l.stateMachine token =
      some { l with ui := l.ui ++ [UI_TRANSACTION_START, UI_TRANSACTION_STOP] } := by
  simp only [Link.recognized, List.mem_cons, List.mem_singleton, List.not_mem_nil, or_false,
    not_or] at hu
  obtain ⟨u1, u2, u3, u4, u5, u6, u7, u8, u9, u10, u11, u12, u13, u14, u15, u16, u17, u18, u19,
    u20, u21⟩ := hu
  simp only [Link.stateMachine, hs, Link.command, if_neg u1, if_neg u2, if_neg u3, if_neg u4,
    if_neg u5, if_neg u6, if_neg u7, if_neg u8, if_neg u9, if_neg u10, if_neg u11, if_neg u12,
    if_neg u13, if_neg u14, if_neg u15, if_neg u16, if_neg u17, if_neg u18, if_neg u19,
    if_neg u20, if_neg u21, Option.map_some', Link.finish, Link.uiSendEvent, if_true,
    List.append_assoc, List.singleton_append]

/-- Witness of C9: the byte `0x06` (the LED code, which has no `case`) in the
initial state. -/
theorem C9_unrecognized_command_witness :
    Link.initial.state = STATE_CMD ∧ 0x06 ∉ Link.recognized ∧
      Link.initial.stateMachine 0x06 =
        some { Link.initial with ui := Link.initial.ui ++ [UI_TRANSACTION_START, UI_TRANSACTION_STOP] } :=
  ⟨rfl, by decide, C9_unrecognized_command Link.initial 0x06 rfl (by decide)⟩

/-- C10. In every state reached from `begin` by inbound bytes and `getEvent`
calls in any order, when a message is reported available `getEvent` returns
the pointer to it (not `NULL`), leaves the message itself untouched and clears
the flag; a second `getEvent` right after returns `NULL` and leaves the flag
clear. -/
theorem C10_message_retrieved_once (l0 : Link) (addr : Nat) (mem : Nat → Nat)
    (acts : List Action) (l : Link) (hrun : (l0.begin addr mem).run acts = some l)
    (hav : l.hasEvent = true) :
    l.getEvent.2 = l.event ∧ l.getEvent.2 ≠ none ∧ l.getEvent.1.hasEvent = false ∧
      l.getEvent.1.heap = l.heap ∧ l.getEvent.1.getEvent.2 = none ∧
      l.getEvent.1.getEvent.1.hasEvent = false := by
  have hr := Link.run_ready acts _ l (Link.begin_ready l0 addr mem) hrun
  exact ⟨rfl, hr.2 hav, rfl, rfl, rfl, rfl⟩

/-- Witness of C10: the state after get-version `0x01` from the initial state. -/
theorem C10_message_retrieved_once_witness :
    (Link.powerOn.begin 1 (fun _ => 0)).run [Action.byte 0x01] = some Link.pending ∧
      Link.pending.hasEvent = true ∧
      Link.pending.getEvent.2 = Link.pending.event ∧ Link.pending.getEvent.2 ≠ none ∧
      Link.pending.getEvent.1.hasEvent = false ∧ Link.pending.getEvent.1.heap = Link.pending.heap ∧
      Link.pending.getEvent.1.getEvent.2 = none ∧
      Link.pending.getEvent.1.getEvent.1.hasEvent = false :=
  ⟨rfl, rfl,
    C10_message_retrieved_once Link.powerOn 1 (fun _ => 0) [Action.byte 0x01] Link.pending rfl rfl⟩

/-- C1, the input on which the code leaves the claim: get-version `0x01` and
then read-sector `0x18` from the initial state, no `getEvent` in between.  The
flag set by `0x01` is still set after `0x18` (the `PROTO_READ_SECTOR` arm does
not clear it), while the parser is in `STATE_GET_FIVE` and the shared event is
an empty `EVT_READ_SECTOR` message waiting for its five bytes. -/
theorem C1_stale_flag_on_read_sector :
    (Link.initial.feed [0x01, 0x18]).map (fun m => (m.hasEvent, m.state, m.message))
      = some (true, STATE_GET_FIVE, some (EVT_READ_SECTOR, 0, [])) := by
  rfl

/-! ## The message buffer under its operations -/

theorem Event.apply_index_le (e : Event) (op : EventOp) (h : e.index ≤ BUFFER_SIZE) :
    (e.apply op).index ≤ BUFFER_SIZE := by
  cases op with
  | addByte data =>
    simp only [Event.apply, Event.addByte]
    split
    · exact h
    · rename_i hne
      simp only
      omega
  | clean0 => simp [Event.apply, Event.clean0]
  | clean atype => simp [Event.apply, Event.clean]
  | setType ntype => simp [Event.apply, Event.setType, Event.clearData]
  | clearData => simp [Event.apply, Event.clearData]

theorem Event.applyAll_index_le (ops : List EventOp) :
    ∀ e : Event, e.index ≤ BUFFER_SIZE → (e.applyAll ops).index ≤ BUFFER_SIZE := by
  induction ops with
  | nil => intro e h; exact h
  | cons op ops ih =>
    intro e h
    exact ih (e.apply op) (Event.apply_index_le e op h)

/-- C11. Whatever sequence of `addByte`, `clean()`, `clean(kind)`, `setType`
and `clearData` is applied to a newly constructed `Event`, `getLength` is at
most `BUFFER_SIZE = 266`.  `addByte` on an `Event` of length 266 changes
nothing (kind, length, stored bytes); `addByte` of the byte `b` on an `Event`
of length `n < 266` gives length `n + 1`, `b` at position `n`, the kind and
every other position as before. -/
theorem C11_event_capacity (mem : Nat → Nat) (ops : List EventOp) (e : Event) (b : Nat)
    (hb : b < 256) :
    ((Event.new mem).applyAll ops).getLength ≤ BUFFER_SIZE ∧ BUFFER_SIZE = 266 ∧
      (e.getLength = 266 → e.addByte b = e) ∧
      (e.getLength < 266 →
        (e.addByte b).getLength = e.getLength + 1 ∧
        (e.addByte b).getData e.getLength = b ∧
        (e.addByte b).getType = e.getType ∧
        ∀ i, i ≠ e.getLength → (e.addByte b).getData i = e.getData i) := by
  refine ⟨Event.applyAll_index_le ops _ (by simp [Event.new]), rfl, ?_, ?_⟩
  · intro h
    simp only [Event.getLength] at h
    simp [Event.addByte, h, BUFFER_SIZE]
  · intro h
    simp only [Event.getLength] at h
    have hne : e.index ≠ BUFFER_SIZE := by unfold BUFFER_SIZE; omega
    refine ⟨?_, ?_, ?_, ?_⟩
    · simp [Event.addByte, hne, Event.getLength]
    · simp [Event.addByte, hne, Event.getLength, Event.getData, Nat.mod_eq_of_lt hb]
    · simp [Event.addByte, hne, Event.getType]
    · intro i hi
      simp only [Event.getLength] at hi
      simp [Event.addByte, hne, Event.getData, Function.update_noteq hi]

/-- Witness of C11: 300 bytes added to a new `Event`, and one more byte added
to an `Event` holding three. -/
theorem C11_event_capacity_witness :
    (0x41 : Nat) < 256 ∧
      ((Event.new (fun _ => 0)).applyAll (List.replicate 300 (EventOp.addByte 7))).getLength
        ≤ BUFFER_SIZE ∧
      ((Event.new (fun _ => 0)).addBytes [1, 2, 3]).getLength < 266 ∧
      (((Event.new (fun _ => 0)).addBytes [1, 2, 3]).addByte 0x41).getLength = 4 ∧
      (((Event.new (fun _ => 0)).addBytes [1, 2, 3]).addByte 0x41).getData 3 = 0x41 :=
  ⟨by decide,
    (C11_event_capacity (fun _ => 0) (List.replicate 300 (EventOp.addByte 7))
      ((Event.new (fun _ => 0)).addBytes [1, 2, 3]) 0x41 (by decide)).1,
    by decide,
    ((C11_event_capacity (fun _ => 0) (List.replicate 300 (EventOp.addByte 7))
      ((Event.new (fun _ => 0)).addBytes [1, 2, 3]) 0x41 (by decide)).2.2.2 (by decide)).1,
    ((C11_event_capacity (fun _ => 0) (List.replicate 300 (EventOp.addByte 7))
      ((Event.new (fun _ => 0)).addBytes [1, 2, 3]) 0x41 (by decide)).2.2.2 (by decide)).2.1⟩

/-! ## The claims on `Disk` and on the per-drive operations of `Disks` -/

/-- C12, the inputs on which the code leaves the claim (and the comment above
`Disk::getStatus`, "1: 0 = read only, 1 = R/W"): a disk mounted read-only
reports `0x03` and a disk mounted writable reports `0x01`; bit 1 is set for
the read-only disk, not for the writable one.  An unmounted disk reports 0. -/
theorem C12_status_bit1_is_read_only :
    ((Disk.new Disk.blank).mount SDCard.sample nameA true).isMounted = true ∧
      ((Disk.new Disk.blank).mount SDCard.sample nameA true).isReadOnly = true ∧
      ((Disk.new Disk.blank).mount SDCard.sample nameA true).getStatus = 0x03 ∧
      ((Disk.new Disk.blank).mount SDCard.sample nameA false).isMounted = true ∧
      ((Disk.new Disk.blank).mount SDCard.sample nameA false).isReadOnly = false ∧
      ((Disk.new Disk.blank).mount SDCard.sample nameA false).getStatus = 0x01 ∧
      (Disk.new Disk.blank).getStatus = 0 := by
  decide

/-! ## The storage driver model: reading and writing a run of bytes -/

theorem File.readBytes_isOpen (n : Nat) :
    ∀ (f : File) (sd : SDCard), (File.readBytes n f sd).1.isOpen = f.isOpen ∧
      (File.readBytes n f sd).1.name = f.name ∧ (File.readBytes n f sd).2.length = n := by
  induction n with
  | zero => intro f sd; simp [File.readBytes]
  | succ n ih =>
    intro f sd
    obtain ⟨h1, h2, h3⟩ := ih (f.read sd).1 sd
    have hr : (f.read sd).1.isOpen = f.isOpen ∧ (f.read sd).1.name = f.name := by
      unfold File.read
      split <;> simp
    simp only [File.readBytes, List.length_cons, h1, h2, h3, hr.1, hr.2, and_self]

/-- Reading `n` bytes from an open handle with at least `n` bytes to the end
of the file gives the `n` file bytes from the position on. -/
theorem File.readBytes_spec (n : Nat) :
    ∀ (f : File) (sd : SDCard), f.isOpen = true → f.pos + n ≤ (f.content sd).length →
      File.readBytes n f sd = ({ f with pos := f.pos + n }, ((f.content sd).drop f.pos).take n) := by
  induction n with
  | zero => intro f sd _ _; simp [File.readBytes]
  | succ n ih =>
    intro f sd ho hlen
    have hlt : f.pos < (f.content sd).length := by omega
    have hread : f.read sd = ({ f with pos := f.pos + 1 }, (f.content sd).getD f.pos 0) := by
      simp [File.read, File.size, ho, hlt]
    have hc : File.content { f with pos := f.pos + 1 } sd = f.content sd := rfl
    have := ih { f with pos := f.pos + 1 } sd ho (by rw [hc]; simp only; omega)
    simp only [File.readBytes, hread, this, hc]
    refine Prod.ext ?_ ?_
    · simp only [File.mk.injEq, true_and]
      omega
    · simp only
      rw [List.drop_eq_getElem_cons hlt, List.take_succ_cons]
      congr 1
      simp [List.getD, List.getElem?_eq_getElem hlt]

/-- Overwriting `b.length` bytes of `c` at `p`: the length stays, the bytes
from `p` on are `b`, and all other bytes are the old ones. -/
theorem splice_spec (old b : List Nat) (p : Nat) (h : p + b.length ≤ old.length) :
    (old.take p ++ b ++ old.drop (p + b.length)).length = old.length ∧
      ((old.take p ++ b ++ old.drop (p + b.length)).drop p).take b.length = b ∧
      ∀ i, (i < p ∨ p + b.length ≤ i) →
        (old.take p ++ b ++ old.drop (p + b.length))[i]? = old[i]? := by
  have hp : (old.take p).length = p := by rw [List.length_take]; omega
  refine ⟨?_, ?_, ?_⟩
  · simp only [List.length_append, List.length_take, List.length_drop]
    omega
  · rw [List.append_assoc, List.drop_append_eq_append_drop, hp, Nat.sub_self, List.drop_zero,
      List.drop_of_length_le (by omega), List.nil_append, List.take_append_eq_append_take,
      List.take_length, Nat.sub_self, List.take_zero, List.append_nil]
  · intro i hi
    rcases hi with hi | hi
    · rw [List.append_assoc, List.getElem?_append_left (by omega), List.getElem?_take_of_lt hi]
    · rw [List.getElem?_append_right (by simp only [List.length_append, hp]; omega)]
      simp only [List.length_append, hp, List.getElem?_drop]
      congr 1
      omega

/-- `Disk::read` where a whole sector lies between `offset` and the end of the
file behind an open handle. -/
theorem Disk.read_ok (d : Disk) (sd : SDCard) (offset : Nat) (buf : List Nat)
    (hop : d.file.isOpen = true) (hlen : offset + SECTOR_SIZE ≤ (d.file.content sd).length) :
    d.read sd offset buf =
      ({ d with errorCode := ERR_NONE, file := { d.file with pos := offset + SECTOR_SIZE } }, true,
        ((d.file.content sd).drop offset).take SECTOR_SIZE ++ buf.drop SECTOR_SIZE) := by
  have hS : SECTOR_SIZE = 256 := rfl
  have hseek : d.file.seek offset = { d.file with pos := offset } := by simp [File.seek, hop]
  have hsize : File.size { d.file with pos := offset } sd = (d.file.content sd).length := by
    simp [File.size, hop, File.content]
  have hav : ¬ (File.available { d.file with pos := offset } sd < SECTOR_SIZE) := by
    simp only [File.available, hsize]
    omega
  have hwrap : ¬ ((offset + SECTOR_SIZE) % ULONG_RANGE > File.size { d.file with pos := offset } sd) := by
    rw [hsize]
    have := Nat.mod_le (offset + SECTOR_SIZE) ULONG_RANGE
    omega
  have hrb := File.readBytes_spec SECTOR_SIZE { d.file with pos := offset } sd hop hlen
  unfold Disk.read
  simp only [hseek, hav, hwrap, decide_False, Bool.or_self, Bool.not_false, Bool.false_eq_true,
    if_false, hrb]
  rfl

/-- `Disk::read` where less than a sector lies between `offset` and the end of
the file, or the handle is not open. -/
theorem Disk.read_bad (d : Disk) (sd : SDCard) (offset : Nat) (buf : List Nat)
    (h : (d.file.seek offset).available sd < SECTOR_SIZE) :
    (d.read sd offset buf).2.1 = false ∧ (d.read sd offset buf).1.errorCode = ERR_READ_ERROR := by
  unfold Disk.read
  simp [h]

/-- What a successful `Disk::write` of a full sector did. -/
theorem Disk.write_true (d : Disk) (sd : SDCard) (offset : Nat) (b : List Nat) (wrote : Nat)
    (hb : b.length = SECTOR_SIZE) (hw : (d.write sd offset b wrote).2.2 = true) :
    ∃ old, d.readOnlyFlag = false ∧ d.file.isOpen = true ∧ sd.files d.file.name = some old ∧
      offset + SECTOR_SIZE ≤ old.length ∧
      (d.write sd offset b wrote).1 =
        { d with errorCode := ERR_NONE, file := { d.file with pos := offset + SECTOR_SIZE } } ∧
      (d.write sd offset b wrote).2.1 =
        sd.put d.file.name (old.take offset ++ b ++ old.drop (offset + SECTOR_SIZE)) := by
  have hS : SECTOR_SIZE = 256 := rfl
  have htake : List.take SECTOR_SIZE b = b := by
    rw [← hb]; exact List.take_length _
  have hro : d.readOnlyFlag = false := by
    cases h : d.readOnlyFlag with
    | false => rfl
    | true => simp [Disk.write, h] at hw
  have hop : d.file.isOpen = true := by
    cases h : d.file.isOpen with
    | true => rfl
    | false => simp [Disk.write, hro, File.seek, h, File.available, File.size, hS] at hw
  cases hf : sd.files d.file.name with
  | none =>
    simp [Disk.write, hro, File.seek, hop, File.available, File.size, File.content, hf, hS] at hw
  | some old =>
    have hlen : offset + SECTOR_SIZE ≤ old.length := by
      by_contra hcon
      have hav : old.length - offset < SECTOR_SIZE := by omega
      simp [Disk.write, hro, File.seek, hop, File.available, File.size, File.content, hf, hav]
        at hw
    have hav : ¬ (old.length - offset < SECTOR_SIZE) := by omega
    have hk : min wrote SECTOR_SIZE = SECTOR_SIZE := by
      by_contra hcon
      simp [Disk.write, hro, File.seek, hop, File.available, File.size, File.content, hf, hav,
        File.write, htake, hb, hcon, File.flush] at hw
    refine ⟨old, hro, hop, rfl, hlen, ?_, ?_⟩
    · simp [Disk.write, hro, File.seek, hop, File.available, File.size, File.content, hf, hav,
        File.write, htake, hb, hk, File.flush]
    · simp [Disk.write, hro, File.seek, hop, File.available, File.size, File.content, hf, hav,
        File.write, htake, hb, hk, File.flush]

/-- C13. If `write(offset, b)` of a 256-byte buffer `b` returns true (which it
does only on a writable disk with at least 256 bytes available at `offset`),
then a following `read(offset, buf)` returns true and stores exactly `b` into
the first 256 bytes of `buf` (the rest of `buf` is untouched); the backing
file keeps its length and all its bytes outside `[offset, offset + 256)`, and
no other file of the card changes. -/
theorem C13_write_then_read (d : Disk) (sd : SDCard) (offset : Nat) (b buf : List Nat)
    (wrote : Nat) (hb : b.length = SECTOR_SIZE)
    (hw : (d.write sd offset b wrote).2.2 = true) :
    (((d.write sd offset b wrote).1).read (d.write sd offset b wrote).2.1 offset buf).2.1 = true ∧
      ((((d.write sd offset b wrote).1).read (d.write sd offset b wrote).2.1 offset buf).2.2).take
          SECTOR_SIZE = b ∧
      ((((d.write sd offset b wrote).1).read (d.write sd offset b wrote).2.1 offset buf).2.2).drop
          SECTOR_SIZE = buf.drop SECTOR_SIZE ∧
      (d.file.content (d.write sd offset b wrote).2.1).length = (d.file.content sd).length ∧
      (∀ i, (i < offset ∨ offset + SECTOR_SIZE ≤ i) →
        (d.file.content (d.write sd offset b wrote).2.1)[i]? = (d.file.content sd)[i]?) ∧
      (∀ n, n ≠ d.file.name → (d.write sd offset b wrote).2.1.files n = sd.files n) := by
  obtain ⟨old, hro, hop, hf, hlen, hd1, hsd1⟩ := Disk.write_true d sd offset b wrote hb hw
  rw [hd1, hsd1]
  have hsp := splice_spec old b offset (by rw [hb]; exact hlen)
  rw [hb] at hsp
  obtain ⟨s1, s2, s3⟩ := hsp
  have hcont : ∀ f : File, f.name = d.file.name →
      f.content (sd.put d.file.name (old.take offset ++ b ++ old.drop (offset + SECTOR_SIZE)))
        = old.take offset ++ b ++ old.drop (offset + SECTOR_SIZE) := by
    intro f hf2
    simp [File.content, SDCard.put, hf2]
  have hold : d.file.content sd = old := by simp [File.content, hf]
  have hfile : File.content
      (Disk.file { d with errorCode := ERR_NONE, file := { d.file with pos := offset + SECTOR_SIZE } })
      (sd.put d.file.name (old.take offset ++ b ++ old.drop (offset + SECTOR_SIZE)))
        = old.take offset ++ b ++ old.drop (offset + SECTOR_SIZE) := hcont _ rfl
  have hres := Disk.read_ok
    { d with errorCode := ERR_NONE, file := { d.file with pos := offset + SECTOR_SIZE } }
    (sd.put d.file.name (old.take offset ++ b ++ old.drop (offset + SECTOR_SIZE))) offset buf hop
    (by rw [hfile, s1]; exact hlen)
  rw [hfile, s2] at hres
  refine ⟨?_, ?_, ?_, ?_, ?_, ?_⟩
  · rw [hres]
  · rw [hres]
    show List.take SECTOR_SIZE (b ++ List.drop SECTOR_SIZE buf) = b
    rw [List.take_append_eq_append_take, hb, Nat.sub_self, List.take_zero, List.append_nil,
      ← hb, List.take_length]
  · rw [hres]
    show List.drop SECTOR_SIZE (b ++ List.drop SECTOR_SIZE buf) = List.drop SECTOR_SIZE buf
    rw [List.drop_append_eq_append_drop, hb, Nat.sub_self, List.drop_zero,
      List.drop_of_length_le (by rw [hb]), List.nil_append]
  · rw [hcont d.file rfl, hold, s1]
  · intro i hi
    rw [hcont d.file rfl, hold]
    exact s3 i hi
  · intro n hn
    simp [SDCard.put, Function.update_noteq hn]

set_option maxRecDepth 100000 in
/-- Witness of C13: `A.DSK` mounted writable on the sample card, 256 bytes
`0x41` written at offset 256. -/
theorem C13_write_then_read_witness :
    (List.replicate 256 0x41).length = SECTOR_SIZE ∧
      ((Disk.sampleRW.write SDCard.sample 256
        (List.replicate 256 0x41) 256).2.2 = true) ∧
      (((Disk.sampleRW.write SDCard.sample 256
          (List.replicate 256 0x41) 256).1).read
        (Disk.sampleRW.write SDCard.sample 256
          (List.replicate 256 0x41) 256).2.1 256 (List.replicate 256 0)).2.1 = true :=
  ⟨List.length_replicate _ _, by decide,
    (C13_write_then_read Disk.sampleRW SDCard.sample 256
      (List.replicate 256 0x41) (List.replicate 256 0) 256 (List.length_replicate _ _)
      (by decide)).1⟩

/-- C14. On a disk mounted read-only `write` returns false with last error
`ERR_READ_ONLY` (13) and changes nothing else: the handle keeps its position
(no seek) and the card is what it was (no write).  `Disks::write` on that
drive returns false with the last error of the set equal to 13, the card
untouched. -/
theorem C14_read_only_write (d : Disk) (sd : SDCard) (offset : Nat) (buf : List Nat) (wrote : Nat)
    (ds : Disks) (drive : Nat) (hm : d.isMounted = true) (hro : d.isReadOnly = true)
    (hd : ds.disks[drive]? = some d) :
    d.write sd offset buf wrote = ({ d with errorCode := ERR_READ_ONLY }, sd, false) ∧
      ERR_READ_ONLY = 13 ∧
      ds.write sd drive offset buf wrote =
        some ({ disks := ds.disks.set drive { d with errorCode := 13 }, errorCode := 13 }, sd,
          false) := by
  simp only [Disk.isMounted, Disk.isReadOnly] at hm hro
  have h1 : d.write sd offset buf wrote = ({ d with errorCode := ERR_READ_ONLY }, sd, false) := by
    simp [Disk.write, hro]
  refine ⟨h1, rfl, ?_⟩
  simp [Disks.write, hd, Disk.isMounted, hm, h1, Disk.getError]

/-- Witness of C14: drive 1 of the sample set, `A.DSK` mounted read-only. -/
theorem C14_read_only_write_witness :
    Disk.sampleRO.isMounted = true ∧ Disk.sampleRO.isReadOnly = true ∧
      Disks.sample.disks[1]? = some Disk.sampleRO ∧
      Disk.sampleRO.write SDCard.sample 0 (List.replicate 256 0x41) 256
        = ({ Disk.sampleRO with errorCode := ERR_READ_ONLY }, SDCard.sample, false) ∧
      ERR_READ_ONLY = 13 ∧
      Disks.sample.write SDCard.sample 1 0 (List.replicate 256 0x41) 256 =
        some ({ disks := Disks.sample.disks.set 1 { Disk.sampleRO with errorCode := 13 },
                errorCode := 13 }, SDCard.sample, false) :=
  ⟨by decide, by decide, by rfl,
    C14_read_only_write Disk.sampleRO SDCard.sample 0 (List.replicate 256 0x41) 256 Disks.sample 1
      (by decide) (by decide) (by rfl)⟩

/-- Over a driver that takes every seek (`File.seek`), `Disk::read` returns
false with last error `ERR_READ_ERROR` (17) exactly when, after the seek,
fewer than 256 bytes are available or `offset + 256` exceeds the size of the
file, for every `offset`: with the handle beyond the end nothing is
available, so the wrap of the sum decides nothing.  Otherwise it returns true
with last error `ERR_NONE` and the file bytes at `[offset, offset + 256)`. -/
theorem Disk.read_error_iff (d : Disk) (sd : SDCard) (offset : Nat) (buf : List Nat) :
    (((d.read sd offset buf).2.1 = false ∧ (d.read sd offset buf).1.getError = ERR_READ_ERROR) ↔
        ((d.file.seek offset).available sd < 256 ∨ offset + 256 > (d.file.seek offset).size sd)) ∧
      ERR_READ_ERROR = 17 ∧
      (¬ ((d.file.seek offset).available sd < 256 ∨ offset + 256 > (d.file.seek offset).size sd) →
        (d.read sd offset buf).2.1 = true ∧ (d.read sd offset buf).1.getError = ERR_NONE ∧
        (d.read sd offset buf).2.2.take 256 = ((d.file.content sd).drop offset).take 256 ∧
        (((d.file.content sd).drop offset).take 256).length = 256) := by
  have hS : SECTOR_SIZE = 256 := rfl
  by_cases hbad : (d.file.seek offset).available sd < 256
  · obtain ⟨h1, h2⟩ := Disk.read_bad d sd offset buf (by rw [hS]; exact hbad)
    refine ⟨⟨fun _ => Or.inl hbad, fun _ => ⟨h1, h2⟩⟩, rfl, fun hn => absurd (Or.inl hbad) hn⟩
  · have hop : d.file.isOpen = true := by
      cases h : d.file.isOpen with
      | true => rfl
      | false => simp [File.seek, h, File.available, File.size] at hbad
    have hlen : offset + SECTOR_SIZE ≤ (d.file.content sd).length := by
      simp only [File.seek, hop, if_true, File.available, File.size, File.content] at hbad
      simp only [File.content]
      omega
    have hsz : (d.file.seek offset).size sd = (d.file.content sd).length := by
      simp [File.seek, hop, File.size, File.content]
    have hno : ¬ ((d.file.seek offset).available sd < 256 ∨
        offset + 256 > (d.file.seek offset).size sd) := by
      rw [hsz]
      intro h
      rcases h with h | h
      · exact hbad h
      · omega
    have hok := Disk.read_ok d sd offset buf hop hlen
    have htk : (((d.file.content sd).drop offset).take 256).length = 256 := by
      rw [List.length_take, List.length_drop]
      omega
    refine ⟨⟨fun h => ?_, fun h => absurd h hno⟩, rfl, fun _ => ⟨?_, ?_, ?_, htk⟩⟩
    · rw [hok] at h
      simp at h
    · rw [hok]
    · rw [hok]; rfl
    · rw [hok]
      show List.take 256 (List.take SECTOR_SIZE (List.drop offset (d.file.content sd)) ++
        List.drop SECTOR_SIZE buf) = _
      rw [hS, List.take_append_eq_append_take, htk, Nat.sub_self, List.take_zero, List.append_nil,
        List.take_take, Nat.min_self]

/-- A driver that takes every seek: `File.seekPast` with the handle left at
the position asked for is `File.seek`. -/
theorem File.seekPast_self (f : File) (sd : SDCard) (pos : Nat) :
    f.seekPast sd pos pos = f.seek pos := by
  simp [File.seekPast, File.seek]

/-- Over a driver that takes every seek `Disk.readPast` is `Disk.read`. -/
theorem Disk.readPast_self (d : Disk) (sd : SDCard) (offset : Nat) (buf : List Nat) :
    d.readPast sd offset buf offset = d.read sd offset buf := by
  unfold Disk.readPast Disk.read
  simp only [File.seekPast_self]

/-- A seek to a position up to the end of the file reaches it, whatever the
driver does beyond the end. -/
theorem Disk.readPast_within (d : Disk) (sd : SDCard) (offset : Nat) (buf : List Nat)
    (past : Nat) (h : offset ≤ d.file.size sd) :
    d.file.seekPast sd offset past = d.file.seek offset ∧
      d.readPast sd offset buf past = d.read sd offset buf := by
  have hs : d.file.seekPast sd offset past = d.file.seek offset := by
    simp [File.seekPast, File.seek, h]
  refine ⟨hs, ?_⟩
  unfold Disk.readPast Disk.read
  simp only [hs]

/-- `Disk::read` for an offset whose sum with the sector size does not leave
the range of `unsigned long`, whatever the driver does with a seek beyond the
end of the file: it returns false with last error `ERR_READ_ERROR` exactly
when, after the seek, fewer than 256 bytes are available or `offset + 256`
exceeds the size of the file; otherwise it returns true with last error
`ERR_NONE` and the first 256 bytes of `buf` are the file bytes at
`[offset, offset + 256)`. -/
theorem Disk.readPast_error_iff (d : Disk) (sd : SDCard) (offset : Nat) (buf : List Nat)
    (past : Nat) (hw : offset + SECTOR_SIZE < ULONG_RANGE) :
    (((d.readPast sd offset buf past).2.1 = false ∧
          (d.readPast sd offset buf past).1.getError = ERR_READ_ERROR) ↔
        ((d.file.seekPast sd offset past).available sd < 256 ∨
          offset + 256 > (d.file.seekPast sd offset past).size sd)) ∧
      (¬ ((d.file.seekPast sd offset past).available sd < 256 ∨
            offset + 256 > (d.file.seekPast sd offset past).size sd) →
        (d.readPast sd offset buf past).2.1 = true ∧
        (d.readPast sd offset buf past).1.getError = ERR_NONE ∧
        (d.readPast sd offset buf past).2.2.take 256 = ((d.file.content sd).drop offset).take 256 ∧
        (((d.file.content sd).drop offset).take 256).length = 256) := by
  have hS : SECTOR_SIZE = 256 := rfl
  have hmod : (offset + 256) % ULONG_RANGE = offset + 256 := Nat.mod_eq_of_lt hw
  have hsz : (d.file.seekPast sd offset past).size sd = d.file.size sd := by
    unfold File.seekPast File.size File.content
    split <;> simp_all
  by_cases hbad : (d.file.seekPast sd offset past).available sd < 256 ∨
      offset + 256 > (d.file.seekPast sd offset past).size sd
  · have hb : (d.readPast sd offset buf past).2.1 = false ∧
        (d.readPast sd offset buf past).1.getError = ERR_READ_ERROR := by
      unfold Disk.readPast
      simp only [hS, hmod, Disk.getError]
      rcases hbad with h | h
      · simp [h]
      · simp [h]
    exact ⟨⟨fun _ => hbad, fun _ => hb⟩, fun hn => absurd hbad hn⟩
  · have hle : offset + 256 ≤ d.file.size sd := by
      rw [hsz] at hbad
      omega
    have hop : d.file.isOpen = true := by
      cases h : d.file.isOpen with
      | true => rfl
      | false => simp [File.size, h] at hle
    have hlen : offset + SECTOR_SIZE ≤ (d.file.content sd).length := by
      simp only [File.size, hop, if_true] at hle
      rw [hS]
      exact hle
    have heq := (Disk.readPast_within d sd offset buf past (by omega)).2
    have hok := Disk.read_ok d sd offset buf hop hlen
    have htk : (((d.file.content sd).drop offset).take 256).length = 256 := by
      rw [List.length_take, List.length_drop]
      omega
    refine ⟨⟨fun h => ?_, fun h => absurd h hbad⟩, fun _ => ⟨?_, ?_, ?_, htk⟩⟩
    · rw [heq, hok] at h
      simp at h
    · rw [heq, hok]
    · rw [heq, hok]; rfl
    · rw [heq, hok]
      show List.take 256 (List.take SECTOR_SIZE (List.drop offset (d.file.content sd)) ++
        List.drop SECTOR_SIZE buf) = _
      rw [hS, List.take_append_eq_append_take, htk, Nat.sub_self, List.take_zero, List.append_nil,
        List.take_take, Nat.min_self]

set_option maxRecDepth 100000 in
/-- C15 (as stated, refuted by an overflow).  The disk is mounted read-only on
the 512-byte `A.DSK`, its handle at position 0, and the driver refuses a seek
beyond the end of the file (the handle stays where it was).  At offset
`2^32 - 256` the sum `offset + 256` is `2^32`, which exceeds the size 512,
and no byte of the file lies at `[offset, offset + 256)`; as an
`unsigned long` the sum is 0, 512 bytes are available, and `Disk::read`
returns true with last error `ERR_NONE` and the bytes 0 to 255 of the file in
`buf`. -/
theorem C15_offset_sum_wraps :
    Disk.sampleRO.file.isOpen = true ∧ Disk.sampleRO.file.pos = 0 ∧
      (Disk.sampleRO.file.seekPast SDCard.sample 4294967040 Disk.sampleRO.file.pos).pos = 0 ∧
      (Disk.sampleRO.file.seekPast SDCard.sample 4294967040 Disk.sampleRO.file.pos).available
        SDCard.sample = 512 ∧
      (Disk.sampleRO.file.seekPast SDCard.sample 4294967040 Disk.sampleRO.file.pos).size
        SDCard.sample = 512 ∧
      4294967040 + 256 > 512 ∧ (4294967040 + SECTOR_SIZE) % ULONG_RANGE = 0 ∧
      ((Disk.sampleRO.file.content SDCard.sample).drop 4294967040).take 256 = [] ∧
      (Disk.sampleRO.readPast SDCard.sample 4294967040 [] Disk.sampleRO.file.pos).2.1 = true ∧
      (Disk.sampleRO.readPast SDCard.sample 4294967040 [] Disk.sampleRO.file.pos).1.getError
        = ERR_NONE ∧
      (Disk.sampleRO.readPast SDCard.sample 4294967040 [] Disk.sampleRO.file.pos).2.2
        = (Disk.sampleRO.file.content SDCard.sample).take 256 := by
  refine ⟨rfl, rfl, ?_, ?_, ?_, ?_, ?_, ?_, ?_, ?_, ?_⟩ <;> decide

/-- C16. For a drive whose slot holds the disk `d` (every drive `0..3` of a
drive set has one): when `d` is not mounted, `Disks::read` and `Disks::write`
return false and set the last error of the set to `ERR_NOT_MOUNTED` (10),
and nothing else changes: the slots, the card and the caller's buffer are
what they were.  When `d` is mounted they return what `Disk::read`, resp.
`Disk::write`, returns on `d`, with the last error of the set `ERR_NONE` on
success and the error code of the slot on failure. -/
theorem C16_dispatch_read_write (ds : Disks) (sd : SDCard) (drive offset : Nat) (buf : List Nat)
    (wrote : Nat) (d : Disk) (hd : ds.disks[drive]? = some d) :
    (d.isMounted = false →
      ds.read sd drive offset buf = some ({ ds with errorCode := 10 }, false, buf) ∧
      ds.write sd drive offset buf wrote = some ({ ds with errorCode := 10 }, sd, false)) ∧
    ERR_NOT_MOUNTED = 10 ∧
    (d.isMounted = true →
      ds.read sd drive offset buf =
        some ({ disks := ds.disks.set drive (d.read sd offset buf).1,
                errorCode := if (d.read sd offset buf).2.1 then ERR_NONE
                  else (d.read sd offset buf).1.getError },
              (d.read sd offset buf).2.1, (d.read sd offset buf).2.2) ∧
      ds.write sd drive offset buf wrote =
        some ({ disks := ds.disks.set drive (d.write sd offset buf wrote).1,
                errorCode := if (d.write sd offset buf wrote).2.2 then ERR_NONE
                  else (d.write sd offset buf wrote).1.getError },
              (d.write sd offset buf wrote).2.1, (d.write sd offset buf wrote).2.2)) := by
  refine ⟨fun hm => ?_, rfl, fun hm => ?_⟩
  · constructor <;> simp [Disks.read, Disks.write, hd, hm]
  · constructor
    · simp only [Disks.read, hd, hm, if_true]
      cases hr : (d.read sd offset buf).2.1 <;> simp
    · simp only [Disks.write, hd, hm, if_true]
      cases hr : (d.write sd offset buf wrote).2.2 <;> simp

/-- Witness of C16: drive 2 of the sample set is not mounted, drive 1 is. -/
theorem C16_dispatch_read_write_witness :
    Disks.sample.disks[2]? = some (Disk.new Disk.blank) ∧
      (Disk.new Disk.blank).isMounted = false ∧
      Disks.sample.read SDCard.sample 2 0 [1, 2, 3]
        = some ({ Disks.sample with errorCode := 10 }, false, [1, 2, 3]) ∧
      Disks.sample.write SDCard.sample 2 0 [1, 2, 3] 256
        = some ({ Disks.sample with errorCode := 10 }, SDCard.sample, false) :=
  ⟨by rfl, by decide,
    (C16_dispatch_read_write Disks.sample SDCard.sample 2 0 [1, 2, 3] 256 (Disk.new Disk.blank)
      (by rfl)).1 (by decide)⟩

/-- C17. Mounting a name the storage driver reports absent: `Disk::mount`
leaves `isGood` false and the last error `ERR_FILE_NOT_FOUND` (12) and changes
nothing else (no handle is opened, the handle and the mounted state the disk
had stay); `Disks::mount` on a drive holding that disk returns false with the
last error of the set equal to 12. -/
theorem C17_mount_absent (d : Disk) (sd : SDCard) (name : List Nat) (readOnly : Bool)
    (ds : Disks) (drive : Nat) (habs : sd.fileExists name = false)
    (hd : ds.disks[drive]? = some d) :
    d.mount sd name readOnly = { d with goodFlag := false, errorCode := ERR_FILE_NOT_FOUND } ∧
      (d.mount sd name readOnly).isGood = false ∧ (d.mount sd name readOnly).getError = 12 ∧
      (d.mount sd name readOnly).file = d.file ∧
      ds.mount sd drive name readOnly =
        some ({ disks := ds.disks.set drive (d.mount sd name readOnly), errorCode := 12 }, false) := by
  have h1 : d.mount sd name readOnly = { d with goodFlag := false, errorCode := ERR_FILE_NOT_FOUND } := by
    simp [Disk.mount, habs, Disk.setError]
  refine ⟨h1, ?_, ?_, ?_, ?_⟩
  · rw [h1]; rfl
  · rw [h1]; rfl
  · rw [h1]
  · simp [Disks.mount, hd, h1, Disk.isGood, Disks.setError, Disk.getError]

/-- Witness of C17: `B.DSK` is not on the sample card. -/
theorem C17_mount_absent_witness :
    SDCard.sample.fileExists nameB = false ∧ Disks.fresh.disks[0]? = some (Disk.new Disk.blank) ∧
      ((Disk.new Disk.blank).mount SDCard.sample nameB false).isGood = false ∧
      ((Disk.new Disk.blank).mount SDCard.sample nameB false).getError = 12 ∧
      Disks.fresh.mount SDCard.sample 0 nameB false =
        some ({ disks := Disks.fresh.disks.set 0 ((Disk.new Disk.blank).mount SDCard.sample nameB false),
                errorCode := 12 }, false) :=
  ⟨by decide, by rfl,
    (C17_mount_absent (Disk.new Disk.blank) SDCard.sample nameB false Disks.fresh 0 (by decide)
      (by rfl)).2.1,
    (C17_mount_absent (Disk.new Disk.blank) SDCard.sample nameB false Disks.fresh 0 (by decide)
      (by rfl)).2.2.1,
    (C17_mount_absent (Disk.new Disk.blank) SDCard.sample nameB false Disks.fresh 0 (by decide)
      (by rfl)).2.2.2.2⟩

/-- C18. When the named file exists and the driver opens it, `mount(name,
readOnly)` succeeds whatever state the disk was in (never mounted, or mounted
to another file): afterwards the disk is mounted and open, `isReadOnly` is
the requested flag, `getFilename` is `name`, `isGood` is true, the handle is
the newly opened one, and `Disks::mount` on a drive holding the disk returns
true. -/
theorem C18_mount_succeeds (d : Disk) (sd : SDCard) (name : List Nat) (readOnly : Bool)
    (ds : Disks) (drive : Nat) (hex : sd.fileExists name = true)
    (hopen : (sd.open name (if readOnly then FILE_READ else FILE_WRITE)).isOpen = true)
    (hd : ds.disks[drive]? = some d) :
    (d.mount sd name readOnly).isMounted = true ∧ (d.mount sd name readOnly).isOpen = true ∧
      (d.mount sd name readOnly).isReadOnly = readOnly ∧
      (d.mount sd name readOnly).getFilename = name ∧ (d.mount sd name readOnly).isGood = true ∧
      (d.mount sd name readOnly).file = sd.open name (if readOnly then FILE_READ else FILE_WRITE) ∧
      ds.mount sd drive name readOnly =
        some ({ ds with disks := ds.disks.set drive (d.mount sd name readOnly) }, true) := by
  have h1 : d.mount sd name readOnly =
      { d with goodFlag := true, mountedFlag := true, isOpenF := true, filename := name,
               openFlag := if readOnly then FILE_READ else FILE_WRITE, readOnlyFlag := readOnly,
               file := sd.open name (if readOnly then FILE_READ else FILE_WRITE) } := by
    simp [Disk.mount, hex, hopen]
  refine ⟨?_, ?_, ?_, ?_, ?_, ?_, ?_⟩
  · rw [h1]; rfl
  · rw [h1]; rfl
  · rw [h1]; rfl
  · rw [h1]; rfl
  · rw [h1]; rfl
  · rw [h1]
  · have hg : (d.mount sd name readOnly).isGood = true := by rw [h1]; rfl
    simp [Disks.mount, hd, hg]

/-- Witness of C18: `A.DSK` mounted read-only on drive 0 of the sample set,
where it was mounted writable. -/
theorem C18_mount_succeeds_witness :
    SDCard.sample.fileExists nameA = true ∧
      (SDCard.sample.open nameA (if true then FILE_READ else FILE_WRITE)).isOpen = true ∧
      Disks.sample.disks[0]? = some Disk.sampleRW ∧
      (Disk.sampleRW.mount SDCard.sample nameA true).isMounted = true ∧
      (Disk.sampleRW.mount SDCard.sample nameA true).isOpen = true ∧
      (Disk.sampleRW.mount SDCard.sample nameA true).isReadOnly = true ∧
      (Disk.sampleRW.mount SDCard.sample nameA true).getFilename = nameA ∧
      (Disk.sampleRW.mount SDCard.sample nameA true).isGood = true :=
  ⟨by decide, by decide, by rfl,
    (C18_mount_succeeds Disk.sampleRW SDCard.sample nameA true Disks.sample 0 (by decide)
      (by decide) (by rfl)).1,
    (C18_mount_succeeds Disk.sampleRW SDCard.sample nameA true Disks.sample 0 (by decide)
      (by decide) (by rfl)).2.1,
    (C18_mount_succeeds Disk.sampleRW SDCard.sample nameA true Disks.sample 0 (by decide)
      (by decide) (by rfl)).2.2.1,
    (C18_mount_succeeds Disk.sampleRW SDCard.sample nameA true Disks.sample 0 (by decide)
      (by decide) (by rfl)).2.2.2.1,
    (C18_mount_succeeds Disk.sampleRW SDCard.sample nameA true Disks.sample 0 (by decide)
      (by decide) (by rfl)).2.2.2.2.1⟩

/-! ## What the constructor establishes and every operation of `Disk` keeps -/

theorem Disks.new_slot (raw : Nat → Disk) (errorCode drive : Nat) (h : drive < MAX_DISKS) :
    (Disks.new raw errorCode).disks[drive]? = some (Disk.new (raw drive)) := by
  have h4 : MAX_DISKS = 4 := rfl
  rw [h4] at h
  simp only [Disks.new]
  interval_cases drive <;> rfl

theorem Disk.new_sound (raw : Disk) : (Disk.new raw).Sound := by
  simp [Disk.Sound, Disk.new, File.closed]

theorem Disk.mount_sound (d : Disk) (sd : SDCard) (name : List Nat) (readOnly : Bool)
    (h : d.Sound) : (d.mount sd name readOnly).Sound := by
  obtain ⟨h1, h2⟩ := h
  unfold Disk.mount
  by_cases hex : sd.fileExists name = true
  · by_cases hop : (sd.open name (if readOnly then FILE_READ else FILE_WRITE)).isOpen = true
    · simp [hex, hop, Disk.Sound]
    · simp only [Bool.not_eq_true] at hop
      simpa [hex, hop, Disk.Sound] using h2
  · simp only [Bool.not_eq_true] at hex
    simpa [hex, Disk.Sound, Disk.setError] using And.intro h1 h2

theorem Disk.unmount_sound (d : Disk) (h : d.Sound) : d.unmount.Sound := by
  unfold Disk.unmount
  split
  · simp [Disk.Sound, Disk.setError, File.close]
  · exact h

theorem Disk.close_sound (d : Disk) : d.close.Sound := by
  simp [Disk.Sound, Disk.close, File.close]

theorem Disk.read_flags (d : Disk) (sd : SDCard) (offset : Nat) (buf : List Nat) :
    (d.read sd offset buf).1.file.isOpen = d.file.isOpen ∧
      (d.read sd offset buf).1.isOpenF = d.isOpenF ∧
      (d.read sd offset buf).1.mountedFlag = d.mountedFlag := by
  have hseek : (d.file.seek offset).isOpen = d.file.isOpen := by
    unfold File.seek; split <;> rfl
  unfold Disk.read
  simp only
  split <;>
    exact ⟨by rw [(File.readBytes_isOpen SECTOR_SIZE _ sd).1]; exact hseek, rfl, rfl⟩

theorem File.write_isOpen (f : File) (sd : SDCard) (buf : List Nat) (accepted : Nat) :
    (f.write sd buf accepted).1.isOpen = f.isOpen := by
  unfold File.write
  split
  · split <;> rfl
  · rfl

theorem Disk.write_flags (d : Disk) (sd : SDCard) (offset : Nat) (buf : List Nat) (wrote : Nat) :
    (d.write sd offset buf wrote).1.file.isOpen = d.file.isOpen ∧
      (d.write sd offset buf wrote).1.isOpenF = d.isOpenF ∧
      (d.write sd offset buf wrote).1.mountedFlag = d.mountedFlag := by
  have hseek : (d.file.seek offset).isOpen = d.file.isOpen := by
    unfold File.seek; split <;> rfl
  unfold Disk.write
  simp only
  split
  · exact ⟨rfl, rfl, rfl⟩
  · split
    · exact ⟨hseek, rfl, rfl⟩
    · split <;>
        exact ⟨by simp only [File.flush]; rw [File.write_isOpen]; exact hseek, rfl, rfl⟩

theorem Disk.apply_sound (d : Disk) (op : DiskOp) (h : d.Sound) : (d.apply op).Sound := by
  cases op with
  | mount sd name readOnly => exact Disk.mount_sound d sd name readOnly h
  | unmount => exact Disk.unmount_sound d h
  | close => exact Disk.close_sound d
  | read sd offset buf =>
    obtain ⟨r1, r2, r3⟩ := Disk.read_flags d sd offset buf
    simp only [Disk.apply, Disk.Sound, r1, r2, r3]
    exact h
  | write sd offset buf wrote =>
    obtain ⟨r1, r2, r3⟩ := Disk.write_flags d sd offset buf wrote
    simp only [Disk.apply, Disk.Sound, r1, r2, r3]
    exact h

theorem Disk.applyAll_sound (ops : List DiskOp) :
    ∀ d : Disk, d.Sound → (d.applyAll ops).Sound := by
  induction ops with
  | nil => intro d h; exact h
  | cons op ops ih => intro d h; exact ih (d.apply op) (Disk.apply_sound d op h)

/-- C19. `unmount` is idempotent on every `Disk` value, and on a disk that is
not mounted it changes nothing.  For every disk state reached from the
constructor by any sequence of `mount`, `unmount`, `close`, `read` and `write`
(with any card and any driver answers): after `unmount` the disk is not
mounted, not open (flag and handle), and bit 0 of its status byte is clear
(the status is 0); `Disks::unmount` on a drive holding the disk returns false
(no error) and leaves the unmounted disk in the slot. -/
theorem C19_unmount_idempotent (raw : Disk) (ops : List DiskOp) (e : Disk) (ds : Disks)
    (drive : Nat) :
    e.unmount.unmount = e.unmount ∧ (e.isMounted = false → e.unmount = e) ∧
      ((Disk.new raw).applyAll ops).unmount.isMounted = false ∧
      ((Disk.new raw).applyAll ops).unmount.isOpen = false ∧
      ((Disk.new raw).applyAll ops).unmount.file.isOpen = false ∧
      ((Disk.new raw).applyAll ops).unmount.getStatus % 2 = 0 ∧
      ((Disk.new raw).applyAll ops).unmount.getStatus = 0 ∧
      (ds.disks[drive]? = some ((Disk.new raw).applyAll ops) →
        ds.unmount drive =
          some ({ ds with disks := ds.disks.set drive ((Disk.new raw).applyAll ops).unmount },
            false)) := by
  have hs := Disk.applyAll_sound ops (Disk.new raw) (Disk.new_sound raw)
  have hu := Disk.unmount_sound _ hs
  have hm : ∀ x : Disk, x.unmount.mountedFlag = false := by
    intro x
    unfold Disk.unmount
    split
    · rfl
    · rename_i h; simpa using h
  have hopenF : ((Disk.new raw).applyAll ops).unmount.isOpenF = false := by
    cases h : ((Disk.new raw).applyAll ops).unmount.isOpenF with
    | false => rfl
    | true => have := hu.2 h; rw [hm] at this; cases this
  have hfile : ((Disk.new raw).applyAll ops).unmount.file.isOpen = false := by
    cases h : ((Disk.new raw).applyAll ops).unmount.file.isOpen with
    | false => rfl
    | true => have := hu.1 h; rw [hopenF] at this; cases this
  have hst : ((Disk.new raw).applyAll ops).unmount.getStatus = 0 := by
    simp [Disk.getStatus, hm]
  have hnoop : ∀ x : Disk, x.mountedFlag = false → x.unmount = x := by
    intro x h
    simp [Disk.unmount, h]
  refine ⟨hnoop _ (hm e), hnoop e, hm _, hopenF, hfile, by rw [hst], hst, ?_⟩
  · intro hd
    simp [Disks.unmount, hd]

/-- Witness of C19: drive 0 of the sample set, a new disk with `A.DSK`
mounted. -/
theorem C19_unmount_idempotent_witness :
    Disks.sample.disks[0]? = some ((Disk.new Disk.blank).applyAll
        [DiskOp.mount SDCard.sample nameA false]) ∧
      Disks.sample.unmount 0 =
        some ({ Disks.sample with disks := (Disks.sample.disks.set 0
          ((Disk.new Disk.blank).applyAll [DiskOp.mount SDCard.sample nameA false]).unmount) },
          false) :=
  ⟨by rfl,
    (C19_unmount_idempotent Disk.blank [DiskOp.mount SDCard.sample nameA false] Disk.blank
      Disks.sample 0).2.2.2.2.2.2.2 (by rfl)⟩

/-- C20, the input on which the code leaves the claim: a new disk on which
the mount of an absent name has failed (not mounted, last error
`ERR_FILE_NOT_FOUND`, 12).  `unmount` takes the path of the guard
`if (mountedFlag)` that does nothing, and the last error is still 12, not
`ERR_NOT_MOUNTED` (10). -/
theorem C20_unmount_noop_keeps_error :
    ((Disk.new Disk.blank).mount SDCard.sample nameB false).isMounted = false ∧
      ((Disk.new Disk.blank).mount SDCard.sample nameB false).getError = 12 ∧
      ((Disk.new Disk.blank).mount SDCard.sample nameB false).unmount.getError = 12 ∧
      Disk.sampleRW.unmount.getError = 10 := by
  decide

/-! ## The claims on the configuration file and the card presence -/

/-! ### Slots -/

theorem Disks.mount_some (ds : Disks) (sd : SDCard) (drive : Nat) (filename : List Nat)
    (readOnly : Bool) (h : drive < ds.disks.length) :
    ∃ r, ds.mount sd drive filename readOnly = some r ∧ r.1.disks.length = ds.disks.length ∧
      r.1.disks = ds.disks.set drive ((ds.disks.getD drive Disk.blank).mount sd filename readOnly) := by
  have hd : ds.disks[drive]? = some (ds.disks[drive]) := List.getElem?_eq_getElem h
  have hg : ds.disks.getD drive Disk.blank = ds.disks[drive] := by
    simp [List.getD, hd]
  unfold Disks.mount
  rw [hd, hg]
  by_cases hgood : (ds.disks[drive].mount sd filename readOnly).isGood = true
  · simp [hgood]
  · simp [hgood, Disks.setError]

theorem Disks.mount_none (ds : Disks) (sd : SDCard) (drive : Nat) (filename : List Nat)
    (readOnly : Bool) (h : ds.disks.length ≤ drive) :
    ds.mount sd drive filename readOnly = none := by
  have hd : ds.disks[drive]? = none := List.getElem?_eq_none h
  unfold Disks.mount
  rw [hd]

theorem Disks.slots_cases (ds : Disks) (h : ds.disks.length = MAX_DISKS) :
    ∃ a b c e, ds.disks = [a, b, c, e] := by
  match hd : ds.disks, h with
  | [a, b, c, e], _ => exact ⟨a, b, c, e, rfl⟩
  | [], h => simp [MAX_DISKS] at h
  | [_], h => simp [MAX_DISKS] at h
  | [_, _], h => simp [MAX_DISKS] at h
  | [_, _, _], h => simp [MAX_DISKS] at h
  | _ :: _ :: _ :: _ :: _ :: _, h => simp [MAX_DISKS] at h

theorem Disks.closeAll_disks (ds : Disks) (h : ds.disks.length = MAX_DISKS) :
    ds.closeAll.disks = ds.disks.map (fun x => if x.isOpen then x.close else x) ∧
      ds.closeAll.errorCode = ds.errorCode := by
  obtain ⟨a, b, c, e, hd⟩ := ds.slots_cases h
  have hr : List.range MAX_DISKS = [0, 1, 2, 3] := by decide
  unfold Disks.closeAll
  rw [hr]
  simp only [List.foldl]
  cases ha : a.isOpen <;> cases hb : b.isOpen <;> cases hc : c.isOpen <;> cases he : e.isOpen <;>
    simp [hd, ha, hb, hc, he]


/-! ### The drive index -/

/-- C21 (as stated, refuted): an index outside the array is not rejected: for
drive 4 on the drive set right after its constructor, `isDriveValid` is false
and each of `mount`, `unmount`, `read`, `write` and `getStatus` indexes
`disks[4]`, outside the array, so that none of them has a defined result. -/
theorem C21_out_of_range_not_rejected :
    Disks.isDriveValid 4 = false ∧
      Disks.fresh.mount SDCard.sample 4 nameA false = none ∧
      Disks.fresh.unmount 4 = none ∧
      Disks.fresh.read SDCard.sample 4 0 [] = none ∧
      Disks.fresh.write SDCard.sample 4 0 [] 0 = none ∧
      Disks.fresh.getStatus 4 = none :=
  ⟨rfl, rfl, rfl, rfl, rfl, rfl⟩

/-- C21 (amended): `isDriveValid(d)` is true exactly when `d < 4`; the
per-drive operations make no range check of their own: with the four slots of
the constructor each of `mount`, `unmount`, `read`, `write` and `getStatus`
has a defined result exactly for the indices `isDriveValid` accepts. -/
theorem C21_defined_iff_valid (ds : Disks) (sd : SDCard) (drive : Nat) (filename : List Nat)
    (readOnly : Bool) (offset : Nat) (buf : List Nat) (wrote : Nat)
    (hslots : ds.disks.length = MAX_DISKS) :
    (Disks.isDriveValid drive = true ↔ drive < 4) ∧
      (ds.mount sd drive filename readOnly).isSome = Disks.isDriveValid drive ∧
      (ds.unmount drive).isSome = Disks.isDriveValid drive ∧
      (ds.read sd drive offset buf).isSome = Disks.isDriveValid drive ∧
      (ds.write sd drive offset buf wrote).isSome = Disks.isDriveValid drive ∧
      (ds.getStatus drive).isSome = Disks.isDriveValid drive := by
  by_cases h : drive < 4
  · have hlt : drive < ds.disks.length := by rw [hslots]; exact h
    have hd : ds.disks[drive]? = some (ds.disks[drive]) := List.getElem?_eq_getElem hlt
    have hv : Disks.isDriveValid drive = true := by simp [Disks.isDriveValid, MAX_DISKS, h]
    refine ⟨by simp [hv, h], ?_, ?_, ?_, ?_, ?_⟩
    · obtain ⟨r, hr, _⟩ := ds.mount_some sd drive filename readOnly hlt
      rw [hr, hv]; rfl
    · unfold Disks.unmount; rw [hd, hv]; rfl
    · unfold Disks.read; rw [hd, hv]
      by_cases hm : (ds.disks[drive]).isMounted = true
      · by_cases hr : ((ds.disks[drive]).read sd offset buf).2.1 = true <;> simp [hm, hr]
      · simp [hm]
    · unfold Disks.write; rw [hd, hv]
      by_cases hm : (ds.disks[drive]).isMounted = true
      · by_cases hr : ((ds.disks[drive]).write sd offset buf wrote).2.2 = true <;> simp [hm, hr]
      · simp [hm]
    · unfold Disks.getStatus; rw [hd, hv]; rfl
  · have hge : ds.disks.length ≤ drive := by rw [hslots]; unfold MAX_DISKS; omega
    have hd : ds.disks[drive]? = none := List.getElem?_eq_none hge
    have hv : Disks.isDriveValid drive = false := by simp [Disks.isDriveValid, MAX_DISKS]; omega
    refine ⟨by simp [hv, h], ?_, ?_, ?_, ?_, ?_⟩
    · rw [ds.mount_none sd drive filename readOnly hge, hv]; rfl
    · unfold Disks.unmount; rw [hd, hv]; rfl
    · unfold Disks.read; rw [hd, hv]; rfl
    · unfold Disks.write; rw [hd, hv]; rfl
    · unfold Disks.getStatus; rw [hd, hv]; rfl

/-- C21 (amended), at the sample drive set: drive 1 is accepted and its
operations are defined, e.g. `getStatus`. -/
theorem C21_defined_iff_valid_witness :
    Disks.sample.disks.length = MAX_DISKS ∧
      (Disks.isDriveValid 1 = true ↔ 1 < 4) ∧
      (Disks.sample.mount SDCard.sample 1 nameA false).isSome = Disks.isDriveValid 1 ∧
      (Disks.sample.unmount 1).isSome = Disks.isDriveValid 1 ∧
      (Disks.sample.read SDCard.sample 1 0 []).isSome = Disks.isDriveValid 1 ∧
      (Disks.sample.write SDCard.sample 1 0 [] 0).isSome = Disks.isDriveValid 1 ∧
      (Disks.sample.getStatus 1).isSome = Disks.isDriveValid 1 :=
  ⟨rfl, C21_defined_iff_valid Disks.sample SDCard.sample 1 nameA false 0 [] 0 rfl⟩

/-! ### Closing every slot -/

/-- C29: after `closeAll()`, from every state of the four slots, no slot is
open, and each slot has the mounted flag, the read-only flag, the filename
and the last error it had; `errorCode` of the set is unchanged; and a `poll`
that reads the card absent after it was present sends `UI_SD_REMOVED`, runs
`closeAll`, and so leaves no slot open. -/
theorem C29_closeAll_closes_every_slot (ds : Disks) (m : DisksRest) (sd : SDCard) (pin2 : Bool)
    (hslots : ds.disks.length = MAX_DISKS) :
    (∀ d, d < MAX_DISKS → ∃ x y, ds.disks[d]? = some x ∧ ds.closeAll.disks[d]? = some y ∧
        y.isOpen = false ∧ y.isMounted = x.isMounted ∧ y.isReadOnly = x.isReadOnly ∧
        y.getFilename = x.getFilename ∧ y.getError = x.getError) ∧
      ds.closeAll.errorCode = ds.errorCode ∧
      (m.presentState = false →
        ∃ ds1 m1, ds.poll m sd true pin2 = some (ds1, m1) ∧ ds1 = ds.closeAll ∧
          m1.presentState = true ∧ m1.ui = m.ui ++ [UI_SD_REMOVED] ∧
          ∀ d, d < MAX_DISKS → ∃ y, ds1.disks[d]? = some y ∧ y.isOpen = false) := by
  have hc := ds.closeAll_disks hslots
  have key : ∀ d, d < MAX_DISKS → ∃ x y, ds.disks[d]? = some x ∧ ds.closeAll.disks[d]? = some y ∧
        y.isOpen = false ∧ y.isMounted = x.isMounted ∧ y.isReadOnly = x.isReadOnly ∧
        y.getFilename = x.getFilename ∧ y.getError = x.getError := by
    intro d hd
    have hlt : d < ds.disks.length := by rw [hslots]; exact hd
    have hx : ds.disks[d]? = some (ds.disks[d]) := List.getElem?_eq_getElem hlt
    refine ⟨ds.disks[d], if (ds.disks[d]).isOpen then (ds.disks[d]).close else ds.disks[d], hx, ?_, ?_⟩
    · rw [hc.1, List.getElem?_map, hx]; rfl
    · cases ho : (ds.disks[d]).isOpen
      · simp [ho]
      · simp [Disk.close, Disk.isOpen, Disk.isMounted, Disk.isReadOnly, Disk.getFilename,
          Disk.getError]
  refine ⟨key, hc.2, ?_⟩
  intro hp
  refine ⟨ds.closeAll, { m with ui := m.ui ++ [UI_SD_REMOVED], presentState := true }, ?_, rfl,
    rfl, rfl, ?_⟩
  · unfold Disks.poll
    simp [hp]
  · intro d hd
    obtain ⟨x, y, _, hy, ho, _⟩ := key d hd
    exact ⟨y, hy, ho⟩

/-- C29, at the sample drive set (drives 0 and 1 open) with the card read
absent. -/
theorem C29_closeAll_closes_every_slot_witness :
    Disks.sample.disks.length = MAX_DISKS ∧
      (∀ d, d < MAX_DISKS → ∃ x y, Disks.sample.disks[d]? = some x ∧
        Disks.sample.closeAll.disks[d]? = some y ∧
        y.isOpen = false ∧ y.isMounted = x.isMounted ∧ y.isReadOnly = x.isReadOnly ∧
        y.getFilename = x.getFilename ∧ y.getError = x.getError) ∧
      Disks.sample.closeAll.errorCode = Disks.sample.errorCode ∧
      (DisksRest.fresh.presentState = false →
        ∃ ds1 m1, Disks.sample.poll DisksRest.fresh SDCard.sample true true = some (ds1, m1) ∧
          ds1 = Disks.sample.closeAll ∧
          m1.presentState = true ∧ m1.ui = DisksRest.fresh.ui ++ [UI_SD_REMOVED] ∧
          ∀ d, d < MAX_DISKS → ∃ y, ds1.disks[d]? = some y ∧ y.isOpen = false) :=
  ⟨rfl, C29_closeAll_closes_every_slot Disks.sample DisksRest.fresh SDCard.sample true rfl⟩

/-! ### The parser of the configuration file -/

theorem DisksRest.Frame.refl (m : DisksRest) : m.Frame m := ⟨rfl, rfl, rfl, rfl, rfl⟩

theorem DisksRest.Frame.trans {m n k : DisksRest} (h1 : m.Frame n) (h2 : n.Frame k) :
    m.Frame k := by
  obtain ⟨a1, a2, a3, a4, a5⟩ := h1
  obtain ⟨b1, b2, b3, b4, b5⟩ := h2
  exact ⟨b1.trans a1, b2.trans a2, b3.trans a3, b4.trans a4, b5.trans a5⟩

/-- The loop body does not look at the handle `file` and leaves it alone. -/
theorem Disks.configStep_file (ds : Disks) (m : DisksRest) (sd : SDCard) (token : Nat) (f : File) :
    ds.configStep { m with file := f } sd token =
      (ds.configStep m sd token).map (fun r => (r.1, { r.2 with file := f })) := by
  obtain ⟨state, ro, fname, drive, file, ps, w, cfn, ui, log⟩ := m
  cases state
  · simp only [Disks.configStep]; split_ifs <;> rfl
  · simp only [Disks.configStep]; split_ifs <;> rfl
  · simp only [Disks.configStep]; split_ifs <;> rfl
  · simp only [Disks.configStep]
    split_ifs
    · cases hm : ds.mount sd (drive % 256) fname ro <;> rfl
    · rfl
    · rfl
    · rfl
    · rfl

theorem Disks.configRun_file (ds : Disks) (m : DisksRest) (sd : SDCard) (l : List Nat) (f : File) :
    Disks.configRun ds { m with file := f } sd l =
      (Disks.configRun ds m sd l).map (fun r => (r.1, { r.2 with file := f })) := by
  induction l generalizing ds m with
  | nil => rfl
  | cons t rest ih =>
    simp only [Disks.configRun]
    rw [Disks.configStep_file]
    cases hq : ds.configStep m sd t with
    | none => rfl
    | some q => exact ih q.1 q.2

theorem Disks.configRun_append (ds : Disks) (m : DisksRest) (sd : SDCard) (a b : List Nat) :
    Disks.configRun ds m sd (a ++ b) =
      (Disks.configRun ds m sd a).bind (fun r => Disks.configRun r.1 r.2 sd b) := by
  induction a generalizing ds m with
  | nil => rfl
  | cons t rest ih =>
    simp only [List.cons_append, Disks.configRun]
    cases hq : ds.configStep m sd t with
    | none => rfl
    | some q => exact ih q.1 q.2

/-- The loop of `mountDefaults`, given as many rounds as bytes are left in the
file, runs the loop body over those bytes and leaves the handle at the end of
the file. -/
theorem Disks.configLoop_run (sd : SDCard) (cont : List Nat) (l : List Nat) :
    ∀ (n : Nat) (ds : Disks) (m : DisksRest), m.file.isOpen = true →
      sd.files m.file.name = some cont → m.file.pos ≤ cont.length →
      cont.drop m.file.pos = l → l.length ≤ n →
      Disks.configLoop n ds m sd =
        (Disks.configRun ds m sd l).map
          (fun r => (r.1, { r.2 with file := { m.file with pos := cont.length } })) := by
  induction l with
  | nil =>
    intro n ds m ho hc hle hl _
    have hpos : cont.length = m.file.pos := by
      have := congrArg List.length hl
      simp at this
      omega
    have hav : m.file.available sd = 0 := by
      simp [File.available, File.size, File.content, ho, hc]; omega
    have hm : Disks.configLoop n ds m sd = some (ds, m) := by
      cases n with
      | zero => rfl
      | succ k => simp only [Disks.configLoop, if_pos hav]
    rw [hm, hpos]
    rfl
  | cons t rest ih =>
    intro n ds m ho hc hle hl hn
    have hlen : m.file.pos + (rest.length + 1) = cont.length := by
      have := congrArg List.length hl
      simp at this
      omega
    obtain ⟨k, rfl⟩ : ∃ k, n = k + 1 := ⟨n - 1, by simp at hn; omega⟩
    have hav : m.file.available sd ≠ 0 := by
      simp [File.available, File.size, File.content, ho, hc]; omega
    have hlt : m.file.pos < cont.length := by omega
    have hget : cont[m.file.pos] = t := by
      have h1 : (cont.drop m.file.pos)[0]? = some t := by rw [hl]; simp
      rw [List.getElem?_drop] at h1
      simp only [Nat.add_zero] at h1
      rw [List.getElem?_eq_getElem hlt] at h1
      exact Option.some.inj h1
    have hread : m.file.read sd = ({ m.file with pos := m.file.pos + 1 }, t) := by
      simp [File.read, File.size, File.content, ho, hc, hlt, hget]
    have hdrop : cont.drop (m.file.pos + 1) = rest := by
      have h1 : (cont.drop m.file.pos).drop 1 = rest := by rw [hl]; rfl
      rw [List.drop_drop] at h1
      rw [← h1, Nat.add_comm]
    simp only [Disks.configLoop, if_neg hav, hread, Disks.configRun]
    rw [Disks.configStep_file]
    cases hq : ds.configStep m sd t with
    | none => rfl
    | some q =>
      simp only [Option.map_some']
      rw [ih k q.1 { q.2 with file := { m.file with pos := m.file.pos + 1 } } ho hc hlt hdrop
        (by simp at hn; omega)]
      rw [Disks.configRun_file]
      cases hr : Disks.configRun q.1 q.2 sd rest <;> rfl

theorem configName_length (which : Nat) : (configName which).length ≤ FNAME_SIZE := by
  unfold configName
  split_ifs <;> decide

/-- With the card present and the selected file there and opening,
`mountDefaults` runs the loop body over the content of the file. -/
theorem Disks.mountDefaults_run (ds : Disks) (m : DisksRest) (sd : SDCard) (which : Nat)
    (cont : List Nat) (hfile : sd.files (configName which) = some cont)
    (hopens : sd.opens (configName which) = true) :
    ds.mountDefaults m sd false which =
      (Disks.configRun ds (m.atStart which) sd cont).map
        (fun r => (r.1, { r.2 with file := File.done which cont.length })) := by
  have hex : sd.fileExists (configName which) = true := by
    simp [SDCard.fileExists, configName_length, hfile]
  have hopen : sd.open (configName which) FILE_READ =
      { isOpen := true, name := configName which, pos := 0 } := by
    simp [SDCard.open, hex, hopens]
  have hav : ({ isOpen := true, name := configName which, pos := 0 } : File).available sd =
      cont.length := by
    simp [File.available, File.size, File.content, hfile]
  have hloop := Disks.configLoop_run sd cont cont cont.length ds (m.atStart which) rfl hfile
    (Nat.zero_le _) rfl (Nat.le_refl _)
  have hname : configName which =
      (if which = CONFIG_FILE_ALTERNATE then CONFIG_FILE_ALT else CONFIG_FILE) := rfl
  have hm : (if which = CONFIG_FILE_ALTERNATE then
        { { { m with configFileName := CONFIG_FILE } with whichConfigFile := which } with
          configFileName := CONFIG_FILE_ALT }
      else { { m with configFileName := CONFIG_FILE } with whichConfigFile := which }) =
      { m with configFileName := configName which, whichConfigFile := which } := by
    unfold configName
    split_ifs <;> rfl
  unfold Disks.mountDefaults
  simp only [hm, hex, hopen, hav]
  simp only [DisksRest.atStart] at hloop
  rw [hloop]
  cases hr : Disks.configRun ds (m.atStart which) sd cont with
  | none =>
    simp only [DisksRest.atStart] at hr
    simp [hr]
  | some r =>
    simp only [DisksRest.atStart] at hr
    simp [hr, File.close, File.done]

theorem DisksRest.state_eta (m : DisksRest) (s : configState_t) (hs : m.state = s) :
    { m with state := s } = m := by
  cases m; simp only at hs; subst hs; rfl

theorem Disks.step_first_hash (ds : Disks) (m : DisksRest) (sd : SDCard)
    (hs : m.state = FIRST_CHAR) :
    ds.configStep m sd 0x23 = some (ds, { m with state := WAIT_EOL }) := by
  unfold Disks.configStep; rw [hs]; simp

theorem Disks.step_first_digit (ds : Disks) (m : DisksRest) (sd : SDCard) (d : Nat)
    (hs : m.state = FIRST_CHAR) (hd : d < 4) :
    ds.configStep m sd (0x30 + d) =
      some (ds, { m with drive := d, readOnly := false, state := AFTER_DRIVE }) := by
  unfold Disks.configStep; rw [hs]
  have h1 : ¬ (0x30 + d = 0x23) := by omega
  have h2 : 0x30 ≤ 0x30 + d ∧ 0x30 + d ≤ 0x33 := by omega
  simp only [if_neg h1, if_pos h2, Nat.add_sub_cancel_left]

theorem Disks.step_first_other (ds : Disks) (m : DisksRest) (sd : SDCard) (t : Nat)
    (hs : m.state = FIRST_CHAR) (h1 : t ≠ 0x23) (h2 : ¬ (0x30 ≤ t ∧ t ≤ 0x33)) :
    ds.configStep m sd t = some (ds, m) := by
  unfold Disks.configStep; rw [hs]
  simp only [if_neg h1, if_neg h2]

theorem Disks.step_wait_other (ds : Disks) (m : DisksRest) (sd : SDCard) (t : Nat)
    (hs : m.state = WAIT_EOL) (h1 : t ≠ 0x0a) :
    ds.configStep m sd t = some (ds, m) := by
  unfold Disks.configStep; rw [hs]
  simp only [if_neg h1]

theorem Disks.step_wait_newline (ds : Disks) (m : DisksRest) (sd : SDCard)
    (hs : m.state = WAIT_EOL) :
    ds.configStep m sd 0x0a = some (ds, { m with state := FIRST_CHAR }) := by
  unfold Disks.configStep; rw [hs]; simp

theorem Disks.step_after_colon (ds : Disks) (m : DisksRest) (sd : SDCard)
    (hs : m.state = AFTER_DRIVE) :
    ds.configStep m sd 0x3a = some (ds, { m with state := FILENAME, filename := [] }) := by
  unfold Disks.configStep; rw [hs]; simp

theorem Disks.step_after_flag (ds : Disks) (m : DisksRest) (sd : SDCard) (t : Nat)
    (hs : m.state = AFTER_DRIVE) (ht : t = 0x52 ∨ t = 0x72) :
    ds.configStep m sd t = some (ds, { m with readOnly := true }) := by
  unfold Disks.configStep; rw [hs]
  have h1 : ¬ (t = 0x3a) := by omega
  simp only [if_neg h1, if_pos ht]

theorem Disks.step_name_char (ds : Disks) (m : DisksRest) (sd : SDCard) (t : Nat)
    (hs : m.state = FILENAME) (h1 : 0x21 ≤ t) (h2 : t ≤ 0x7d) (hl : m.filename.length < 13) :
    ds.configStep m sd t = some (ds, { m with filename := m.filename ++ [t] }) := by
  unfold Disks.configStep; rw [hs]
  have h3 : ¬ (t = 0x0a) := by omega
  have h4 : 0x20 < t ∧ t < 0x7e := by omega
  simp only [if_neg h3, if_pos h4, if_pos hl]

theorem Disks.step_name_newline (ds : Disks) (m : DisksRest) (sd : SDCard)
    (hs : m.state = FILENAME) (hl : m.filename.length < 13) :
    ds.configStep m sd 0x0a =
      (ds.mount sd (m.drive % 256) m.filename m.readOnly).map
        (fun r => (r.1, { m with state := FIRST_CHAR,
                                 mountLog := m.mountLog ++ [(m.drive % 256, m.filename, m.readOnly)] })) := by
  unfold Disks.configStep; rw [hs]
  simp only [if_true, if_pos hl]
  cases ds.mount sd (m.drive % 256) m.filename m.readOnly <;> rfl

/-- In `WAIT_EOL` characters other than the newline change nothing. -/
theorem Disks.configRun_wait (ds : Disks) (m : DisksRest) (sd : SDCard) (text : List Nat)
    (hs : m.state = WAIT_EOL) (hn : 0x0a ∉ text) :
    Disks.configRun ds m sd text = some (ds, m) := by
  induction text with
  | nil => rfl
  | cons t rest ih =>
    have ht : t ≠ 0x0a := fun h => hn (by simp [h])
    have hr : 0x0a ∉ rest := fun h => hn (by simp [h])
    simp only [Disks.configRun, ds.step_wait_other m sd t hs ht]
    exact ih hr

/-- In `FIRST_CHAR` characters other than `#` and the digits `0` to `3`
change nothing. -/
theorem Disks.configRun_first (ds : Disks) (m : DisksRest) (sd : SDCard) (text : List Nat)
    (hs : m.state = FIRST_CHAR) (hn : ∀ t ∈ text, t ≠ 0x23 ∧ ¬ (0x30 ≤ t ∧ t ≤ 0x33)) :
    Disks.configRun ds m sd text = some (ds, m) := by
  induction text with
  | nil => rfl
  | cons t rest ih =>
    have ht := hn t (by simp)
    simp only [Disks.configRun, ds.step_first_other m sd t hs ht.1 ht.2]
    exact ih (fun u hu => hn u (by simp [hu]))

/-- A comment and its newline, read from the start of a line, change
nothing. -/
theorem Disks.configRun_comment (ds : Disks) (m : DisksRest) (sd : SDCard) (text : List Nat)
    (hs : m.state = FIRST_CHAR) (hn : 0x0a ∉ text) :
    Disks.configRun ds m sd (0x23 :: text ++ [0x0a]) = some (ds, m) := by
  simp only [List.cons_append, Disks.configRun, ds.step_first_hash m sd hs]
  rw [List.append_eq, Disks.configRun_append, Disks.configRun_wait ds _ sd text rfl hn]
  simp only [Option.some_bind, Disks.configRun]
  rw [Disks.step_wait_newline ds _ sd rfl]
  simp only []
  congr 2
  exact m.state_eta FIRST_CHAR hs

/-- In `FILENAME` characters from `!` to the closing brace are stored, as
long as they fit. -/
theorem Disks.configRun_name (ds : Disks) (sd : SDCard) (name : List Nat) :
    ∀ m : DisksRest, m.state = FILENAME → (∀ t ∈ name, 0x21 ≤ t ∧ t ≤ 0x7d) →
      m.filename.length + name.length ≤ 13 →
      Disks.configRun ds m sd name = some (ds, { m with filename := m.filename ++ name }) := by
  induction name with
  | nil =>
    intro m _ _ _
    simp only [Disks.configRun, List.append_nil]
  | cons t rest ih =>
    intro m hs hn hl
    have ht := hn t (by simp)
    simp only [List.length_cons] at hl
    simp only [Disks.configRun, ds.step_name_char m sd t hs ht.1 ht.2 (by omega)]
    rw [ih { m with filename := m.filename ++ [t] } hs (fun u hu => hn u (by simp [hu]))
      (by simp; omega)]
    simp

theorem Disks.configRun_cons (ds : Disks) (m : DisksRest) (sd : SDCard) (t : Nat)
    (rest : List Nat) :
    Disks.configRun ds m sd (t :: rest) =
      (ds.configStep m sd t).bind (fun r => Disks.configRun r.1 r.2 sd rest) := by
  simp only [Disks.configRun]
  cases ds.configStep m sd t <;> rfl

theorem Disks.configRun_nil (ds : Disks) (m : DisksRest) (sd : SDCard) :
    Disks.configRun ds m sd [] = some (ds, m) := rfl

/-- A well-formed entry and its newline, read from the start of a line, make
the one call `mount(drive, name, readOnly)`. -/
theorem Disks.configRun_entry (ds : Disks) (m : DisksRest) (sd : SDCard) (d : Nat)
    (flag : Option Nat) (name : List Nat) (hs : m.state = FIRST_CHAR)
    (hwf : (ConfigLine.entry d flag name).WellFormed) :
    Disks.configRun ds m sd (ConfigLine.entry d flag name).bytes =
      (ds.mount sd d name flag.isSome).map
        (fun r => (r.1, { m with state := FIRST_CHAR, drive := d, readOnly := flag.isSome,
                                 filename := name,
                                 mountLog := m.mountLog ++ [(d, name, flag.isSome)] })) := by
  obtain ⟨hd, hflag, hlen1, hlen2, hchars⟩ := hwf
  have hmod : d % 256 = d := Nat.mod_eq_of_lt (by omega)
  have tail : ∀ n : DisksRest, n.state = FILENAME → n.filename = [] →
      Disks.configRun ds n sd (name ++ [0x0a]) =
        (ds.mount sd (n.drive % 256) name n.readOnly).map
          (fun r => (r.1, { n with state := FIRST_CHAR, filename := name,
                                   mountLog := n.mountLog ++ [(n.drive % 256, name, n.readOnly)] })) := by
    intro n hn hf
    rw [Disks.configRun_append, Disks.configRun_name ds sd name n hn hchars (by rw [hf]; simp; omega)]
    simp only [Option.some_bind]
    rw [Disks.configRun_cons,
      Disks.step_name_newline ds { n with filename := n.filename ++ name } sd hn
        (by simp [hf]; omega)]
    simp only [hf, List.nil_append]
    cases ds.mount sd (n.drive % 256) name n.readOnly <;> rfl
  rcases hflag with rfl | rfl | rfl
  · have hb : (ConfigLine.entry d none name).bytes = (0x30 + d) :: 0x3a :: (name ++ [0x0a]) := by
      simp [ConfigLine.bytes]
    rw [hb, Disks.configRun_cons, ds.step_first_digit m sd d hs hd]
    simp only [Option.some_bind]
    rw [Disks.configRun_cons, Disks.step_after_colon ds _ sd rfl]
    simp only [Option.some_bind]
    rw [tail _ rfl rfl]
    simp only [hmod, Option.isSome_none]
  · have hb : (ConfigLine.entry d (some 0x52) name).bytes =
        (0x30 + d) :: 0x52 :: 0x3a :: (name ++ [0x0a]) := by
      simp [ConfigLine.bytes]
    rw [hb, Disks.configRun_cons, ds.step_first_digit m sd d hs hd]
    simp only [Option.some_bind]
    rw [Disks.configRun_cons, Disks.step_after_flag ds _ sd 0x52 rfl (Or.inl rfl)]
    simp only [Option.some_bind]
    rw [Disks.configRun_cons, Disks.step_after_colon ds _ sd rfl]
    simp only [Option.some_bind]
    rw [tail _ rfl rfl]
    simp only [hmod, Option.isSome_some]
  · have hb : (ConfigLine.entry d (some 0x72) name).bytes =
        (0x30 + d) :: 0x72 :: 0x3a :: (name ++ [0x0a]) := by
      simp [ConfigLine.bytes]
    rw [hb, Disks.configRun_cons, ds.step_first_digit m sd d hs hd]
    simp only [Option.some_bind]
    rw [Disks.configRun_cons, Disks.step_after_flag ds _ sd 0x72 rfl (Or.inr rfl)]
    simp only [Option.some_bind]
    rw [Disks.configRun_cons, Disks.step_after_colon ds _ sd rfl]
    simp only [Option.some_bind]
    rw [tail _ rfl rfl]
    simp only [hmod, Option.isSome_some]

/-- The lines of a well-formed file, read from the start of a line, make the
calls of `mount` the lines ask for, in order, and nothing else. -/
theorem Disks.configRun_lines (sd : SDCard) (lines : List ConfigLine)
    (hwf : ∀ l ∈ lines, l.WellFormed) :
    ∀ (ds : Disks) (m : DisksRest), m.state = FIRST_CHAR → ds.disks.length = MAX_DISKS →
      ∃ ds1 m1, Disks.configRun ds m sd (ConfigLine.file lines) = some (ds1, m1) ∧
        Disks.mountAll ds sd (ConfigLine.mounts lines) = some ds1 ∧
        ds1.disks.length = MAX_DISKS ∧ m1.state = FIRST_CHAR ∧
        m1.mountLog = m.mountLog ++ ConfigLine.mounts lines ∧ m.Frame m1 := by
  induction lines with
  | nil =>
    intro ds m hs hl
    exact ⟨ds, m, rfl, rfl, hl, hs, by simp [ConfigLine.mounts], DisksRest.Frame.refl m⟩
  | cons l ls ih =>
    intro ds m hs hl
    have hwl := hwf l (by simp)
    have hwls : ∀ l ∈ ls, l.WellFormed := fun x hx => hwf x (by simp [hx])
    have hfile : ConfigLine.file (l :: ls) = l.bytes ++ ConfigLine.file ls := by
      simp [ConfigLine.file]
    rw [hfile, Disks.configRun_append]
    cases l with
    | comment text =>
      rw [ConfigLine.bytes, Disks.configRun_comment ds m sd text hs hwl]
      simp only [Option.some_bind]
      obtain ⟨ds1, m1, h1, h2, h3, h4, h5, h6⟩ := ih hwls ds m hs hl
      exact ⟨ds1, m1, h1, by simpa [ConfigLine.mounts, ConfigLine.mount] using h2, h3, h4,
        by simpa [ConfigLine.mounts, ConfigLine.mount] using h5, h6⟩
    | entry d flag name =>
      rw [Disks.configRun_entry ds m sd d flag name hs hwl]
      obtain ⟨r, hr, hrl, _⟩ := ds.mount_some sd d name flag.isSome
        (by rw [hl]; exact hwl.1)
      rw [hr]
      simp only [Option.map_some', Option.some_bind]
      obtain ⟨ds1, m1, h1, h2, h3, h4, h5, h6⟩ := ih hwls r.1
        { m with state := FIRST_CHAR, drive := d, readOnly := flag.isSome, filename := name,
                 mountLog := m.mountLog ++ [(d, name, flag.isSome)] } rfl (by rw [hrl, hl])
      refine ⟨ds1, m1, h1, ?_, h3, h4, ?_, ?_⟩
      · simp only [ConfigLine.mounts, List.filterMap_cons, ConfigLine.mount, Disks.mountAll, hr]
        exact h2
      · rw [h5]
        simp [ConfigLine.mounts, ConfigLine.mount]
      · exact h6

/-- What `mountAll` does on a drive set with the four slots: it is defined
when every drive is below 4, and keeps the four slots. -/
theorem Disks.mountAll_some (sd : SDCard) (l : List (Nat × List Nat × Bool)) :
    ∀ ds : Disks, ds.disks.length = MAX_DISKS → (∀ c ∈ l, c.1 < 4) →
      ∃ ds1, Disks.mountAll ds sd l = some ds1 ∧ ds1.disks.length = MAX_DISKS := by
  induction l with
  | nil => intro ds hl _; exact ⟨ds, rfl, hl⟩
  | cons c rest ih =>
    intro ds hl hc
    obtain ⟨r, hr, hrl, _⟩ := ds.mount_some sd c.1 c.2.1 c.2.2 (by rw [hl]; exact hc c (by simp))
    obtain ⟨ds1, h1, h2⟩ := ih r.1 (by rw [hrl, hl]) (fun x hx => hc x (by simp [hx]))
    exact ⟨ds1, by simp only [Disks.mountAll, hr]; exact h1, h2⟩

/-! ### The default mounts -/

/-- C22: for every well-formed configuration file (newline-terminated lines
`#comment`, `D:name` or `DR:name`, with `D` a digit 0..3, `R` being `R` or
`r`, and a name of 1 to 12 characters from `!` to the closing brace), with the
card present and the file opening, `mountDefaults` issues exactly one
`mount(D, name, readOnly)` per drive line, in file order, with `readOnly` true
iff the flag is on the line, and none for a comment line; the drive set
afterwards is the one these calls give.  For the file `0:A.DSK`, `1R:B.DSK`
on a card that holds both images this mounts drive 0 read-write to `A.DSK`
and drive 1 read-only to `B.DSK`. -/
theorem C22_well_formed_file_mounts :
    (∀ (ds : Disks) (m : DisksRest) (sd : SDCard) (which : Nat) (lines : List ConfigLine),
      ds.disks.length = MAX_DISKS → (∀ l ∈ lines, l.WellFormed) →
      sd.files (configName which) = some (ConfigLine.file lines) →
      sd.opens (configName which) = true →
      ∃ ds1 m1, ds.mountDefaults m sd false which = some (ds1, m1) ∧
        m1.mountLog = m.mountLog ++ ConfigLine.mounts lines ∧
        Disks.mountAll ds sd (ConfigLine.mounts lines) = some ds1) ∧
    (∃ ds1 m1, Disks.fresh.mountDefaults DisksRest.fresh
          (SDCard.withConfig (ConfigLine.file linesAB)) false CONFIG_FILE_PRIMARY = some (ds1, m1) ∧
        m1.mountLog = [(0, nameA, false), (1, nameB, true)] ∧
        (ds1.slot 0).isMounted = true ∧ (ds1.slot 0).isReadOnly = false ∧
        (ds1.slot 0).getFilename = nameA ∧
        (ds1.slot 1).isMounted = true ∧ (ds1.slot 1).isReadOnly = true ∧
        (ds1.slot 1).getFilename = nameB ∧
        (ds1.slot 2).isMounted = false ∧ (ds1.slot 3).isMounted = false) := by
  constructor
  · intro ds m sd which lines hslots hwf hfile hopens
    rw [Disks.mountDefaults_run ds m sd which _ hfile hopens]
    obtain ⟨ds1, m1, h1, h2, _, _, h5, _⟩ :=
      Disks.configRun_lines sd lines hwf ds (m.atStart which) rfl hslots
    rw [h1]
    exact ⟨ds1, _, rfl, h5, h2⟩
  · exact ⟨_, _, rfl, rfl, rfl, rfl, rfl, rfl, rfl, rfl, rfl, rfl⟩

/-- C22, at the file `0:A.DSK`, `1R:B.DSK` as the primary file of a card
with both images, read by the drive set right after its constructor. -/
theorem C22_well_formed_file_mounts_witness :
    Disks.fresh.disks.length = MAX_DISKS ∧ (∀ l ∈ linesAB, l.WellFormed) ∧
      (SDCard.withConfig (ConfigLine.file linesAB)).files (configName 0) =
        some (ConfigLine.file linesAB) ∧
      (SDCard.withConfig (ConfigLine.file linesAB)).opens (configName 0) = true ∧
      ∃ ds1 m1, Disks.fresh.mountDefaults DisksRest.fresh
          (SDCard.withConfig (ConfigLine.file linesAB)) false 0 = some (ds1, m1) ∧
        m1.mountLog = DisksRest.fresh.mountLog ++ ConfigLine.mounts linesAB ∧
        Disks.mountAll Disks.fresh (SDCard.withConfig (ConfigLine.file linesAB))
          (ConfigLine.mounts linesAB) = some ds1 :=
  ⟨rfl, by simp [linesAB, ConfigLine.WellFormed, nameA, nameB], rfl, rfl,
    C22_well_formed_file_mounts.1 Disks.fresh DisksRest.fresh
      (SDCard.withConfig (ConfigLine.file linesAB)) 0 linesAB
      rfl (by simp [linesAB, ConfigLine.WellFormed, nameA, nameB]) rfl rfl⟩

/-! ### Lines outside the format -/

/-- The parser members after one round of the loop, and whether the round is
defined, depend only on the parser members before it and on the number of
slots. -/
theorem Disks.configStep_sim (ds ds2 : Disks) (m m2 : DisksRest) (sd sd2 : SDCard) (t : Nat)
    (hl : ds.disks.length = ds2.disks.length) (hp : m.parser = m2.parser) :
    (ds.configStep m sd t).map (fun r => (r.1.disks.length, r.2.parser)) =
      (ds2.configStep m2 sd2 t).map (fun r => (r.1.disks.length, r.2.parser)) := by
  obtain ⟨state, ro, fname, drive, file, ps, w, cfn, ui, log⟩ := m
  obtain ⟨state2, ro2, fname2, drive2, file2, ps2, w2, cfn2, ui2, log2⟩ := m2
  simp only [DisksRest.parser, Prod.mk.injEq] at hp
  obtain ⟨rfl, rfl, rfl, rfl, rfl⟩ := hp
  cases state
  · simp only [Disks.configStep]
    split_ifs <;> simp [DisksRest.parser, hl]
  · simp only [Disks.configStep]
    split_ifs <;> simp [DisksRest.parser, hl]
  · simp only [Disks.configStep]
    split_ifs <;> simp [DisksRest.parser, hl]
  · simp only [Disks.configStep]
    split_ifs
    · by_cases hd : drive % 256 < ds.disks.length
      · obtain ⟨r, hr, hrl, _⟩ := ds.mount_some sd (drive % 256) fname ro hd
        obtain ⟨r2, hr2, hrl2, _⟩ := ds2.mount_some sd2 (drive % 256) fname ro (hl ▸ hd)
        simp [hr, hr2, DisksRest.parser, hrl, hrl2, hl]
      · rw [ds.mount_none sd (drive % 256) fname ro (by omega),
          ds2.mount_none sd2 (drive % 256) fname ro (by omega)]
    · rfl
    · simp [DisksRest.parser, hl]
    · rfl
    · simp [DisksRest.parser, hl]

/-- The parser members after a run of the loop depend only on the parser
members before it and on the number of slots. -/
theorem Disks.configRun_sim (sd sd2 : SDCard) (l : List Nat) :
    ∀ (ds ds2 : Disks) (m m2 : DisksRest), ds.disks.length = ds2.disks.length →
      m.parser = m2.parser →
      (Disks.configRun ds m sd l).map (fun r => (r.1.disks.length, r.2.parser)) =
        (Disks.configRun ds2 m2 sd2 l).map (fun r => (r.1.disks.length, r.2.parser)) := by
  induction l with
  | nil =>
    intro ds ds2 m m2 hl hp
    simp [Disks.configRun_nil, hl, hp]
  | cons t rest ih =>
    intro ds ds2 m m2 hl hp
    have hstep := Disks.configStep_sim ds ds2 m m2 sd sd2 t hl hp
    rw [Disks.configRun_cons, Disks.configRun_cons]
    cases h1 : ds.configStep m sd t with
    | none =>
      cases h2 : ds2.configStep m2 sd2 t with
      | none => rfl
      | some r2 => rw [h1, h2] at hstep; simp at hstep
    | some r =>
      cases h2 : ds2.configStep m2 sd2 t with
      | none => rw [h1, h2] at hstep; simp at hstep
      | some r2 =>
        rw [h1, h2] at hstep
        simp only [Option.map_some', Option.some.injEq, Prod.mk.injEq] at hstep
        simp only [Option.some_bind]
        exact ih r.1 r2.1 r.2 r2.2 hstep.1 hstep.2

/-- A skipped line and its newline, read from the start of a line, change
nothing. -/
theorem Disks.configRun_skipped (ds : Disks) (m : DisksRest) (sd : SDCard) (line : List Nat)
    (hs : m.state = FIRST_CHAR) (hline : ConfigLine.Skipped line) :
    Disks.configRun ds m sd (line ++ [0x0a]) = some (ds, m) := by
  obtain ⟨hnl, hpre⟩ := hline
  have hsplit := List.takeWhile_append_dropWhile (fun c => decide (c ≠ 0x23)) line
  have hfirst : Disks.configRun ds m sd (line.takeWhile (fun c => decide (c ≠ 0x23))) =
      some (ds, m) := by
    apply Disks.configRun_first ds m sd _ hs
    intro t ht
    refine ⟨?_, hpre t ht⟩
    have := List.mem_takeWhile_imp ht
    simpa using this
  rw [← hsplit, List.append_assoc, Disks.configRun_append, hfirst]
  simp only [Option.some_bind]
  cases hdrop : line.dropWhile (fun c => decide (c ≠ 0x23)) with
  | nil =>
    rw [List.nil_append, Disks.configRun_cons,
      ds.step_first_other m sd 0x0a hs (by decide) (by decide)]
    rfl
  | cons t rest =>
    have ht : t = 0x23 := by
      have := List.head_dropWhile_not (fun c => decide (c ≠ 0x23)) line
        (by rw [hdrop]; simp)
      simp only [hdrop, List.head_cons] at this
      simpa using this
    have hrest : 0x0a ∉ rest := by
      intro h
      apply hnl
      rw [← hsplit, hdrop]
      simp [h]
    rw [ht]
    exact Disks.configRun_comment ds m sd rest hs hrest

/-- C23 (as stated, refuted): the line `x1:B.DSK` begins with neither `#`
nor a digit 0..3, yet as the only line of the primary file it makes
`mountDefaults` call `mount(1, B.DSK, false)`, and drive 1 is mounted on
`B.DSK` afterwards: the `x` is passed over and the `1` after it is read as
the first character of the line. -/
theorem C23_junk_before_entry_mounts :
    ∃ ds1 m1, Disks.fresh.mountDefaults DisksRest.fresh (SDCard.withConfig textJunk) false
          CONFIG_FILE_PRIMARY = some (ds1, m1) ∧
        m1.mountLog = [(1, nameB, false)] ∧
        (ds1.slot 1).isMounted = true ∧ (ds1.slot 1).getFilename = nameB :=
  ⟨_, _, rfl, rfl, rfl, rfl⟩

/-- C23 (amended): a line with no digit 0..3 before its first `#` is skipped:
read from the start of a line, the line and its newline make no call of
`mount` and leave every member as it was; and after well-formed lines it does
not change which mounts the file produces, whatever follows it: the calls of
`mount` are those made for the file without the line. -/
theorem C23_skipped_line (ds : Disks) (m : DisksRest) (sd sd2 : SDCard) (which : Nat)
    (lines : List ConfigLine) (line rest : List Nat)
    (hslots : ds.disks.length = MAX_DISKS) (hwf : ∀ l ∈ lines, l.WellFormed)
    (hline : ConfigLine.Skipped line)
    (hfile : sd.files (configName which) =
      some (ConfigLine.file lines ++ (line ++ [0x0a]) ++ rest))
    (hopens : sd.opens (configName which) = true)
    (hfile2 : sd2.files (configName which) = some (ConfigLine.file lines ++ rest))
    (hopens2 : sd2.opens (configName which) = true) :
    (∀ n : DisksRest, n.state = FIRST_CHAR →
        Disks.configRun ds n sd (line ++ [0x0a]) = some (ds, n)) ∧
      (ds.mountDefaults m sd false which).map (fun r => r.2.mountLog) =
        (ds.mountDefaults m sd2 false which).map (fun r => r.2.mountLog) := by
  refine ⟨fun n hn => Disks.configRun_skipped ds n sd line hn hline, ?_⟩
  rw [Disks.mountDefaults_run ds m sd which _ hfile hopens,
    Disks.mountDefaults_run ds m sd2 which _ hfile2 hopens2]
  obtain ⟨ds1, m1, h1, _, hl1, hs1, _, _⟩ :=
    Disks.configRun_lines sd lines hwf ds (m.atStart which) rfl hslots
  obtain ⟨ds2, m2, h2, _, hl2, _, _, _⟩ :=
    Disks.configRun_lines sd2 lines hwf ds (m.atStart which) rfl hslots
  have hsim := Disks.configRun_sim sd sd2 (ConfigLine.file lines) ds ds (m.atStart which)
    (m.atStart which) rfl rfl
  rw [h1, h2] at hsim
  simp only [Option.map_some', Option.some.injEq, Prod.mk.injEq] at hsim
  have hrest := Disks.configRun_sim sd sd2 rest ds1 ds2 m1 m2 hsim.1 hsim.2
  rw [List.append_assoc, Disks.configRun_append, Disks.configRun_append, h1, h2]
  simp only [Option.some_bind]
  rw [Disks.configRun_append, Disks.configRun_skipped ds1 m1 sd line hs1 hline]
  simp only [Option.some_bind]
  have hlog := congrArg (Option.map (fun x : Nat × configState_t × Bool × List Nat × Nat ×
    List (Nat × List Nat × Bool) => x.2.2.2.2.2)) hrest
  simp only [Option.map_map] at hlog ⊢
  exact hlog

/-- C23 (amended), at the line `x#1` put after `0:A.DSK`, `1R:B.DSK` and
before `2:A.DSK`. -/
theorem C23_skipped_line_witness :
    ConfigLine.Skipped [0x78, 0x23, 0x31] ∧
      (∀ n : DisksRest, n.state = FIRST_CHAR →
        Disks.configRun Disks.fresh n
          (SDCard.withConfig (ConfigLine.file linesAB ++ ([0x78, 0x23, 0x31] ++ [0x0a]) ++
            ([0x32, 0x3a] ++ nameA ++ [0x0a])))
          ([0x78, 0x23, 0x31] ++ [0x0a]) = some (Disks.fresh, n)) ∧
      (Disks.fresh.mountDefaults DisksRest.fresh
          (SDCard.withConfig (ConfigLine.file linesAB ++ ([0x78, 0x23, 0x31] ++ [0x0a]) ++
            ([0x32, 0x3a] ++ nameA ++ [0x0a]))) false 0).map (fun r => r.2.mountLog) =
        (Disks.fresh.mountDefaults DisksRest.fresh
          (SDCard.withConfig (ConfigLine.file linesAB ++ ([0x32, 0x3a] ++ nameA ++ [0x0a])))
          false 0).map (fun r => r.2.mountLog) :=
  ⟨by simp [ConfigLine.Skipped, List.takeWhile],
    C23_skipped_line Disks.fresh DisksRest.fresh
      (SDCard.withConfig (ConfigLine.file linesAB ++ ([0x78, 0x23, 0x31] ++ [0x0a]) ++
        ([0x32, 0x3a] ++ nameA ++ [0x0a])))
      (SDCard.withConfig (ConfigLine.file linesAB ++ ([0x32, 0x3a] ++ nameA ++ [0x0a])))
      0 linesAB [0x78, 0x23, 0x31] ([0x32, 0x3a] ++ nameA ++ [0x0a])
      rfl (by simp [linesAB, ConfigLine.WellFormed, nameA, nameB])
      (by simp [ConfigLine.Skipped, List.takeWhile]) rfl rfl rfl rfl⟩

/-! ## The claims on saving the configuration -/

/-! ### The card under `put` and `remove` -/

theorem SDCard.put_files_same (sd : SDCard) (name : List Nat) (cont : List Nat) :
    (sd.put name cont).files name = some cont := by
  simp [SDCard.put]

theorem SDCard.put_files_other (sd : SDCard) (name other : List Nat) (cont : List Nat)
    (h : other ≠ name) : (sd.put name cont).files other = sd.files other := by
  simp [SDCard.put, Function.update_noteq h]

theorem SDCard.remove_files_same (sd : SDCard) (name : List Nat) :
    (sd.remove name).files name = none := by
  simp [SDCard.remove]

theorem SDCard.remove_files_other (sd : SDCard) (name other : List Nat) (h : other ≠ name) :
    (sd.remove name).files other = sd.files other := by
  simp [SDCard.remove, Function.update_noteq h]

theorem SDCard.put_put (sd : SDCard) (name : List Nat) (a b : List Nat) :
    (sd.put name a).put name b = sd.put name b := by
  simp [SDCard.put]

theorem SDCard.put_self (sd : SDCard) (name : List Nat) (cont : List Nat)
    (h : sd.files name = some cont) : sd.put name cont = sd := by
  cases sd with
  | mk files opens =>
    simp only [SDCard.put]
    simp only at h
    rw [← h, Function.update_eq_self]

/-- Writing at the end of a file, with every byte taken, appends. -/
theorem File.write_append (f : File) (sd : SDCard) (out buf : List Nat)
    (ho : f.isOpen = true) (hf : sd.files f.name = some out) (hp : f.pos = out.length) :
    f.write sd buf buf.length =
      ({ f with pos := (out ++ buf).length }, sd.put f.name (out ++ buf), buf.length) := by
  have hd : List.drop (out.length + buf.length) out = [] :=
    List.drop_eq_nil_of_le (Nat.le_add_right _ _)
  simp [File.write, ho, hf, hp, hd]

/-! ### The two loops of `saveConfig` -/

theorem Disks.passRun_append {σ : Type} (step : σ → Nat → σ × List Nat) (a b : List Nat) :
    ∀ st : σ, Disks.passRun step st (a ++ b) =
      ((Disks.passRun step (Disks.passRun step st a).1 b).1,
        (Disks.passRun step st a).2 ++ (Disks.passRun step (Disks.passRun step st a).1 b).2) := by
  induction a with
  | nil => intro st; simp [Disks.passRun]
  | cons t rest ih =>
    intro st
    simp only [List.cons_append, Disks.passRun, List.append_eq, ih, List.append_assoc]

/-- A loop of `saveConfig`, given as many rounds as bytes are left in its
input, runs its body over those bytes and appends what the body writes to the
output file. -/
theorem Disks.passLoop_run {σ : Type} (step : σ → Nat → σ × List Nat) (cont : List Nat)
    (l : List Nat) :
    ∀ (n : Nat) (st : σ) (file ofile : File) (sd : SDCard) (out : List Nat),
      file.isOpen = true → ofile.isOpen = true → file.name ≠ ofile.name →
      sd.files file.name = some cont → file.pos ≤ cont.length → cont.drop file.pos = l →
      l.length ≤ n → sd.files ofile.name = some out → ofile.pos = out.length →
      Disks.passLoop step n st file ofile sd =
        ((Disks.passRun step st l).1, { file with pos := cont.length },
          { ofile with pos := (out ++ (Disks.passRun step st l).2).length },
          sd.put ofile.name (out ++ (Disks.passRun step st l).2)) := by
  induction l with
  | nil =>
    intro n st file ofile sd out ho hoo hne hc hle hl _ hout hpos
    have hp : cont.length = file.pos := by
      have := congrArg List.length hl
      simp at this
      omega
    have hav : file.available sd = 0 := by
      simp [File.available, File.size, File.content, ho, hc]; omega
    have hm : Disks.passLoop step n st file ofile sd = (st, file, ofile, sd) := by
      cases n with
      | zero => rfl
      | succ k => simp only [Disks.passLoop, if_pos hav]
    rw [hm]
    simp only [Disks.passRun, List.append_nil]
    rw [sd.put_self ofile.name out hout, hp, ← hpos]
  | cons t rest ih =>
    intro n st file ofile sd out ho hoo hne hc hle hl hn hout hpos
    have hlen : file.pos + (rest.length + 1) = cont.length := by
      have := congrArg List.length hl
      simp at this
      omega
    obtain ⟨k, rfl⟩ : ∃ k, n = k + 1 := ⟨n - 1, by simp at hn; omega⟩
    have hav : file.available sd ≠ 0 := by
      simp [File.available, File.size, File.content, ho, hc]; omega
    have hlt : file.pos < cont.length := by omega
    have hget : cont[file.pos] = t := by
      have h1 : (cont.drop file.pos)[0]? = some t := by rw [hl]; simp
      rw [List.getElem?_drop] at h1
      simp only [Nat.add_zero] at h1
      rw [List.getElem?_eq_getElem hlt] at h1
      exact Option.some.inj h1
    have hread : file.read sd = ({ file with pos := file.pos + 1 }, t) := by
      simp [File.read, File.size, File.content, ho, hc, hlt, hget]
    have hdrop : cont.drop (file.pos + 1) = rest := by
      have h1 : (cont.drop file.pos).drop 1 = rest := by rw [hl]; rfl
      rw [List.drop_drop] at h1
      rw [← h1, Nat.add_comm]
    have hw := File.write_append ofile sd out (step st t).2 hoo hout hpos
    simp only [Disks.passLoop, if_neg hav, hread, hw, Disks.passRun]
    rw [ih k (step st t).1 { file with pos := file.pos + 1 }
      { ofile with pos := (out ++ (step st t).2).length } (sd.put ofile.name (out ++ (step st t).2))
      (out ++ (step st t).2) ho hoo hne
      (by rw [SDCard.put_files_other _ _ _ _ hne]; exact hc) hlt hdrop (by simp at hn; omega)
      (SDCard.put_files_same _ _ _) rfl]
    simp only [SDCard.put_put, List.append_assoc]

theorem Disks.passRun_copy (l : List Nat) : Disks.passRun Disks.copyStep () l = ((), l) := by
  induction l with
  | nil => rfl
  | cons t rest ih => simp [Disks.passRun, ih, Disks.copyStep]

theorem SDCard.openFile_read (sd : SDCard) (name cont : List Nat)
    (hl : name.length ≤ FNAME_SIZE) (hf : sd.files name = some cont) :
    sd.openFile name FILE_READ true = (sd, { isOpen := true, name := name, pos := 0 }) := by
  simp [SDCard.openFile, hl, hf]

theorem SDCard.openFile_create (sd : SDCard) (name : List Nat)
    (hl : name.length ≤ FNAME_SIZE) (hf : sd.files name = none) :
    sd.openFile name FILE_WRITE true =
      (sd.put name [], { isOpen := true, name := name, pos := 0 }) := by
  simp [SDCard.openFile, hl, hf]

theorem SDCard.openFile_fails (sd : SDCard) (name : List Nat) (mode : OpenFlag) :
    sd.openFile name mode false = (sd, File.closed) := by
  simp [SDCard.openFile]

/-- With its four opens managed, `saveConfig` leaves the old content in the
backup file, and in the configuration file what the rewrite loop writes for
the old content followed by the lines for the drives not written. -/
theorem Disks.saveConfig_saved (ds : Disks) (m : DisksRest) (sd : SDCard) (cont : List Nat)
    (hne : m.configFileName ≠ CONFIG_BACKUP_FILE)
    (hlen : m.configFileName.length ≤ FNAME_SIZE)
    (hfile : sd.files m.configFileName = some cont) :
    (ds.saveConfig m sd true true true true).2.1.files m.configFileName =
        some ((Disks.passRun ds.saveStep SaveLocals.start cont).2 ++
          ds.saveTail (Disks.passRun ds.saveStep SaveLocals.start cont).1.written) ∧
      (ds.saveConfig m sd true true true true).2.1.files CONFIG_BACKUP_FILE = some cont ∧
      ∀ n, n ≠ m.configFileName → n ≠ CONFIG_BACKUP_FILE →
        (ds.saveConfig m sd true true true true).2.1.files n = sd.files n := by
  have hbl : CONFIG_BACKUP_FILE.length ≤ FNAME_SIZE := by decide
  have hne2 : CONFIG_BACKUP_FILE ≠ m.configFileName := fun h => hne h.symm
  have h1 := SDCard.openFile_read (sd.remove CONFIG_BACKUP_FILE) m.configFileName cont hlen
    (by rw [SDCard.remove_files_other _ _ _ hne]; exact hfile)
  have h2 := SDCard.openFile_create (sd.remove CONFIG_BACKUP_FILE) CONFIG_BACKUP_FILE hbl
    (SDCard.remove_files_same _ _)
  have hav1 : ({ isOpen := true, name := m.configFileName, pos := 0 } : File).available
      ((sd.remove CONFIG_BACKUP_FILE).put CONFIG_BACKUP_FILE []) = cont.length := by
    simp [File.available, File.size, File.content, SDCard.put_files_other _ _ _ _ hne,
      SDCard.remove_files_other _ _ _ hne, hfile]
  have hp1 := Disks.passLoop_run Disks.copyStep cont cont cont.length ()
    { isOpen := true, name := m.configFileName, pos := 0 }
    { isOpen := true, name := CONFIG_BACKUP_FILE, pos := 0 }
    ((sd.remove CONFIG_BACKUP_FILE).put CONFIG_BACKUP_FILE []) [] rfl rfl hne
    (by rw [SDCard.put_files_other _ _ _ _ hne, SDCard.remove_files_other _ _ _ hne]; exact hfile)
    (Nat.zero_le _) rfl (Nat.le_refl _) (SDCard.put_files_same _ _ _) rfl
  simp only [Disks.passRun_copy, List.nil_append, SDCard.put_put] at hp1
  have h3 := SDCard.openFile_read
    (((sd.remove CONFIG_BACKUP_FILE).put CONFIG_BACKUP_FILE cont).remove m.configFileName)
    CONFIG_BACKUP_FILE cont hbl
    (by rw [SDCard.remove_files_other _ _ _ hne2]; exact SDCard.put_files_same _ _ _)
  have h4 := SDCard.openFile_create
    (((sd.remove CONFIG_BACKUP_FILE).put CONFIG_BACKUP_FILE cont).remove m.configFileName)
    m.configFileName hlen (SDCard.remove_files_same _ _)
  have hav3 : ({ isOpen := true, name := CONFIG_BACKUP_FILE, pos := 0 } : File).available
      ((((sd.remove CONFIG_BACKUP_FILE).put CONFIG_BACKUP_FILE cont).remove
        m.configFileName).put m.configFileName []) = cont.length := by
    simp [File.available, File.size, File.content, SDCard.put_files_other _ _ _ _ hne2,
      SDCard.remove_files_other _ _ _ hne2, SDCard.put_files_same]
  have hp3 := Disks.passLoop_run ds.saveStep cont cont cont.length SaveLocals.start
    { isOpen := true, name := CONFIG_BACKUP_FILE, pos := 0 }
    { isOpen := true, name := m.configFileName, pos := 0 }
    ((((sd.remove CONFIG_BACKUP_FILE).put CONFIG_BACKUP_FILE cont).remove
      m.configFileName).put m.configFileName []) [] rfl rfl hne2
    (by rw [SDCard.put_files_other _ _ _ _ hne2, SDCard.remove_files_other _ _ _ hne2]
        exact SDCard.put_files_same _ _ _)
    (Nat.zero_le _) rfl (Nat.le_refl _) (SDCard.put_files_same _ _ _) rfl
  simp only [List.nil_append, SDCard.put_put] at hp3
  have hw := File.write_append
    { isOpen := true, name := m.configFileName,
      pos := (Disks.passRun ds.saveStep SaveLocals.start cont).2.length }
    ((((sd.remove CONFIG_BACKUP_FILE).put CONFIG_BACKUP_FILE cont).remove
      m.configFileName).put m.configFileName (Disks.passRun ds.saveStep SaveLocals.start cont).2)
    (Disks.passRun ds.saveStep SaveLocals.start cont).2
    (ds.saveTail (Disks.passRun ds.saveStep SaveLocals.start cont).1.written)
    rfl (SDCard.put_files_same _ _ _) rfl
  simp only [SDCard.put_put] at hw
  have hstart :
      ({ state := STATE_NEWLINE, d := MAX_DISKS,
         written := List.replicate MAX_DISKS 0 } : SaveLocals) = SaveLocals.start := rfl
  have hsave : (ds.saveConfig m sd true true true true).2.1 =
      (((sd.remove CONFIG_BACKUP_FILE).put CONFIG_BACKUP_FILE cont).remove
        m.configFileName).put m.configFileName
        ((Disks.passRun ds.saveStep SaveLocals.start cont).2 ++
          ds.saveTail (Disks.passRun ds.saveStep SaveLocals.start cont).1.written) := by
    simp only [Disks.saveConfig, h1, h2, hav1, hp1, h3, h4, hav3, hstart, hp3, hw]
    simp
  rw [hsave]
  refine ⟨SDCard.put_files_same _ _ _, ?_, ?_⟩
  · rw [SDCard.put_files_other _ _ _ _ hne2, SDCard.remove_files_other _ _ _ hne2]
    exact SDCard.put_files_same _ _ _
  · intro n hn1 hn2
    rw [SDCard.put_files_other _ _ _ _ hn1, SDCard.remove_files_other _ _ _ hn1,
      SDCard.put_files_other _ _ _ _ hn2, SDCard.remove_files_other _ _ _ hn2]

/-! ### The rewrite loop, line by line -/

theorem Disks.passRun_cons {σ : Type} (step : σ → Nat → σ × List Nat) (st : σ) (t : Nat)
    (rest : List Nat) :
    Disks.passRun step st (t :: rest) =
      ((Disks.passRun step (step st t).1 rest).1,
        (step st t).2 ++ (Disks.passRun step (step st t).1 rest).2) := rfl

theorem Disks.saveStep_skip (ds : Disks) (st : SaveLocals) (key : Nat)
    (hs : st.state = STATE_SKIP_LINE) :
    ds.saveStep st key = (if key = 0x0a then { st with state := STATE_NEWLINE } else st, []) := by
  unfold Disks.saveStep; rw [hs]

theorem Disks.saveStep_copy (ds : Disks) (st : SaveLocals) (key : Nat)
    (hs : st.state = STATE_COPY_LINE) :
    ds.saveStep st key =
      (if key = 0x0a then { st with state := STATE_NEWLINE } else st, [key]) := by
  unfold Disks.saveStep; rw [hs]

theorem Disks.saveStep_other (ds : Disks) (st : SaveLocals) (key : Nat)
    (hs : st.state = STATE_NEWLINE) (hk : ¬ (0x30 ≤ key ∧ key ≤ 0x33)) :
    ds.saveStep st key = ({ st with state := STATE_COPY_LINE }, [key]) := by
  unfold Disks.saveStep; rw [hs]
  have h : ¬ (0x30 ≤ key ∧ key < MAX_DISKS + 0x30) := by unfold MAX_DISKS; omega
  simp only [if_neg h]

theorem Disks.saveStep_digit (ds : Disks) (st : SaveLocals) (key : Nat)
    (hs : st.state = STATE_NEWLINE) (hk : 0x30 ≤ key ∧ key ≤ 0x33) :
    ds.saveStep st key =
      if (ds.slot (key - 0x30)).isOpen = true then
        ({ st with d := key - 0x30, written := st.written.set (key - 0x30) 1,
                   state := STATE_SKIP_LINE }, ds.configLine (key - 0x30))
      else ({ st with d := key - 0x30, state := STATE_SKIP_LINE }, []) := by
  unfold Disks.saveStep; rw [hs]
  have h : 0x30 ≤ key ∧ key < MAX_DISKS + 0x30 := by unfold MAX_DISKS; omega
  simp only [if_pos h]

/-- In `STATE_SKIP_LINE` characters other than the newline are dropped. -/
theorem Disks.passRun_skip (ds : Disks) (st : SaveLocals) (text : List Nat)
    (hs : st.state = STATE_SKIP_LINE) (hn : 0x0a ∉ text) :
    Disks.passRun ds.saveStep st text = (st, []) := by
  induction text with
  | nil => rfl
  | cons t rest ih =>
    have ht : t ≠ 0x0a := fun h => hn (by simp [h])
    rw [Disks.passRun_cons, ds.saveStep_skip st t hs]
    simp only [if_neg ht]
    rw [ih (fun h => hn (by simp [h]))]
    rfl

/-- In `STATE_COPY_LINE` characters other than the newline are copied. -/
theorem Disks.passRun_copyLine (ds : Disks) (st : SaveLocals) (text : List Nat)
    (hs : st.state = STATE_COPY_LINE) (hn : 0x0a ∉ text) :
    Disks.passRun ds.saveStep st text = (st, text) := by
  induction text with
  | nil => rfl
  | cons t rest ih =>
    have ht : t ≠ 0x0a := fun h => hn (by simp [h])
    rw [Disks.passRun_cons, ds.saveStep_copy st t hs]
    simp only [if_neg ht]
    rw [ih (fun h => hn (by simp [h]))]
    rfl

/-- A line read in `STATE_COPY_LINE` is copied with its newline, and the next
line starts in `STATE_NEWLINE`. -/
theorem Disks.passRun_copied (ds : Disks) (st : SaveLocals) (line : List Nat)
    (hs : st.state = STATE_COPY_LINE) (hn : 0x0a ∉ line) :
    Disks.passRun ds.saveStep st (line ++ [0x0a]) =
      ({ st with state := STATE_NEWLINE }, line ++ [0x0a]) := by
  rw [Disks.passRun_append, Disks.passRun_copyLine ds st line hs hn, Disks.passRun_cons,
    ds.saveStep_copy st 0x0a hs]
  simp [Disks.passRun]

/-- A line read in `STATE_SKIP_LINE` is dropped with its newline, and the next
line starts in `STATE_NEWLINE`. -/
theorem Disks.passRun_skipped (ds : Disks) (st : SaveLocals) (line : List Nat)
    (hs : st.state = STATE_SKIP_LINE) (hn : 0x0a ∉ line) :
    Disks.passRun ds.saveStep st (line ++ [0x0a]) = ({ st with state := STATE_NEWLINE }, []) := by
  rw [Disks.passRun_append, Disks.passRun_skip ds st line hs hn, Disks.passRun_cons,
    ds.saveStep_skip st 0x0a hs]
  simp [Disks.passRun]

/-- A line that is not empty, read in `STATE_NEWLINE` with what ends it (its
newline, or nothing for the end of the file): what is written is what the
description of the save gives for it, and the drive of an open slot is marked
written. -/
theorem Disks.passRun_line (ds : Disks) (st : SaveLocals) (line ending : List Nat)
    (hs : st.state = STATE_NEWLINE) (hline : line ≠ [] ∨ ending = [])
    (hn : 0x0a ∉ line) (hend : ending = [0x0a] ∨ ending = []) :
    ∃ st1, Disks.passRun ds.saveStep st (line ++ ending) = (st1, ds.savedLine line ending) ∧
      (ending = [0x0a] → st1.state = STATE_NEWLINE) ∧
      st1.written = (if driveLine line = true ∧ (ds.slot (line.headD 0 - 0x30)).isOpen = true
        then st.written.set (line.headD 0 - 0x30) 1 else st.written) := by
  cases line with
  | nil =>
    have he : ending = [] := by
      rcases hline with h | h
      · exact absurd rfl h
      · exact h
    subst he
    exact ⟨st, by simp [Disks.passRun, Disks.savedLine, driveLine], by simp, by simp [driveLine]⟩
  | cons key body =>
    have hbody : 0x0a ∉ body := fun h => hn (by simp [h])
    by_cases hk : 0x30 ≤ key ∧ key ≤ 0x33
    · have hd : driveLine (key :: body) = true := by simp [driveLine, hk]
      by_cases ho : (ds.slot (key - 0x30)).isOpen = true
      · rcases hend with rfl | rfl
        · refine ⟨{ st with state := STATE_NEWLINE, d := key - 0x30,
                              written := (st.written.set (key - 0x30) 1) }, ?_, fun _ => rfl, ?_⟩
          · rw [List.cons_append, Disks.passRun_cons, ds.saveStep_digit st key hs hk, if_pos ho]
            simp only []
            rw [Disks.passRun_skipped ds _ body rfl hbody]
            simp [Disks.savedLine, hd, ho]
          · simp [hd, ho]
        · refine ⟨{ st with state := STATE_SKIP_LINE, d := key - 0x30,
                              written := (st.written.set (key - 0x30) 1) }, ?_,
            fun h => by simp at h, ?_⟩
          · rw [List.append_nil, Disks.passRun_cons, ds.saveStep_digit st key hs hk, if_pos ho]
            simp only []
            rw [Disks.passRun_skip ds _ body rfl hbody]
            simp [Disks.savedLine, hd, ho]
          · simp [hd, ho]
      · rcases hend with rfl | rfl
        · refine ⟨{ st with d := key - 0x30, state := STATE_NEWLINE }, ?_, fun _ => rfl, ?_⟩
          · rw [List.cons_append, Disks.passRun_cons, ds.saveStep_digit st key hs hk, if_neg ho]
            simp only []
            rw [Disks.passRun_skipped ds _ body rfl hbody]
            simp [Disks.savedLine, hd, ho]
          · simp [hd, ho]
        · refine ⟨{ st with d := key - 0x30, state := STATE_SKIP_LINE }, ?_,
            fun h => by simp at h, ?_⟩
          · rw [List.append_nil, Disks.passRun_cons, ds.saveStep_digit st key hs hk, if_neg ho]
            simp only []
            rw [Disks.passRun_skip ds _ body rfl hbody]
            simp [Disks.savedLine, hd, ho]
          · simp [hd, ho]
    · have hd : driveLine (key :: body) = false := by simp [driveLine, hk]
      rcases hend with rfl | rfl
      · refine ⟨{ st with state := STATE_NEWLINE }, ?_, fun _ => rfl, ?_⟩
        · rw [List.cons_append, Disks.passRun_cons, ds.saveStep_other st key hs hk]
          simp only []
          rw [Disks.passRun_copied ds _ body rfl hbody]
          simp [Disks.savedLine, hd]
        · simp [hd]
      · refine ⟨{ st with state := STATE_COPY_LINE }, ?_, fun h => by simp at h, ?_⟩
        · rw [List.append_nil, Disks.passRun_cons, ds.saveStep_other st key hs hk]
          simp only []
          rw [Disks.passRun_copyLine ds _ body rfl hbody]
          simp [Disks.savedLine, hd]
        · simp [hd]

theorem configName_ne_backup (which : Nat) : configName which ≠ CONFIG_BACKUP_FILE := by
  unfold configName
  split_ifs <;> decide

/-! ### What is saved -/

/-- After an empty line the rewrite loop is in `STATE_COPY_LINE`, so the line
that follows is copied even when it is a drive line: saving the file made of
an empty line and `0:A.DSK` with drive 0 open on `A.DSK` keeps the old line
and appends a generated one for drive 0. -/
theorem Disks.saveConfig_after_empty_line :
    (Disks.sample.saveConfig (DisksRest.fresh.atStart 0)
        (SDCard.withConfig (textOf [[], [0x30, 0x3a] ++ nameA] []))
        true true true true).2.1.files CONFIG_FILE =
      some ([0x0a] ++ ([0x30, 0x3a] ++ nameA ++ [0x0a]) ++ ([0x30, 0x3a] ++ nameA ++ [0x0d, 0x0a]) ++
        ([0x31, 0x3a] ++ nameA ++ [0x0d, 0x0a])) := by
  rfl

/-- The lines of any file, read by the rewrite loop from a state other than
`STATE_SKIP_LINE`: what is written is made of one piece per line, in order,
and the piece of a line that is not a drive line is the line itself. -/
theorem Disks.passRun_kept (ds : Disks) (lines : List (List Nat))
    (hnl : ∀ l ∈ lines, 0x0a ∉ l) :
    ∀ st : SaveLocals, st.state ≠ STATE_SKIP_LINE →
      ∃ st1 pieces, Disks.passRun ds.saveStep st (textOf lines []) = (st1, pieces.flatten) ∧
        st1.state ≠ STATE_SKIP_LINE ∧
        List.Forall₂ (fun line piece => driveLine line = false → piece = line ++ [0x0a])
          lines pieces := by
  induction lines with
  | nil =>
    intro st hs
    exact ⟨st, [], by simp [textOf, Disks.passRun], hs, List.Forall₂.nil⟩
  | cons l ls ih =>
    intro st hs
    have hl : 0x0a ∉ l := hnl l (by simp)
    have htext : textOf (l :: ls) [] = (l ++ [0x0a]) ++ textOf ls [] := by
      simp [textOf]
    have step : ∃ st1 piece, Disks.passRun ds.saveStep st (l ++ [0x0a]) = (st1, piece) ∧
        st1.state ≠ STATE_SKIP_LINE ∧ (driveLine l = false → piece = l ++ [0x0a]) := by
      cases hst : st.state with
      | STATE_SKIP_LINE => exact absurd hst hs
      | STATE_COPY_LINE =>
        exact ⟨_, _, ds.passRun_copied st l hst hl, by simp, fun _ => rfl⟩
      | STATE_NEWLINE =>
        cases l with
        | nil =>
          refine ⟨{ st with state := STATE_COPY_LINE }, [0x0a], ?_, by simp, fun _ => rfl⟩
          rw [List.nil_append, Disks.passRun_cons,
            ds.saveStep_other st 0x0a hst (by decide)]
          rfl
        | cons key body =>
          obtain ⟨st1, h1, h2, _⟩ := ds.passRun_line st (key :: body) [0x0a] hst
            (Or.inl (by simp)) hl (Or.inl rfl)
          refine ⟨st1, _, h1, by rw [h2 rfl]; simp, ?_⟩
          intro hd
          simp [Disks.savedLine, hd]
    obtain ⟨st1, piece, h1, h2, h3⟩ := step
    obtain ⟨st2, pieces, k1, k2, k3⟩ := ih (fun x hx => hnl x (by simp [hx])) st1 h2
    refine ⟨st2, piece :: pieces, ?_, k2, List.Forall₂.cons h3 k3⟩
    rw [htext, Disks.passRun_append, h1]
    simp only []
    rw [k1]
    simp

/-- C25: with its four opens managed, `saveConfig` leaves comment lines
untouched, for every original file: the saved file is made of one piece per
line of the original file, in the order of the lines, followed by the lines
appended at the end, and the piece of each line whose first character is not
a drive digit 0..3 (a line beginning with `#` is one) is the line itself
with its newline, byte for byte; so these lines keep their relative order. -/
theorem C25_other_lines_kept (ds : Disks) (m : DisksRest) (sd : SDCard) (which : Nat)
    (lines : List (List Nat)) (last : List Nat)
    (_hslots : ds.disks.length = MAX_DISKS) (hname : m.configFileName = configName which)
    (hnl : ∀ l ∈ lines, 0x0a ∉ l) (hlast : 0x0a ∉ last)
    (hfile : sd.files m.configFileName = some (textOf lines last)) :
    ∃ pieces piece appended,
      (ds.saveConfig m sd true true true true).2.1.files m.configFileName =
          some (pieces.flatten ++ piece ++ appended) ∧
        List.Forall₂ (fun line p => driveLine line = false → p = line ++ [0x0a]) lines pieces ∧
        (driveLine last = false → piece = last) ∧
        ∀ text, driveLine (0x23 :: text) = false := by
  have h := (ds.saveConfig_saved m sd (textOf lines last)
    (by rw [hname]; exact configName_ne_backup which)
    (by rw [hname]; exact configName_length which) hfile).1
  obtain ⟨st1, pieces, h1, h2, h3⟩ := ds.passRun_kept lines hnl SaveLocals.start (by decide)
  have hl : ∃ st2 piece, Disks.passRun ds.saveStep st1 last = (st2, piece) ∧
      (driveLine last = false → piece = last) := by
    cases hst : st1.state with
    | STATE_SKIP_LINE => exact absurd hst h2
    | STATE_COPY_LINE => exact ⟨_, _, ds.passRun_copyLine st1 last hst hlast, fun _ => rfl⟩
    | STATE_NEWLINE =>
      obtain ⟨st2, k1, _, _⟩ := ds.passRun_line st1 last [] hst (Or.inr rfl) hlast (Or.inr rfl)
      rw [List.append_nil] at k1
      refine ⟨st2, _, k1, ?_⟩
      intro hd
      simp [Disks.savedLine, hd]
  obtain ⟨st2, piece, k1, k2⟩ := hl
  have htext : textOf lines last = textOf lines [] ++ last := by simp [textOf]
  refine ⟨pieces, piece, ds.saveTail st2.written, ?_, h3, k2, fun _ => rfl⟩
  rw [h, htext, Disks.passRun_append, h1]
  simp only []
  rw [k1]

/-- C25, at the file `#A`, an empty line, `#0` and a last line `x` without
newline, saved by the sample drive set. -/
theorem C25_other_lines_kept_witness :
    Disks.sample.disks.length = MAX_DISKS ∧
      (DisksRest.fresh.atStart 0).configFileName = configName 0 ∧
      ∃ pieces piece appended,
        (Disks.sample.saveConfig (DisksRest.fresh.atStart 0)
          (SDCard.withConfig (textOf [[0x23, 0x41], [], [0x23, 0x30]] [0x78]))
          true true true true).2.1.files (DisksRest.fresh.atStart 0).configFileName =
            some (pieces.flatten ++ piece ++ appended) ∧
          List.Forall₂ (fun line p => driveLine line = false → p = line ++ [0x0a])
            [[0x23, 0x41], [], [0x23, 0x30]] pieces ∧
          (driveLine [0x78] = false → piece = [0x78]) ∧
          ∀ text, driveLine (0x23 :: text) = false :=
  ⟨rfl, rfl,
    C25_other_lines_kept Disks.sample (DisksRest.fresh.atStart 0)
      (SDCard.withConfig (textOf [[0x23, 0x41], [], [0x23, 0x30]] [0x78]))
      0 [[0x23, 0x41], [], [0x23, 0x30]] [0x78] rfl rfl (by simp) (by simp) rfl⟩

/-! ### The round trip, the open failures and the value returned -/

/-- C26 (refuted by the code): the file `0:A.DSK`, `1R:B.DSK` mounts drive 1
read-only; `saveConfig` right after writes `0:A.DSK`, `1:B.DSK` (it never
writes the flag), and `mountDefaults` on the saved file calls
`mount(1, B.DSK, false)`: drive 1 is then mounted read-write. -/
theorem C26_round_trip_loses_read_only :
    ∃ ds m, Disks.loadedAB = some (ds, m) ∧
      m.mountLog = [(0, nameA, false), (1, nameB, true)] ∧
      (ds.slot 1).isReadOnly = true ∧
      (ds.saveConfig m (SDCard.withConfig (ConfigLine.file linesAB))
          true true true true).2.1.files CONFIG_FILE =
        some ([0x30, 0x3a] ++ nameA ++ [0x0d, 0x0a] ++ ([0x31, 0x3a] ++ nameB ++ [0x0d, 0x0a])) ∧
      ∃ ds2 m2, Disks.fresh.mountDefaults DisksRest.fresh
          (ds.saveConfig m (SDCard.withConfig (ConfigLine.file linesAB)) true true true true).2.1
          false CONFIG_FILE_PRIMARY = some (ds2, m2) ∧
        m2.mountLog = [(0, nameA, false), (1, nameB, false)] ∧
        (ds2.slot 1).isMounted = true ∧ (ds2.slot 1).isReadOnly = false :=
  ⟨_, _, rfl, rfl, rfl, rfl, _, _, rfl, rfl, rfl, rfl⟩

theorem SDCard.openFile_read_card (sd : SDCard) (name : List Nat) (ok : Bool) :
    (sd.openFile name FILE_READ ok).1 = sd := by
  unfold SDCard.openFile
  split_ifs
  · cases sd.files name <;> rfl
  · rfl

/-- C27 (as stated, refuted): when the open of the new configuration file
fails in the rewrite pass, the configuration file is gone after the call: it
was removed before that open. -/
theorem C27_rewrite_open_failure_loses_primary :
    ∃ ds m, Disks.loadedAB = some (ds, m) ∧
      (SDCard.withConfig (ConfigLine.file linesAB)).files CONFIG_FILE =
        some (ConfigLine.file linesAB) ∧
      (ds.saveConfig m (SDCard.withConfig (ConfigLine.file linesAB))
          true true true false).2.1.files CONFIG_FILE = none :=
  ⟨_, _, rfl, rfl, rfl⟩

/-- C27 (amended): when an open of the copy pass fails, `saveConfig` aborts
and the configuration file is as it was before the call; when both opens of
the copy pass are managed and an open of the rewrite pass fails, the
configuration file has been removed (it is absent, or empty when its own
open was the one managed) and the backup file holds its content from before
the call. -/
theorem C27_open_failures (ds : Disks) (m : DisksRest) (sd : SDCard) (which : Nat)
    (cont : List Nat) (ok1 ok2 ok3 ok4 : Bool)
    (hname : m.configFileName = configName which)
    (hfile : sd.files m.configFileName = some cont) :
    ((ok1 = false ∨ ok2 = false) →
        (ds.saveConfig m sd ok1 ok2 ok3 ok4).2.1.files m.configFileName = some cont) ∧
      (ok1 = true → ok2 = true → (ok3 = false ∨ ok4 = false) →
        (ds.saveConfig m sd ok1 ok2 ok3 ok4).2.1.files CONFIG_BACKUP_FILE = some cont ∧
        (ds.saveConfig m sd ok1 ok2 ok3 ok4).2.1.files m.configFileName =
          if ok4 = true then some [] else none) := by
  have hne : m.configFileName ≠ CONFIG_BACKUP_FILE := by
    rw [hname]; exact configName_ne_backup which
  have hne2 : CONFIG_BACKUP_FILE ≠ m.configFileName := fun h => hne h.symm
  have hlen : m.configFileName.length ≤ FNAME_SIZE := by
    rw [hname]; exact configName_length which
  have hbl : CONFIG_BACKUP_FILE.length ≤ FNAME_SIZE := by decide
  have h1 := SDCard.openFile_read (sd.remove CONFIG_BACKUP_FILE) m.configFileName cont hlen
    (by rw [SDCard.remove_files_other _ _ _ hne]; exact hfile)
  have h2 := SDCard.openFile_create (sd.remove CONFIG_BACKUP_FILE) CONFIG_BACKUP_FILE hbl
    (SDCard.remove_files_same _ _)
  constructor
  · intro hok
    have hfail : (ds.saveConfig m sd ok1 ok2 ok3 ok4).2.1 =
        ((sd.remove CONFIG_BACKUP_FILE).openFile CONFIG_BACKUP_FILE FILE_WRITE ok2).1 := by
      rcases hok with rfl | rfl
      · simp [Disks.saveConfig, SDCard.openFile_fails, File.closed]
      · simp [Disks.saveConfig, SDCard.openFile_fails, File.closed, SDCard.openFile_read_card]
    rw [hfail]
    cases ok2
    · rw [SDCard.openFile_fails, SDCard.remove_files_other _ _ _ hne]; exact hfile
    · rw [h2, SDCard.put_files_other _ _ _ _ hne, SDCard.remove_files_other _ _ _ hne]
      exact hfile
  · intro hok1 hok2 hok
    subst hok1 hok2
    have hav1 : ({ isOpen := true, name := m.configFileName, pos := 0 } : File).available
        ((sd.remove CONFIG_BACKUP_FILE).put CONFIG_BACKUP_FILE []) = cont.length := by
      simp [File.available, File.size, File.content, SDCard.put_files_other _ _ _ _ hne,
        SDCard.remove_files_other _ _ _ hne, hfile]
    have hp1 := Disks.passLoop_run Disks.copyStep cont cont cont.length ()
      { isOpen := true, name := m.configFileName, pos := 0 }
      { isOpen := true, name := CONFIG_BACKUP_FILE, pos := 0 }
      ((sd.remove CONFIG_BACKUP_FILE).put CONFIG_BACKUP_FILE []) [] rfl rfl hne
      (by rw [SDCard.put_files_other _ _ _ _ hne, SDCard.remove_files_other _ _ _ hne]
          exact hfile)
      (Nat.zero_le _) rfl (Nat.le_refl _) (SDCard.put_files_same _ _ _) rfl
    simp only [Disks.passRun_copy, List.nil_append, SDCard.put_put] at hp1
    have hb : (((sd.remove CONFIG_BACKUP_FILE).put CONFIG_BACKUP_FILE cont).remove
        m.configFileName).files CONFIG_BACKUP_FILE = some cont := by
      rw [SDCard.remove_files_other _ _ _ hne2]; exact SDCard.put_files_same _ _ _
    have h3 := SDCard.openFile_read
      (((sd.remove CONFIG_BACKUP_FILE).put CONFIG_BACKUP_FILE cont).remove m.configFileName)
      CONFIG_BACKUP_FILE cont hbl hb
    have h4 := SDCard.openFile_create
      (((sd.remove CONFIG_BACKUP_FILE).put CONFIG_BACKUP_FILE cont).remove m.configFileName)
      m.configFileName hlen (SDCard.remove_files_same _ _)
    have hfail : (ds.saveConfig m sd true true ok3 ok4).2.1 =
        ((((sd.remove CONFIG_BACKUP_FILE).put CONFIG_BACKUP_FILE cont).remove
          m.configFileName).openFile m.configFileName FILE_WRITE ok4).1 := by
      cases ok4
      · simp [Disks.saveConfig, h1, h2, hav1, hp1, SDCard.openFile_fails, File.closed,
          SDCard.openFile_read_card]
      · have h3f : ok3 = false := by simpa using hok
        subst h3f
        simp [Disks.saveConfig, h1, h2, hav1, hp1, h4, SDCard.openFile_fails, File.closed]
    rw [hfail]
    cases ok4
    · rw [SDCard.openFile_fails]
      exact ⟨hb, by simpa using SDCard.remove_files_same _ _⟩
    · rw [h4]
      exact ⟨by rw [SDCard.put_files_other _ _ _ _ hne2]; exact hb,
        by simpa using SDCard.put_files_same _ _ _⟩

/-- C27 (amended), at the file `0:A.DSK`, `1R:B.DSK` with the open of the
backup failing in the rewrite pass: the configuration file is left empty and
the backup holds the old content. -/
theorem C27_open_failures_witness :
    (DisksRest.fresh.atStart 0).configFileName = configName 0 ∧
      (SDCard.withConfig (ConfigLine.file linesAB)).files
        (DisksRest.fresh.atStart 0).configFileName = some (ConfigLine.file linesAB) ∧
      (Disks.sample.saveConfig (DisksRest.fresh.atStart 0)
        (SDCard.withConfig (ConfigLine.file linesAB)) true true false true).2.1.files
          CONFIG_BACKUP_FILE = some (ConfigLine.file linesAB) ∧
      (Disks.sample.saveConfig (DisksRest.fresh.atStart 0)
        (SDCard.withConfig (ConfigLine.file linesAB)) true true false true).2.1.files
          (DisksRest.fresh.atStart 0).configFileName = if true = true then some [] else none :=
  ⟨rfl, rfl,
    (C27_open_failures Disks.sample (DisksRest.fresh.atStart 0)
      (SDCard.withConfig (ConfigLine.file linesAB)) 0 (ConfigLine.file linesAB)
      true true false true rfl rfl).2 rfl rfl (Or.inl rfl)⟩

/-- C28 (refuted by the code): `saveConfig` returns false on every path,
also when it has saved: after the default mounts from `0:A.DSK`, `1R:B.DSK`,
with its four opens managed, it writes the new configuration file and
returns false. -/
theorem C28_returns_false_after_saving :
    (∀ (ds : Disks) (m : DisksRest) (sd : SDCard) (ok1 ok2 ok3 ok4 : Bool),
        (ds.saveConfig m sd ok1 ok2 ok3 ok4).2.2 = false) ∧
      ∃ ds m, Disks.loadedAB = some (ds, m) ∧
        (ds.saveConfig m (SDCard.withConfig (ConfigLine.file linesAB))
            true true true true).2.1.files CONFIG_FILE =
          some ([0x30, 0x3a] ++ nameA ++ [0x0d, 0x0a] ++ ([0x31, 0x3a] ++ nameB ++ [0x0d, 0x0a])) ∧
        (ds.saveConfig m (SDCard.withConfig (ConfigLine.file linesAB))
            true true true true).2.1.files CONFIG_BACKUP_FILE = some (ConfigLine.file linesAB) ∧
        (ds.saveConfig m (SDCard.withConfig (ConfigLine.file linesAB))
            true true true true).2.2 = false := by
  constructor
  · intro ds m sd ok1 ok2 ok3 ok4
    unfold Disks.saveConfig
    simp only []
    split_ifs <;> rfl
  · exact ⟨_, _, rfl, rfl, rfl, rfl⟩

/-! ### The card put back -/

theorem Event.bytesFrom_zero (e : Event) (start : Nat) : e.bytesFrom start 0 = [] := rfl

theorem Event.bytesFrom_succ (e : Event) (start n : Nat) :
    e.bytesFrom start (n + 1) = (e.getData start % 256) :: e.bytesFrom (start + 1) n := by
  simp only [Event.bytesFrom, List.range_succ_eq_map, List.map_cons, List.map_map, Nat.add_zero]
  congr 1
  apply List.map_congr_left
  intro i _
  simp only [Function.comp, Nat.succ_eq_add_one]
  congr 2
  omega

theorem Event.length_bytesFrom (e : Event) (start n : Nat) : (e.bytesFrom start n).length = n := by
  simp [Event.bytesFrom]

theorem Event.peek_lt (e : Event) (i : Nat) (h : i < BUFFER_SIZE) :
    e.peek i = some (e.getData i % 256) := by
  simp [Event.peek, h]

/-- The loop `while (n--) writeByte(*dptr++)` inside the array writes the `n`
bytes from the position of `dptr` on. -/
theorem Link.writeBytes_spec (e : Event) (n : Nat) :
    ∀ (i : Nat) (l : Link), i + n ≤ BUFFER_SIZE →
      Link.writeBytes e n i l = some { l with wire := l.wire ++ e.bytesFrom i n } := by
  induction n with
  | zero =>
    intro i l _
    simp [Link.writeBytes, Event.bytesFrom]
  | succ n ih =>
    intro i l h
    rw [Link.writeBytes, Event.peek_lt e i (by omega)]
    simp only []
    rw [ih (i + 1) _ (by omega), Event.bytesFrom_succ]
    simp [Link.writeByte]

/-- The loop `while (*dptr) writeByte(*dptr++)` on `k` bytes other than zero
followed by a zero inside the array writes the `k` bytes. -/
theorem Link.writeUntilZero_spec (e : Event) (k : Nat) :
    ∀ (fuel i : Nat) (l : Link), k < fuel → i + k < BUFFER_SIZE →
      (∀ j, j < k → e.getData (i + j) % 256 ≠ 0) → e.getData (i + k) % 256 = 0 →
      Link.writeUntilZero e fuel i l = some { l with wire := l.wire ++ e.bytesFrom i k } := by
  induction k with
  | zero =>
    intro fuel i l hf hi _ hz
    obtain ⟨f, rfl⟩ : ∃ f, fuel = f + 1 := ⟨fuel - 1, by omega⟩
    rw [Link.writeUntilZero, Event.peek_lt e i (by omega)]
    simp only [Nat.add_zero] at hz
    simp [hz, Event.bytesFrom]
  | succ k ih =>
    intro fuel i l hf hi hnz hz
    obtain ⟨f, rfl⟩ : ∃ f, fuel = f + 1 := ⟨fuel - 1, by omega⟩
    have h0 : e.getData i % 256 ≠ 0 := by simpa using hnz 0 (by omega)
    rw [Link.writeUntilZero, Event.peek_lt e i (by omega)]
    simp only [if_pos h0]
    rw [ih f (i + 1) _ (by omega) (by omega)
      (fun j hj => by have := hnz (j + 1) (by omega); rwa [show i + (j + 1) = i + 1 + j by omega] at this)
      (by rwa [show i + (k + 1) = i + 1 + k by omega] at hz), Event.bytesFrom_succ]
    simp [Link.writeByte]

/-- The loop `do writeByte(*dptr); while (*dptr++);` on `k` bytes other than
zero followed by a zero inside the array writes the `k` bytes and the zero. -/
theorem Link.writeThroughZero_spec (e : Event) (k : Nat) :
    ∀ (fuel i : Nat) (l : Link), k < fuel → i + k < BUFFER_SIZE →
      (∀ j, j < k → e.getData (i + j) % 256 ≠ 0) → e.getData (i + k) % 256 = 0 →
      Link.writeThroughZero e fuel i l =
        some { l with wire := l.wire ++ (e.bytesFrom i k ++ [0]) } := by
  induction k with
  | zero =>
    intro fuel i l hf hi _ hz
    obtain ⟨f, rfl⟩ : ∃ f, fuel = f + 1 := ⟨fuel - 1, by omega⟩
    rw [Link.writeThroughZero, Event.peek_lt e i (by omega)]
    simp only [Nat.add_zero] at hz
    simp [hz, Event.bytesFrom, Link.writeByte]
  | succ k ih =>
    intro fuel i l hf hi hnz hz
    obtain ⟨f, rfl⟩ : ∃ f, fuel = f + 1 := ⟨fuel - 1, by omega⟩
    have h0 : e.getData i % 256 ≠ 0 := by simpa using hnz 0 (by omega)
    rw [Link.writeThroughZero, Event.peek_lt e i (by omega)]
    simp only [if_pos h0]
    rw [ih f (i + 1) _ (by omega) (by omega)
      (fun j hj => by have := hnz (j + 1) (by omega); rwa [show i + (j + 1) = i + 1 + j by omega] at this)
      (by rwa [show i + (k + 1) = i + 1 + k by omega] at hz), Event.bytesFrom_succ]
    simp [Link.writeByte]

/-- C31: once the host has released the bus, `sendEvent` writes for the kinds
of fixed length exactly these bytes and nothing else: ACK gives `0x82`; NAK
gives `0x83` and the first byte of the message buffer; directory-end gives
`0x91`; disk-status gives `0x93` and the first byte of the buffer; clock-data
gives `0x87` and the first eight bytes of the buffer, in order (9 bytes). -/
theorem C31_fixed_length_replies (l : Link) (getSectorSize : Nat → Nat) (a : Nat) :
    ((l.heap a).getType = EVT_ACK →
        (l.sendEvent getSectorSize (some a)).map Link.wire = some (l.wire ++ [0x82])) ∧
      ((l.heap a).getType = EVT_NAK →
        (l.sendEvent getSectorSize (some a)).map Link.wire =
          some (l.wire ++ [0x83, (l.heap a).getData 0 % 256])) ∧
      ((l.heap a).getType = EVT_DIR_END →
        (l.sendEvent getSectorSize (some a)).map Link.wire = some (l.wire ++ [0x91])) ∧
      ((l.heap a).getType = EVT_DISK_STATUS →
        (l.sendEvent getSectorSize (some a)).map Link.wire =
          some (l.wire ++ [0x93, (l.heap a).getData 0 % 256])) ∧
      ((l.heap a).getType = EVT_CLOCK_DATA →
        (l.sendEvent getSectorSize (some a)).map Link.wire =
            some (l.wire ++ 0x87 :: (l.heap a).bytesFrom 0 8) ∧
          (0x87 :: (l.heap a).bytesFrom 0 8).length = 9) := by
  have hp0 : (l.heap a).peek 0 = some ((l.heap a).getData 0 % 256) :=
    Event.peek_lt _ 0 (by decide)
  refine ⟨?_, ?_, ?_, ?_, ?_⟩
  · intro h
    simp [Link.sendEvent, h, Link.writeByte, Link.prepareWrite, Link.prepareRead,
      Link.uiSendEvent, Link.freeAnEvent]
  · intro h
    simp [Link.sendEvent, h, hp0, Link.writeByte, Link.prepareWrite, Link.prepareRead,
      Link.uiSendEvent, Link.freeAnEvent]
  · intro h
    simp [Link.sendEvent, h, Link.writeByte, Link.prepareWrite, Link.prepareRead,
      Link.uiSendEvent, Link.freeAnEvent]
  · intro h
    simp [Link.sendEvent, h, hp0, Link.writeByte, Link.prepareWrite, Link.prepareRead,
      Link.uiSendEvent, Link.freeAnEvent]
  · intro h
    have hw := Link.writeBytes_spec (l.heap a) 8 0 (l.prepareWrite.writeByte PROTO_CLOCK_DATA)
      (by decide)
    refine ⟨?_, by simp [Event.length_bytesFrom]⟩
    simp [Link.writeByte, Link.prepareWrite] at hw
    simp [Link.sendEvent, h, hw, Link.writeByte, Link.prepareWrite, Link.prepareRead,
      Link.uiSendEvent, Link.freeAnEvent]

/-- C31, at a NAK message with reason `0x0b` and at a clock-data message
holding the bytes 1 to 8. -/
theorem C31_fixed_length_replies_witness :
    (Link.carrying (Event.holding EVT_NAK [0x0b])).heap 1 = Event.holding EVT_NAK [0x0b] ∧
      ((Link.carrying (Event.holding EVT_NAK [0x0b])).sendEvent sectorSizeOfCode (some 1)).map
          Link.wire = some [0x83, 0x0b] ∧
      ((Link.carrying (Event.holding EVT_CLOCK_DATA [1, 2, 3, 4, 5, 6, 7, 8])).sendEvent
          sectorSizeOfCode (some 1)).map Link.wire = some [0x87, 1, 2, 3, 4, 5, 6, 7, 8] :=
  ⟨rfl,
    (C31_fixed_length_replies (Link.carrying (Event.holding EVT_NAK [0x0b])) sectorSizeOfCode
      1).2.1 rfl,
    ((C31_fixed_length_replies (Link.carrying (Event.holding EVT_CLOCK_DATA [1, 2, 3, 4, 5, 6, 7, 8]))
      sectorSizeOfCode 1).2.2.2.2 rfl).1⟩

/-- C32: for a FILE_DATA message whose first buffer byte is `N`, once the
host has released the bus, `sendEvent` writes exactly `2 + N` bytes: `0x92`,
then `N`, then the `N` buffer bytes that follow the length byte, in order;
for `N = 0` exactly `0x92`, `0x00`. -/
theorem C32_file_data_reply (l : Link) (getSectorSize : Nat → Nat) (a N : Nat)
    (hkind : (l.heap a).getType = EVT_FILE_DATA) (hN : (l.heap a).getData 0 % 256 = N) :
    (l.sendEvent getSectorSize (some a)).map Link.wire =
        some (l.wire ++ 0x92 :: N :: (l.heap a).bytesFrom 1 N) ∧
      (0x92 :: N :: (l.heap a).bytesFrom 1 N).length = 2 + N ∧
      (N = 0 → (l.sendEvent getSectorSize (some a)).map Link.wire = some (l.wire ++ [0x92, 0x00])) := by
  have hlt : N < 256 := by rw [← hN]; exact Nat.mod_lt _ (by decide)
  have hp0 : (l.heap a).peek 0 = some N := by rw [Event.peek_lt _ 0 (by decide), hN]
  have hw := Link.writeBytes_spec (l.heap a) N 1
    ((l.prepareWrite.writeByte PROTO_FILE_DATA).writeByte N) (by unfold BUFFER_SIZE; omega)
  have key : (l.sendEvent getSectorSize (some a)).map Link.wire =
      some (l.wire ++ 0x92 :: N :: (l.heap a).bytesFrom 1 N) := by
    simp [Link.writeByte, Link.prepareWrite, Nat.mod_eq_of_lt hlt] at hw
    simp [Link.sendEvent, hkind, hp0, hw, Link.writeByte, Link.prepareWrite, Link.prepareRead,
      Link.uiSendEvent, Link.freeAnEvent, Nat.mod_eq_of_lt hlt]
  refine ⟨key, by simp [Event.length_bytesFrom]; omega, ?_⟩
  intro h0
  rw [key, h0]
  rfl

/-- C32, at the message holding the length 3 and the bytes `A`, `B`, `C`. -/
theorem C32_file_data_reply_witness :
    (Event.holding EVT_FILE_DATA [3, 0x41, 0x42, 0x43]).getType = EVT_FILE_DATA ∧
      (Event.holding EVT_FILE_DATA [3, 0x41, 0x42, 0x43]).getData 0 % 256 = 3 ∧
      ((Link.carrying (Event.holding EVT_FILE_DATA [3, 0x41, 0x42, 0x43])).sendEvent
          sectorSizeOfCode (some 1)).map Link.wire = some [0x92, 3, 0x41, 0x42, 0x43] :=
  ⟨rfl, rfl,
    (C32_file_data_reply (Link.carrying (Event.holding EVT_FILE_DATA [3, 0x41, 0x42, 0x43]))
      sectorSizeOfCode 1 3 rfl rfl).1⟩

/-- C33: for a message buffer holding a name of `k` bytes other than zero
followed by a zero, once the host has released the bus, `sendEvent` writes for
kind DIR_INFO exactly `0x90`, the `k` name bytes, then `0x00` (`k + 2` bytes);
and for kind MOUNTED with the buffer holding `d`, `r`, the name and the zero
exactly `0x95`, `d`, `r`, the name bytes, then `0x00`, with `d` and `r` sent
as they are, zero or not. -/
theorem C33_name_replies (l : Link) (getSectorSize : Nat → Nat) (a k : Nat) :
    ((l.heap a).getType = EVT_DIR_INFO → k < BUFFER_SIZE →
        (∀ j, j < k → (l.heap a).getData j % 256 ≠ 0) → (l.heap a).getData k % 256 = 0 →
        (l.sendEvent getSectorSize (some a)).map Link.wire =
            some (l.wire ++ 0x90 :: ((l.heap a).bytesFrom 0 k ++ [0x00])) ∧
          (0x90 :: ((l.heap a).bytesFrom 0 k ++ [0x00])).length = k + 2) ∧
      ((l.heap a).getType = EVT_MOUNTED → 2 + k < BUFFER_SIZE →
        (∀ j, j < k → (l.heap a).getData (2 + j) % 256 ≠ 0) →
        (l.heap a).getData (2 + k) % 256 = 0 →
        (l.sendEvent getSectorSize (some a)).map Link.wire =
          some (l.wire ++ 0x95 :: ((l.heap a).getData 0 % 256) :: ((l.heap a).getData 1 % 256) ::
            ((l.heap a).bytesFrom 2 k ++ [0x00]))) := by
  constructor
  · intro hkind hk hnz hz
    have hw := Link.writeThroughZero_spec (l.heap a) k (BUFFER_SIZE + 1) 0
      (l.prepareWrite.writeByte PROTO_DIR) (by omega) (by omega)
      (fun j hj => by rw [Nat.zero_add]; exact hnz j hj) (by rw [Nat.zero_add]; exact hz)
    refine ⟨?_, by simp [Event.length_bytesFrom]⟩
    simp [Link.writeByte, Link.prepareWrite] at hw
    simp [Link.sendEvent, hkind, hw, Link.writeByte, Link.prepareWrite, Link.prepareRead,
      Link.uiSendEvent, Link.freeAnEvent]
  · intro hkind hk hnz hz
    have hp0 : (l.heap a).peek 0 = some ((l.heap a).getData 0 % 256) :=
      Event.peek_lt _ 0 (by decide)
    have hp1 : (l.heap a).peek 1 = some ((l.heap a).getData 1 % 256) :=
      Event.peek_lt _ 1 (by decide)
    have hw := Link.writeUntilZero_spec (l.heap a) k (BUFFER_SIZE + 1) 2
      (((l.prepareWrite.writeByte PROTO_MOUNT_INFO).writeByte ((l.heap a).getData 0 % 256)).writeByte
        ((l.heap a).getData 1 % 256)) (by omega) hk hnz hz
    simp [Link.writeByte, Link.prepareWrite] at hw
    simp [Link.sendEvent, hkind, hp0, hp1, hw, Link.writeByte, Link.prepareWrite,
      Link.prepareRead, Link.uiSendEvent, Link.freeAnEvent]

/-- C33, at the name `AB` as a DIR_INFO message and at drive 0, flag 0, name
`B` as a MOUNTED message. -/
theorem C33_name_replies_witness :
    ((Link.carrying (Event.holding EVT_DIR_INFO [0x41, 0x42, 0])).sendEvent sectorSizeOfCode
          (some 1)).map Link.wire = some [0x90, 0x41, 0x42, 0x00] ∧
      ((Link.carrying (Event.holding EVT_MOUNTED [0, 0, 0x42, 0])).sendEvent sectorSizeOfCode
          (some 1)).map Link.wire = some [0x95, 0, 0, 0x42, 0x00] :=
  ⟨((C33_name_replies (Link.carrying (Event.holding EVT_DIR_INFO [0x41, 0x42, 0]))
      sectorSizeOfCode 1 2).1 rfl (by decide)
      (by intro j hj; interval_cases j <;> decide) (by decide)).1,
    (C33_name_replies (Link.carrying (Event.holding EVT_MOUNTED [0, 0, 0x42, 0]))
      sectorSizeOfCode 1 1).2 rfl (by decide)
      (by intro j hj; interval_cases j; decide) (by decide)⟩

set_option maxRecDepth 100000 in
/-- C34 (as stated, refuted): for a READ_SECTOR reply whose buffer holds the
size code 1 and then the bytes `0x42`, `0x43`, with a size function giving 128
for code 1, `sendEvent` writes 129 bytes, `0x94` and then the 128 buffer bytes
after the code: the byte after `0x94` is the first data byte `0x42`, not the
code. -/
theorem C34_size_code_not_sent :
    ((Link.carrying (Event.holding EVT_READ_SECTOR [1, 0x42, 0x43])).sendEvent sectorSizeOfCode
        (some 1)).map (fun l => (l.wire.length, l.wire.take 3)) =
      some (129, [0x94, 0x42, 0x43]) := by
  rfl

/-- C34 (amended): for a READ_SECTOR reply whose first buffer byte is the
sector-size code `c`, with the data inside the message buffer, once the host
has released the bus, `sendEvent` writes the sector-data command byte `0x94`
and then exactly `getSectorSize(c)` data bytes taken in order from the buffer
positions after the code; the code itself is not written. -/
theorem C34_sector_data_reply (l : Link) (getSectorSize : Nat → Nat) (a code : Nat)
    (hkind : (l.heap a).getType = EVT_READ_SECTOR)
    (hcode : (l.heap a).getData 0 % 256 = code)
    (hfits : 1 + getSectorSize code ≤ BUFFER_SIZE) :
    (l.sendEvent getSectorSize (some a)).map Link.wire =
        some (l.wire ++ 0x94 :: (l.heap a).bytesFrom 1 (getSectorSize code)) ∧
      (0x94 :: (l.heap a).bytesFrom 1 (getSectorSize code)).length = 1 + getSectorSize code := by
  have hp0 : (l.heap a).peek 0 = some code := by rw [Event.peek_lt _ 0 (by decide), hcode]
  have hmod : getSectorSize code % UINT_RANGE = getSectorSize code := by
    apply Nat.mod_eq_of_lt
    unfold BUFFER_SIZE at hfits
    unfold UINT_RANGE
    omega
  have hw := Link.writeBytes_spec (l.heap a) (getSectorSize code) 1
    (l.prepareWrite.writeByte PROTO_SECTOR_DATA) hfits
  refine ⟨?_, by simp [Event.length_bytesFrom]; omega⟩
  simp [Link.writeByte, Link.prepareWrite] at hw
  simp [Link.sendEvent, hkind, hp0, hmod, hw, Link.writeByte, Link.prepareWrite,
    Link.prepareRead, Link.uiSendEvent, Link.freeAnEvent]

/-- C34 (amended), at the reply holding the size code 1 and the bytes `0x42`,
`0x43`, with 128 bytes for code 1. -/
theorem C34_sector_data_reply_witness :
    (Event.holding EVT_READ_SECTOR [1, 0x42, 0x43]).getType = EVT_READ_SECTOR ∧
      (Event.holding EVT_READ_SECTOR [1, 0x42, 0x43]).getData 0 % 256 = 1 ∧
      1 + sectorSizeOfCode 1 ≤ BUFFER_SIZE ∧
      ((Link.carrying (Event.holding EVT_READ_SECTOR [1, 0x42, 0x43])).sendEvent sectorSizeOfCode
          (some 1)).map Link.wire =
        some ((Link.carrying (Event.holding EVT_READ_SECTOR [1, 0x42, 0x43])).wire ++
          0x94 :: (Event.holding EVT_READ_SECTOR [1, 0x42, 0x43]).bytesFrom 1 (sectorSizeOfCode 1)) :=
  ⟨rfl, rfl, by decide,
    (C34_sector_data_reply (Link.carrying (Event.holding EVT_READ_SECTOR [1, 0x42, 0x43]))
      sectorSizeOfCode 1 1 rfl rfl (by decide)).1⟩

/-! ### The direction of the bus -/

/-- C35 (as stated, refuted): on a reading of low `prepareWrite` switches the
data bus to output at once, and on a reading of high it goes on waiting and
does not switch. -/
theorem C35_switches_on_low_reading :
    (Link.initial.prepareWriteOn [false]).map (fun r => r.1.lowerDDR) = some LOWER_MASK ∧
      Link.initial.lowerDDR ≠ LOWER_MASK ∧
      (Link.initial.prepareWriteOn [true]).map (fun r => r.1.lowerDDR) = none := by
  decide

theorem Link.prepareWriteOn_high (l : Link) (k : Nat) (rest : List Bool) :
    l.prepareWriteOn (List.replicate k true ++ rest) = l.prepareWriteOn rest := by
  induction k with
  | zero => rfl
  | succ k ih => simp [List.replicate_succ, Link.prepareWriteOn, ih]

/-- C35 (amended): the bus-ownership line DIRECTION is high when the host
controls the bus and low when this side does: for every sequence of readings
of the line, `prepareWrite` goes on waiting upon each reading of high and
switches the data bus to output upon the first reading of low, never upon a
reading of high; while every reading is high it does not switch. -/
theorem C35_output_on_first_low (l : Link) (readings : List Bool) :
    (∀ (l1 : Link) (rest : List Bool), l.prepareWriteOn readings = some (l1, rest) ↔
        ∃ k, readings = List.replicate k true ++ false :: rest ∧ l1 = l.prepareWrite) ∧
      ((∀ r ∈ readings, r = true) → l.prepareWriteOn readings = none) := by
  constructor
  · intro l1 rest
    constructor
    · intro h
      induction readings with
      | nil => simp [Link.prepareWriteOn] at h
      | cons r rs ih =>
        cases r with
        | true =>
          simp only [Link.prepareWriteOn, if_true] at h
          obtain ⟨k, hk, hl⟩ := ih h
          exact ⟨k + 1, by rw [hk]; rfl, hl⟩
        | false =>
          simp only [Link.prepareWriteOn, Bool.false_eq_true, if_false, Option.some.injEq,
            Prod.mk.injEq] at h
          exact ⟨0, by rw [← h.2]; rfl, by rw [← h.1]; rfl⟩
    · rintro ⟨k, rfl, rfl⟩
      rw [Link.prepareWriteOn_high]
      rfl
  · intro h
    induction readings with
    | nil => rfl
    | cons r rs ih =>
      have hr : r = true := h r (by simp)
      subst hr
      simp only [Link.prepareWriteOn, if_true]
      exact ih (fun x hx => h x (by simp [hx]))

/-- C35 (amended), at the readings high, high, low, high. -/
theorem C35_output_on_first_low_witness :
    Link.initial.prepareWriteOn [true, true, false, true] = some (Link.initial.prepareWrite, [true]) ∧
      ((∀ r ∈ [true, true], r = true) → Link.initial.prepareWriteOn [true, true] = none) :=
  ⟨((C35_output_on_first_low Link.initial [true, true, false, true]).1 Link.initial.prepareWrite
      [true]).2 ⟨2, rfl, rfl⟩,
    (C35_output_on_first_low Link.initial [true, true]).2⟩

/-! ### The counting states of the inbound parser -/

theorem Event.getLength_addByte_le (e : Event) (b : Nat) :
    (e.addByte b).getLength ≤ e.getLength + 1 := by
  unfold Event.addByte Event.getLength
  split
  · omega
  · simp

theorem Link.counting_of_cmd (l : Link) (hs : l.state = STATE_CMD) : l.Counting := by
  refine ⟨?_, ?_, ?_⟩
  · intro h; rw [hs] at h; cases h
  · intro h; rw [hs] at h; cases h
  · intro n h; rw [hs] at h; cases h

theorem Link.counting_after (m : Link) (a idx : Nat) (he : m.event = some a)
    (hidx : (m.heap a).getLength ≤ idx)
    (hA : m.state = STATE_APPEND_SECTOR → 1 ≤ m.count ∧ m.count ≤ 256 ∧ idx + m.count ≤ 262)
    (hL : m.state = STATE_GET_LENGTH → idx = 0)
    (hC : ∀ n, m.state.toCome = some n → idx + n ≤ 6) : m.Counting := by
  refine ⟨?_, ?_, ?_⟩
  · intro hs
    obtain ⟨k1, k2, k3⟩ := hA hs
    refine ⟨k1, k2, ?_⟩
    intro a2 ha2
    rw [he] at ha2
    cases ha2
    omega
  · intro hs a2 ha2
    rw [he] at ha2
    cases ha2
    have := hL hs
    omega
  · intro n hn a2 ha2
    rw [he] at ha2
    cases ha2
    have := hC n hn
    omega

theorem Link.newEvent_fresh (l m : Link) (t : EVENT_TYPE) (h : l.newEvent t = some m) :
    ∃ a, m.event = some a ∧ (m.heap a).getLength = 0 ∧ m.state = l.state := by
  unfold Link.newEvent Link.getAnEvent at h
  cases hf : l.freeEvent with
  | none => rw [hf] at h; simp at h
  | some a =>
    rw [hf] at h
    simp only [Option.some.injEq] at h
    subst h
    exact ⟨a, rfl, by simp [Event.clean, Event.getLength], rfl⟩

theorem Link.map_newEvent_counting (l m : Link) (t : EVENT_TYPE) (f : Link → Link × Bool)
    (d : Bool) (hs : l.state = STATE_CMD)
    (hf : ∀ q : Link, q.state = STATE_CMD → (f q).1.event = q.event ∧ (f q).1.heap = q.heap ∧
      ((f q).1.state = STATE_APPEND_SECTOR → (f q).1.count = 8))
    (h : (l.newEvent t).map f = some (m, d)) : m.Counting := by
  cases hn : l.newEvent t with
  | none => rw [hn] at h; simp at h
  | some q =>
    rw [hn] at h
    simp only [Option.map_some', Option.some.injEq] at h
    obtain ⟨a, h1, h2, h3⟩ := Link.newEvent_fresh l q t hn
    obtain ⟨k1, k2, k3⟩ := hf q (by rw [h3, hs])
    have hm : m = (f q).1 := by rw [h]
    subst hm
    refine Link.counting_after _ a 0 (by rw [k1, h1]) (by rw [k2, h2]) ?_ (fun _ => rfl) ?_
    · intro hst
      rw [k3 hst]
      omega
    · intro n hn2
      cases hst : (f q).1.state <;> rw [hst] at hn2 <;> simp [STATE.toCome] at hn2 <;> omega

theorem Link.command_counting (l m : Link) (b : Nat) (d : Bool) (hs : l.state = STATE_CMD)
    (h : l.command b = some (m, d)) : m.Counting := by
  unfold Link.command at h
  repeat' (refine ite_some_elim h ?_ ?_ <;> clear h <;> intro h)
  all_goals first
    | exact Link.map_newEvent_counting l m _ _ d hs
        (fun q hq => ⟨rfl, rfl, by simp [hq]⟩) h
    | (cases h; exact Link.counting_of_cmd _ hs)

theorem Link.stateMachine_counting (l m : Link) (b : Nat) (hb : b < 256) (hc : l.Counting)
    (h : l.stateMachine b = some m) : m.Counting := by
  obtain ⟨h1, h2, h3⟩ := hc
  cases hs : l.state
  case STATE_CMD =>
    simp only [Link.stateMachine, hs] at h
    cases hcmd : Link.command (l.uiSendEvent UI_TRANSACTION_START) b with
    | none => rw [hcmd] at h; simp at h
    | some r =>
      obtain ⟨q, d⟩ := r
      rw [hcmd] at h
      simp only [Option.map_some', Option.some.injEq] at h
      subst h
      have hq := Link.command_counting _ q b d (show (l.uiSendEvent UI_TRANSACTION_START).state =
        STATE_CMD from hs) hcmd
      cases d
      · exact hq
      · exact hq
  all_goals
    simp only [Link.stateMachine, hs, Link.eventAddByte] at h
    cases he : l.event with
    | none => rw [he] at h; simp at h
    | some a =>
      rw [he] at h
      simp only [Option.map_some', Option.some.injEq] at h
      have hlen := Event.getLength_addByte_le (l.heap a) b
      have f1 := fun hst => (h1 hst).2.2 a he
      have g1 := fun hst => (h1 hst).1
      have g2 := fun hst => (h1 hst).2.1
      have f2 := fun hst => h2 hst a he
      have f3 := fun n hn => h3 n hn a he
      rw [hs] at f1 g1 g2 f2 f3
      clear h1 h2 h3
      subst h
      try split_ifs
      all_goals
        refine Link.counting_after _ a ((l.heap a).getLength + 1) rfl (by simpa using hlen) ?_ ?_ ?_
      all_goals
        first
          | (intro hst; exfalso; revert hst; simp; done)
          | (intro n hst; exfalso; revert hst; simp [STATE.toCome]; done)
          | (intro n hst
             simp only [STATE.toCome, Option.some.injEq] at hst
             subst hst
             have := f3 _ rfl
             omega)
          | (intro hst
             have t1 := f3 1 rfl
             simp only []
             omega)
          | (intro hst
             have t1 := f1 rfl
             have t2 := g1 rfl
             have t3 := g2 rfl
             simp only [] at *
             unfold UINT_RANGE at *
             omega)
          | (intro hst
             have t1 := f2 rfl
             simp only [] at *
             omega)

theorem Link.act_counting (l m : Link) (x : Action) (hx : x.IsByte) (hc : l.Counting)
    (h : l.act x = some m) : m.Counting := by
  cases x with
  | byte b => exact Link.stateMachine_counting l m b hx hc h
  | getEvent =>
    simp only [Link.act, Link.getEvent, Option.some.injEq] at h
    subst h
    obtain ⟨h1, h2, h3⟩ := hc
    refine ⟨fun hs => ⟨(h1 hs).1, (h1 hs).2.1, ?_⟩, ?_, ?_⟩
    · intro a ha; simp at ha
    · intro _ a ha; simp at ha
    · intro n _ a ha; simp at ha

theorem Link.run_counting (xs : List Action) :
    ∀ l m : Link, (∀ x ∈ xs, x.IsByte) → l.Counting → l.run xs = some m → m.Counting := by
  induction xs with
  | nil =>
    intro l m _ hc h
    simp only [Link.run, Option.some.injEq] at h
    rw [← h]; exact hc
  | cons x xs ih =>
    intro l m hb hc h
    simp only [Link.run] at h
    cases hx : l.act x with
    | none => rw [hx] at h; simp at h
    | some l1 =>
      rw [hx] at h
      exact ih l1 m (fun y hy => hb y (by simp [hy]))
        (Link.act_counting l l1 x (hb x (by simp)) hc hx) h

/-- Bytes handed to the parser in `STATE_APPEND_SECTOR`, fewer than the
counter says: they are added to the message and the counter goes down by
their number, the state staying. -/
theorem Link.feed_appendSector (bs : List Nat) :
    ∀ (l : Link) (a : Nat), l.state = STATE_APPEND_SECTOR → l.event = some a →
      bs.length < l.count → l.count < UINT_RANGE →
      l.feed bs = some { l.store a ((l.heap a).addBytes bs) with count := l.count - bs.length } := by
  induction bs with
  | nil =>
    intro l a _ _ _ _
    simp [Link.feed, Link.store, Event.addBytes]
  | cons b bs ih =>
    intro l a hs he hlen hc
    simp only [List.length_cons] at hlen
    rw [Link.feed_cons, Link.step_appendSector l a b hs he (by omega) hc]
    refine (ih { l.store a ((l.heap a).addByte b) with count := l.count - 1 } a hs he
      (by simp; omega) (by simp; omega)).trans ?_
    simp [Link.store, Event.addBytes_cons, Nat.sub_sub, Nat.add_comm]

/-- C36: in every state the inbound parser reaches from `STATE_CMD` through
bytes handed to `stateMachine` and calls of `getEvent`, if the state is
`STATE_APPEND_SECTOR` then the counter satisfies `1 <= count <= 256`, so the
pre-decrement does not wrap below zero; and with the message behind `event`,
its length and the counter together are at most 262, below the capacity of
266, and the block completes after exactly `count` further bytes: after
fewer the state is still `STATE_APPEND_SECTOR`, after `count` of them the
parser is back in `STATE_CMD` with the message available and its length grown
by `count`. -/
theorem C36_append_sector_counter (l0 l : Link) (xs : List Action)
    (hstart : l0.state = STATE_CMD) (hbytes : ∀ x ∈ xs, x.IsByte) (hrun : l0.run xs = some l)
    (hstate : l.state = STATE_APPEND_SECTOR) :
    1 ≤ l.count ∧ l.count ≤ 256 ∧
      (l.count + (UINT_RANGE - 1)) % UINT_RANGE = l.count - 1 ∧
      ∀ a, l.event = some a →
        (l.heap a).getLength + l.count ≤ 262 ∧ 262 < BUFFER_SIZE ∧
        ∀ bs : List Nat, bs.length = l.count →
          (∀ k, k < l.count →
            (l.feed (bs.take k)).map Link.state = some STATE_APPEND_SECTOR) ∧
          ∃ m, l.feed bs = some m ∧ m.state = STATE_CMD ∧ m.hasEvent = true ∧
            m.event = some a ∧ (m.heap a).getLength = (l.heap a).getLength + l.count := by
  have hc := Link.run_counting xs l0 l hbytes (Link.counting_of_cmd l0 hstart) hrun
  obtain ⟨h1, h2, h3⟩ := hc.1 hstate
  have hU : UINT_RANGE = 65536 := rfl
  have hB : BUFFER_SIZE = 266 := rfl
  refine ⟨h1, h2, by rw [hU]; omega, ?_⟩
  intro a he
  have hlen := h3 a he
  refine ⟨hlen, by decide, ?_⟩
  intro bs hbs
  constructor
  · intro k hk
    rw [Link.feed_appendSector (bs.take k) l a hstate he
      (by rw [List.length_take]; omega) (by rw [hU]; omega)]
    simp [Link.store, hstate]
  · rcases eq_nil_or_snoc bs with rfl | ⟨init, z, rfl⟩
    · simp at hbs; omega
    · have hinit : init.length + 1 = l.count := by simpa using hbs
      have hfeed := Link.feed_appendSector init l a hstate he (by omega) (by rw [hU]; omega)
      have hlast := Link.step_appendSector_last
        { l.store a ((l.heap a).addBytes init) with count := l.count - init.length } a z
        (by simp [Link.store, hstate]) (by simp [Link.store, he]) (by simp; omega)
      have hidx := (Event.addBytes_spec (init ++ [z]) (l.heap a)
        (by simp [Event.getLength] at hlen; rw [hB]; simp; omega)).2.1
      refine ⟨{ l.store a ((l.heap a).addBytes (init ++ [z])) with
                  count := 0, state := STATE_CMD, hasEvent := true }, ?_, rfl, rfl, ?_, ?_⟩
      · rw [Link.feed_append, hfeed, Option.some_bind, Link.feed_cons, hlast, Option.some_bind]
        simp [Link.feed, Link.store, Event.addBytes_append, Event.addBytes_cons, Event.addBytes]
      · simp [Link.store, he]
      · simp only [Event.getLength] at hlen ⊢
        simp only [Link.store, Function.update_same]
        rw [hidx, hbs]

/-- C36, at the initial link after the set-clock byte `0x08`: the counter is
8. -/
theorem C36_append_sector_counter_witness :
    Link.initial.state = STATE_CMD ∧ (∀ x ∈ [Action.byte 0x08], x.IsByte) ∧
      Link.initial.run [Action.byte 0x08] = some Link.clockSetting ∧
      Link.clockSetting.state = STATE_APPEND_SECTOR ∧ Link.clockSetting.count = 8 ∧
      1 ≤ Link.clockSetting.count ∧ Link.clockSetting.count ≤ 256 ∧
      (Link.clockSetting.count + (UINT_RANGE - 1)) % UINT_RANGE = Link.clockSetting.count - 1 :=
  ⟨rfl, by simp [Action.IsByte], rfl, rfl, rfl,
    (C36_append_sector_counter Link.initial Link.clockSetting [Action.byte 0x08] rfl
      (by simp [Action.IsByte]) rfl rfl).1,
    (C36_append_sector_counter Link.initial Link.clockSetting [Action.byte 0x08] rfl
      (by simp [Action.IsByte]) rfl rfl).2.1,
    (C36_append_sector_counter Link.initial Link.clockSetting [Action.byte 0x08] rfl
      (by simp [Action.IsByte]) rfl rfl).2.2.1⟩

/-! ## The claims on the reachable states of a disk and on the other slots -/

/-- C37: in every `Disk` state reached from construction by any sequence of
`mount`, `unmount`, `close`, `read` and `write`, whatever the storage driver
holds and answers, an open disk is a mounted disk: `isOpen()` implies
`isMounted()`.  The converse fails: `close` on the sample disk leaves it
mounted and not open. -/
theorem C37_open_implies_mounted :
    (∀ (raw : Disk) (ops : List DiskOp),
        ((Disk.new raw).applyAll ops).isOpen = true →
          ((Disk.new raw).applyAll ops).isMounted = true) ∧
      (Disk.sampleRW.close.isMounted = true ∧ Disk.sampleRW.close.isOpen = false) ∧
      Disk.sampleRW = (Disk.new Disk.blank).applyAll [DiskOp.mount SDCard.sample nameA false] := by
  refine ⟨?_, ⟨rfl, rfl⟩, rfl⟩
  intro raw ops h
  exact (Disk.applyAll_sound ops (Disk.new raw) (Disk.new_sound raw)).2 h

/-- C37, at the disk built in zeroed memory and mounted on `A.DSK` of the
sample card. -/
theorem C37_open_implies_mounted_witness :
    ((Disk.new Disk.blank).applyAll [DiskOp.mount SDCard.sample nameA false]).isOpen = true ∧
      ((Disk.new Disk.blank).applyAll [DiskOp.mount SDCard.sample nameA false]).isMounted = true :=
  ⟨rfl, C37_open_implies_mounted.1 Disk.blank [DiskOp.mount SDCard.sample nameA false] rfl⟩

theorem Disks.slot_eq_of_getElem (ds ds1 : Disks) (e : Nat) (h : ds1.disks[e]? = ds.disks[e]?) :
    ds1.slot e = ds.slot e := by
  simp [Disks.slot, List.getD_eq_getElem?_getD, h]

/-- C38: the per-drive operations touch only their own slot: with the four
slots, for every drive `d` in 0..3 and every other drive `e` in 0..3, each of
`Disks::mount(d, ...)`, `Disks::unmount(d)`, `Disks::read(d, ...)` and
`Disks::write(d, ...)` leaves slot `e` as it was, so its mounted flag, open
flag, read-only flag, filename and last error are unchanged. -/
theorem C38_other_slots_untouched (ds : Disks) (sd : SDCard) (d e : Nat) (filename : List Nat)
    (readOnly : Bool) (offset : Nat) (buf : List Nat) (wrote : Nat)
    (hslots : ds.disks.length = MAX_DISKS) (hd : d < 4) (_he : e < 4) (hne : d ≠ e) :
    (∃ r, ds.mount sd d filename readOnly = some r ∧ r.1.slot e = ds.slot e ∧
        (ds.slot e).Shows (r.1.slot e)) ∧
      (∃ r, ds.unmount d = some r ∧ r.1.slot e = ds.slot e ∧ (ds.slot e).Shows (r.1.slot e)) ∧
      (∃ r, ds.read sd d offset buf = some r ∧ r.1.slot e = ds.slot e ∧
        (ds.slot e).Shows (r.1.slot e)) ∧
      (∃ r, ds.write sd d offset buf wrote = some r ∧ r.1.slot e = ds.slot e ∧
        (ds.slot e).Shows (r.1.slot e)) := by
  have hlt : d < ds.disks.length := by rw [hslots]; exact hd
  have hx : ds.disks[d]? = some (ds.disks[d]) := List.getElem?_eq_getElem hlt
  have hset : ∀ y : Disk, (ds.disks.set d y)[e]? = ds.disks[e]? :=
    fun y => List.getElem?_set_ne hne
  have shows : ∀ ds1 : Disks, ds1.slot e = ds.slot e → (ds.slot e).Shows (ds1.slot e) := by
    intro ds1 h
    rw [h]
    exact ⟨rfl, rfl, rfl, rfl, rfl⟩
  have fin : ∀ ds1 : Disks, ds1.disks[e]? = ds.disks[e]? →
      ds1.slot e = ds.slot e ∧ (ds.slot e).Shows (ds1.slot e) :=
    fun ds1 h => ⟨Disks.slot_eq_of_getElem ds ds1 e h, shows ds1 (Disks.slot_eq_of_getElem ds ds1 e h)⟩
  refine ⟨?_, ?_, ?_, ?_⟩
  · obtain ⟨r, hr, _, hdisks⟩ := ds.mount_some sd d filename readOnly hlt
    exact ⟨r, hr, fin r.1 (by rw [hdisks]; exact hset _)⟩
  · refine ⟨_, by unfold Disks.unmount; rw [hx], fin _ (hset _)⟩
  · unfold Disks.read
    rw [hx]
    simp only []
    split_ifs
    · exact ⟨_, rfl, fin _ (hset _)⟩
    · exact ⟨_, rfl, fin _ (hset _)⟩
    · exact ⟨_, rfl, fin _ rfl⟩
  · unfold Disks.write
    rw [hx]
    simp only []
    split_ifs
    · exact ⟨_, rfl, fin _ (hset _)⟩
    · exact ⟨_, rfl, fin _ (hset _)⟩
    · exact ⟨_, rfl, fin _ rfl⟩

/-- C38, at the sample drive set: operations on drive 0 seen from drive 1. -/
theorem C38_other_slots_untouched_witness :
    Disks.sample.disks.length = MAX_DISKS ∧
      (∃ r, Disks.sample.mount SDCard.sample 0 nameB true = some r ∧
        r.1.slot 1 = Disks.sample.slot 1 ∧ (Disks.sample.slot 1).Shows (r.1.slot 1)) ∧
      (∃ r, Disks.sample.unmount 0 = some r ∧ r.1.slot 1 = Disks.sample.slot 1 ∧
        (Disks.sample.slot 1).Shows (r.1.slot 1)) :=
  ⟨rfl,
    (C38_other_slots_untouched Disks.sample SDCard.sample 0 1 nameB true 0 [] 0 rfl (by decide)
      (by decide) (by decide)).1,
    (C38_other_slots_untouched Disks.sample SDCard.sample 0 1 nameB true 0 [] 0 rfl (by decide)
      (by decide) (by decide)).2.1⟩

/-! ## The claims on saving twice and on the last line of the file -/

/-- C39 (refuted by the code): the primary file made of one empty line ends
with a newline; the sample drive set (drives 0 and 1 open on `A.DSK`) saves it
as the empty line, `0:A.DSK`, `1:A.DSK`; a second `saveConfig`, all opens
managed and no mount changed, copies the line `0:A.DSK` that follows the empty
line instead of replacing it, leaves drive 0 unmarked, and appends `0:A.DSK`
once more: the file after two saves is not the file after one. -/
theorem C39_second_save_appends_again :
    (SDCard.withConfig [0x0a]).files CONFIG_FILE = some [0x0a] ∧
      SDCard.savedOnce.files CONFIG_FILE =
        some ([0x0a] ++ ([0x30, 0x3a] ++ nameA ++ [0x0d, 0x0a]) ++
          ([0x31, 0x3a] ++ nameA ++ [0x0d, 0x0a])) ∧
      (Disks.sample.saveConfig (DisksRest.fresh.atStart 0) SDCard.savedOnce
          true true true true).2.1.files CONFIG_FILE =
        some ([0x0a] ++ ([0x30, 0x3a] ++ nameA ++ [0x0d, 0x0a]) ++
          ([0x31, 0x3a] ++ nameA ++ [0x0d, 0x0a]) ++ ([0x30, 0x3a] ++ nameA ++ [0x0d, 0x0a])) ∧
      (Disks.sample.saveConfig (DisksRest.fresh.atStart 0) SDCard.savedOnce
          true true true true).2.1.files CONFIG_FILE ≠ SDCard.savedOnce.files CONFIG_FILE := by
  refine ⟨rfl, rfl, rfl, ?_⟩
  decide

/-- A well-formed entry without its newline, read from the start of a line,
makes no call of `mount` and changes no slot. -/
theorem Disks.configRun_entry_open (ds : Disks) (m : DisksRest) (sd : SDCard) (d : Nat)
    (flag : Option Nat) (name : List Nat) (hs : m.state = FIRST_CHAR)
    (hwf : (ConfigLine.entry d flag name).WellFormed) :
    ∃ m1, Disks.configRun ds m sd (ConfigLine.entry d flag name).bytes.dropLast = some (ds, m1) ∧
      m1.mountLog = m.mountLog := by
  obtain ⟨hd, hflag, hlen1, hlen2, hchars⟩ := hwf
  have tail : ∀ n : DisksRest, n.state = FILENAME → n.filename = [] →
      Disks.configRun ds n sd name = some (ds, { n with filename := name }) := by
    intro n hn hf
    rw [Disks.configRun_name ds sd name n hn hchars (by rw [hf]; simp; omega), hf]
    rfl
  have h0 : ∀ l : List Nat, (l ++ [0x0a]).dropLast = l := fun l => by simp
  rcases hflag with rfl | rfl | rfl
  · have hb : (ConfigLine.entry d none name).bytes.dropLast = (0x30 + d) :: 0x3a :: name := by
      show (([0x30 + d, 0x3a] ++ name) ++ [0x0a]).dropLast = _
      rw [h0]; rfl
    rw [hb, Disks.configRun_cons, ds.step_first_digit m sd d hs hd]
    simp only [Option.some_bind]
    rw [Disks.configRun_cons, Disks.step_after_colon ds _ sd rfl]
    simp only [Option.some_bind]
    rw [tail _ rfl rfl]
    exact ⟨_, rfl, rfl⟩
  · have hb : (ConfigLine.entry d (some 0x52) name).bytes.dropLast =
        (0x30 + d) :: 0x52 :: 0x3a :: name := by
      show (([0x30 + d, 0x52, 0x3a] ++ name) ++ [0x0a]).dropLast = _
      rw [h0]; rfl
    rw [hb, Disks.configRun_cons, ds.step_first_digit m sd d hs hd]
    simp only [Option.some_bind]
    rw [Disks.configRun_cons, Disks.step_after_flag ds _ sd 0x52 rfl (Or.inl rfl)]
    simp only [Option.some_bind]
    rw [Disks.configRun_cons, Disks.step_after_colon ds _ sd rfl]
    simp only [Option.some_bind]
    rw [tail _ rfl rfl]
    exact ⟨_, rfl, rfl⟩
  · have hb : (ConfigLine.entry d (some 0x72) name).bytes.dropLast =
        (0x30 + d) :: 0x72 :: 0x3a :: name := by
      show (([0x30 + d, 0x72, 0x3a] ++ name) ++ [0x0a]).dropLast = _
      rw [h0]; rfl
    rw [hb, Disks.configRun_cons, ds.step_first_digit m sd d hs hd]
    simp only [Option.some_bind]
    rw [Disks.configRun_cons, Disks.step_after_flag ds _ sd 0x72 rfl (Or.inr rfl)]
    simp only [Option.some_bind]
    rw [Disks.configRun_cons, Disks.step_after_colon ds _ sd rfl]
    simp only [Option.some_bind]
    rw [tail _ rfl rfl]
    exact ⟨_, rfl, rfl⟩

/-- C40: the parser mounts a drive only when its filename is ended by a
newline: for every configuration file made of well-formed newline-terminated
lines followed by a last drive line `D:name` or `DR:name` with no newline
after it, with the card present and the file opening, `mountDefaults` issues
no mount for that last line, and the earlier lines are mounted as usual: the
calls of `mount` are exactly those of the earlier lines, in order, and the
drive set afterwards is the one they give. -/
theorem C40_unterminated_last_line (ds : Disks) (m : DisksRest) (sd : SDCard) (which : Nat)
    (lines : List ConfigLine) (d : Nat) (flag : Option Nat) (name : List Nat)
    (hslots : ds.disks.length = MAX_DISKS) (hwf : ∀ l ∈ lines, l.WellFormed)
    (hlast : (ConfigLine.entry d flag name).WellFormed)
    (hfile : sd.files (configName which) =
      some (ConfigLine.file lines ++ (ConfigLine.entry d flag name).bytes.dropLast))
    (hopens : sd.opens (configName which) = true) :
    ∃ ds1 m1, ds.mountDefaults m sd false which = some (ds1, m1) ∧
      m1.mountLog = m.mountLog ++ ConfigLine.mounts lines ∧
      Disks.mountAll ds sd (ConfigLine.mounts lines) = some ds1 := by
  rw [Disks.mountDefaults_run ds m sd which _ hfile hopens]
  obtain ⟨ds1, m1, h1, h2, _, h4, h5, _⟩ :=
    Disks.configRun_lines sd lines hwf ds (m.atStart which) rfl hslots
  obtain ⟨m2, k1, k2⟩ := Disks.configRun_entry_open ds1 m1 sd d flag name h4 hlast
  rw [Disks.configRun_append, h1]
  simp only [Option.some_bind]
  rw [k1]
  exact ⟨ds1, _, rfl, by simp only []; rw [k2]; exact h5, h2⟩

/-- C40, at the file `0:A.DSK` with its newline followed by `1R:B.DSK`
without one, on a card with both images: only drive 0 is mounted. -/
theorem C40_unterminated_last_line_witness :
    Disks.fresh.disks.length = MAX_DISKS ∧
      (ConfigLine.entry 1 (some 0x52) nameB).WellFormed ∧
      ∃ ds1 m1, Disks.fresh.mountDefaults DisksRest.fresh
          (SDCard.withConfig (ConfigLine.file [ConfigLine.entry 0 none nameA] ++
            (ConfigLine.entry 1 (some 0x52) nameB).bytes.dropLast)) false 0 = some (ds1, m1) ∧
        m1.mountLog = DisksRest.fresh.mountLog ++
          ConfigLine.mounts [ConfigLine.entry 0 none nameA] ∧
        Disks.mountAll Disks.fresh
          (SDCard.withConfig (ConfigLine.file [ConfigLine.entry 0 none nameA] ++
            (ConfigLine.entry 1 (some 0x52) nameB).bytes.dropLast))
          (ConfigLine.mounts [ConfigLine.entry 0 none nameA]) = some ds1 :=
  ⟨rfl, by simp [ConfigLine.WellFormed, nameB],
    C40_unterminated_last_line Disks.fresh DisksRest.fresh
      (SDCard.withConfig (ConfigLine.file [ConfigLine.entry 0 none nameA] ++
        (ConfigLine.entry 1 (some 0x52) nameB).bytes.dropLast)) 0
      [ConfigLine.entry 0 none nameA] 1 (some 0x52) nameB rfl
      (by simp [ConfigLine.WellFormed, nameA]) (by simp [ConfigLine.WellFormed, nameB]) rfl rfl⟩

end SDDrive
